import Mathlib

/-! Fluent: a verification development of the lexer, parser and code generator.

Shallow embedding of `src/src/lexer.c`, `src/src/parser.c`, `src/src/codegen.c`
and the driver `src/src/main.c`.

Modelling conventions.

* The C string `src` together with the cursor `pos` is kept as the list of the
  characters from the cursor on (the pointer `src + pos`) and the index `pos`.
  Reading `src[pos]` at the end of the list gives the terminating NUL, so an
  embedded NUL character ends the input exactly as it does in C.
* `int` counters (`pos`, `line`, `column`, `spaces`, the indentation widths)
  are natural numbers: they start non-negative and are only incremented, and
  each subtraction in the source (`column - 1`, `column - 2`, `line - 1`)
  follows as many increments of the same counter.
* The array `indent_levels` is a list of `MAX_INDENT_LEVELS` widths, read with
  `List.getD` and written with `List.set`.
* `exit(1)` after a diagnostic is the outcome `Except.error` with the kind of
  the diagnostic; the text written to `stderr` is not modelled.
* Tokens are values, with the fields they have when `get_next_token` returns.
  Of their storage the model keeps what `free_token` depends on: whether the
  token is returned in a block obtained from `malloc` or as the address of a
  compound literal (`Token.on_heap`). `free` of a pointer that `malloc` did not
  return has no defined behaviour; the C library ends the run there, and the
  model gives it the outcome `Error.invalid_free`. The allocation of nodes
  and the release of the tree (`free_ast`) are not modelled.
* Recursion that is not structural takes a recursion budget (`fuel`); the
  outcome `Error.out_of_fuel` belongs to the model only.
-/

namespace Fluent

/-! ## Lexer (`lexer.h`, `lexer.c`) -/

/-- The enumeration `TokenType` of `lexer.h`. -/
inductive TokenType
  | TOKEN_PLUS
  | TOKEN_MINUS
  | TOKEN_ASTERISK
  | TOKEN_SLASH
  | TOKEN_ASSIGN
  | TOKEN_EQUAL
  | TOKEN_NOT_EQUAL
  | TOKEN_LESS
  | TOKEN_GREATER
  | TOKEN_LESS_EQUAL
  | TOKEN_GREATER_EQUAL
  | TOKEN_LPAREN
  | TOKEN_RPAREN
  | TOKEN_COLON
  | TOKEN_COMMA
  | TOKEN_FUNC
  | TOKEN_LET
  | TOKEN_VAR
  | TOKEN_IF
  | TOKEN_ELSE
  | TOKEN_ELIF
  | TOKEN_FOR
  | TOKEN_WHILE
  | TOKEN_RETURN
  | TOKEN_IDENTIFIER
  | TOKEN_NUMBER
  | TOKEN_STRING
  | TOKEN_EOF
  | TOKEN_INDENT
  | TOKEN_DEDENT
  | TOKEN_NEWLINE
  | TOKEN_UNKNOWN
  deriving DecidableEq

open TokenType

/-- The struct `Token` of `lexer.h`. -/
structure Token where
  type : TokenType
  value : String
  line : Nat
  column : Nat
  deriving DecidableEq

/-- The fatal outcomes of the pipeline: one per diagnostic of `lexer.c` and
`parser.c`; `invalid_free` for a call of `free` with a pointer that `malloc`
did not return, where the run is ended by the C library and not by a
diagnostic of the program; and the exhaustion of the recursion budget of the
model. -/
inductive Error
  | too_many_indentation_levels
  | unterminated_string
  | unexpected_bang
  | unknown_character (c : Char)
  | expected_identifier_after_let_or_var
  | expected_assign_after_variable_name
  | function_calls_not_implemented
  | unexpected_token_after_identifier
  | expected_rparen_after_expression
  | unexpected_token_in_factor
  | expected_function_name_after_func
  | function_parameters_not_implemented
  | expected_colon_after_function_name
  | expected_indentation
  | expected_dedentation
  | expected_colon_after_if_condition
  | expected_colon_after_else
  | expected_colon_after_while_condition
  | for_loops_not_implemented
  | invalid_free
  | out_of_fuel
  deriving DecidableEq

/-- The terminating character of a C string. -/
def NUL : Char := Char.ofNat 0

/-- The double quote character. -/
def DQUOTE : Char := Char.ofNat 34

/-- The single quote character. -/
def SQUOTE : Char := Char.ofNat 39

/-- `#define MAX_INDENT_LEVELS 100`. -/
def MAX_INDENT_LEVELS : Nat := 100

/-- The file-scope state of `lexer.c` (`src`, `pos`, `line`, `column`,
`indent_levels`, `indent_stack_top`) and the static local `at_line_start` of
`get_next_token`. The static `indent_level` is written by `init_lexer` and
never read; it is left out. -/
structure Lexer where
  src : List Char
  pos : Nat
  line : Nat
  column : Nat
  indent_levels : List Nat
  indent_stack_top : Nat
  at_line_start : Bool
  deriving DecidableEq

/-- The values of the statics when the program starts. -/
def Lexer.fresh : Lexer :=
  { src := [], pos := 0, line := 1, column := 1,
    indent_levels := List.replicate MAX_INDENT_LEVELS 0, indent_stack_top := 0,
    at_line_start := true }

/-- `init_lexer`: everything is reset except `at_line_start`, which is local to
`get_next_token`, and the entries of `indent_levels` above index 0. -/
def init_lexer (source_code : List Char) (L : Lexer) : Lexer :=
  { L with src := source_code, pos := 0, line := 1, column := 1,
           indent_levels := L.indent_levels.set 0 0,
           indent_stack_top := 0 }

/-- `indent_levels[indent_stack_top]`: the width on top of the indentation
stack. -/
def Lexer.top_width (L : Lexer) : Nat := L.indent_levels.getD L.indent_stack_top 0

/-- `peek`: the character under the cursor, NUL at the end. -/
def peek (L : Lexer) : Char := L.src.headD NUL

/-- `advance`: step over the character under the cursor, keeping `line` and
`column` up to date. The character returned by the C function is `peek L`. -/
def advance (L : Lexer) : Lexer :=
  if peek L = '\n' then
    { L with src := L.src.tail, pos := L.pos + 1, line := L.line + 1, column := 1 }
  else
    { L with src := L.src.tail, pos := L.pos + 1, column := L.column + 1 }

/-- The loop `while (p(peek())) advance();`, at most `n` rounds. -/
def advance_while_aux (p : Char → Bool) : Nat → Lexer → Lexer
  | 0, L => L
  | n + 1, L => if p (peek L) then advance_while_aux p n (advance L) else L

/-- The loop `while (p(peek())) advance();`. Every `p` of `lexer.c` is false at
NUL, so the loop ends within `src.length` rounds. -/
def advance_while (p : Char → Bool) (L : Lexer) : Lexer :=
  advance_while_aux p L.src.length L

/-- `skip_whitespace`. -/
def skip_whitespace (L : Lexer) : Lexer :=
  advance_while (fun c => c = ' ' || c = '\t') L

/-- `skip_comment`. -/
def skip_comment (L : Lexer) : Lexer :=
  advance_while (fun c => c ≠ '\n' && c ≠ NUL) L

/-- The keyword lookup of `get_next_token` (the `strcmp` chain). -/
def keyword_type (text : String) : TokenType :=
  if text = "func" then TOKEN_FUNC
  else if text = "let" then TOKEN_LET
  else if text = "var" then TOKEN_VAR
  else if text = "if" then TOKEN_IF
  else if text = "else" then TOKEN_ELSE
  else if text = "elif" then TOKEN_ELIF
  else if text = "for" then TOKEN_FOR
  else if text = "while" then TOKEN_WHILE
  else if text = "return" then TOKEN_RETURN
  else TOKEN_IDENTIFIER

/-- `strndup(&src[start_pos], pos - start_pos - drop)`: the text between the
cursor of `start` and the cursor of `stop`, without its last `drop`
characters. -/
def token_text (start stop : Lexer) (drop : Nat) : String :=
  String.mk (start.src.take (stop.pos - start.pos - drop))

/-- The outcome of one call of `get_next_token`: the token and the state after
the call, or a fatal error. -/
abbrev LexResult : Type := Except Error (Token × Lexer)

/-- The first branch of `get_next_token` (`peek() == 0`): one pending DEDENT
per call, then EOF. -/
def end_of_input (L : Lexer) : LexResult :=
  if L.indent_stack_top > 0 then
    .ok (⟨TOKEN_DEDENT, "<DEDENT>", L.line, L.column⟩,
         { L with indent_stack_top := L.indent_stack_top - 1 })
  else
    .ok (⟨TOKEN_EOF, "<EOF>", L.line, L.column⟩, L)

/-- The loop `while (peek() == ' ') { advance(); spaces++; }`, at most `n`
rounds. -/
def count_spaces : Nat → Lexer → Nat → Lexer × Nat
  | 0, L, spaces => (L, spaces)
  | n + 1, L, spaces =>
    if peek L = ' ' then count_spaces n (advance L) (spaces + 1) else (L, spaces)

/-- What the block `if (at_line_start) { ... }` of `get_next_token` does. -/
inductive LineStart
  /-- The block returns: INDENT, DEDENT, or the too-many-levels error. -/
  | returns (r : LexResult)
  /-- An empty line: `return get_next_token();`. -/
  | empty_line (L : Lexer)
  /-- The block falls through to the scanner. -/
  | scans (L : Lexer)

/-- The body of the block `if (at_line_start) { ... }` of `get_next_token`.
The loop `while (spaces < indent_levels[indent_stack_top])` returns in its
first round, so it is a conditional. -/
def line_start (L : Lexer) : LineStart :=
  let r := count_spaces L.src.length { L with at_line_start := false } 0
  let L1 := r.1
  let spaces := r.2
  if peek L1 = '\n' ∨ peek L1 = NUL then
    .empty_line L1
  else if spaces > L1.top_width then
    if L1.indent_stack_top + 1 ≥ MAX_INDENT_LEVELS then
      .returns (.error .too_many_indentation_levels)
    else
      .returns (.ok (⟨TOKEN_INDENT, "<INDENT>", L1.line, L1.column⟩,
        { L1 with indent_stack_top := L1.indent_stack_top + 1,
                  indent_levels := L1.indent_levels.set (L1.indent_stack_top + 1) spaces }))
  else if spaces < L1.top_width then
    .returns (.ok (⟨TOKEN_DEDENT, "<DEDENT>", L1.line, L1.column⟩,
      { L1 with indent_stack_top := L1.indent_stack_top - 1 }))
  else
    .scans L1

/-- A one-character operator or punctuation token: `advance()` and the token
at `column - 1`. -/
def single_char (t : TokenType) (text : String) (L : Lexer) : LexResult :=
  let L1 := advance L
  .ok (⟨t, text, L1.line, L1.column - 1⟩, L1)

/-- An operator that may be followed by `=`: `advance()`, then either the
two-character token at `column - 2` or what `alone` gives. -/
def with_equals (two : TokenType) (text2 : String) (alone : Lexer → LexResult)
    (L : Lexer) : LexResult :=
  let L1 := advance L
  if peek L1 = '=' then
    let L2 := advance L1
    .ok (⟨two, text2, L2.line, L2.column - 2⟩, L2)
  else alone L1

/-- The `switch (c)` at the end of `get_next_token`, `c` being `peek()`. -/
def scan_operator (L : Lexer) : LexResult :=
  if peek L = '+' then single_char TOKEN_PLUS "+" L
  else if peek L = '-' then single_char TOKEN_MINUS "-" L
  else if peek L = '*' then single_char TOKEN_ASTERISK "*" L
  else if peek L = '/' then single_char TOKEN_SLASH "/" L
  else if peek L = '(' then single_char TOKEN_LPAREN "(" L
  else if peek L = ')' then single_char TOKEN_RPAREN ")" L
  else if peek L = ':' then single_char TOKEN_COLON ":" L
  else if peek L = ',' then single_char TOKEN_COMMA "," L
  else if peek L = '=' then
    with_equals TOKEN_EQUAL "=="
      (fun L1 => .ok (⟨TOKEN_ASSIGN, "=", L1.line, L1.column - 1⟩, L1)) L
  else if peek L = '!' then
    with_equals TOKEN_NOT_EQUAL "!=" (fun _ => .error .unexpected_bang) L
  else if peek L = '<' then
    with_equals TOKEN_LESS_EQUAL "<="
      (fun L1 => .ok (⟨TOKEN_LESS, "<", L1.line, L1.column - 1⟩, L1)) L
  else if peek L = '>' then
    with_equals TOKEN_GREATER_EQUAL ">="
      (fun L1 => .ok (⟨TOKEN_GREATER, ">", L1.line, L1.column - 1⟩, L1)) L
  else .error (.unknown_character (peek L))

/-- The characters of an identifier after its first: `isalnum(c) || c == '_'`. -/
def is_identifier_char (c : Char) : Bool := c.isAlphanum || c = '_'

/-- The branch of `get_next_token` for identifiers and keywords; `stop` is the
state after the loop over the characters of the word. -/
def identifier_token (L stop : Lexer) : LexResult :=
  .ok (⟨keyword_type (token_text L stop 0), token_text L stop 0, stop.line, L.column⟩, stop)

/-- The state after the digits of a number and its optional decimal part. -/
def number_end (L : Lexer) : Lexer :=
  if peek (advance_while Char.isDigit L) = '.' then
    advance_while Char.isDigit (advance (advance_while Char.isDigit L))
  else advance_while Char.isDigit L

/-- The branch of `get_next_token` for numbers. -/
def number_token (L : Lexer) : LexResult :=
  .ok (⟨TOKEN_NUMBER, token_text L (number_end L) 0, (number_end L).line, L.column⟩,
       number_end L)

/-- The characters inside a string opened by `quote`. -/
def in_string (quote : Char) (c : Char) : Bool := c ≠ quote && c ≠ NUL

/-- The branch of `get_next_token` for strings: `body` is the state after the
opening quote and `stop` the state after the loop over the characters of
the string, at the closing quote or at the end of the input. -/
def string_token (body stop : Lexer) : LexResult :=
  if peek stop = NUL then .error .unterminated_string
  else
    .ok (⟨TOKEN_STRING, token_text body (advance stop) 1, (advance stop).line, body.column⟩,
         advance stop)

/-- The scanner of `get_next_token` after `skip_whitespace()`, `c` being
`peek()`; `again` is the recursive call `get_next_token()` made after a
comment. -/
def scan_at (again : Lexer → LexResult) (L : Lexer) : LexResult :=
  if peek L = '\n' then
    .ok (⟨TOKEN_NEWLINE, "<NEWLINE>", (advance L).line - 1, (advance L).column⟩,
         { advance L with at_line_start := true })
  else if peek L = '#' then
    again (skip_comment (advance L))
  else if (peek L).isAlpha || peek L = '_' then
    identifier_token L (advance_while is_identifier_char L)
  else if (peek L).isDigit then number_token L
  else if peek L = DQUOTE ∨ peek L = SQUOTE then
    string_token (advance L) (advance_while (in_string (peek L)) (advance L))
  else scan_operator L

/-- The scanner of `get_next_token`, from `skip_whitespace()` to the end of the
function. -/
def scan_token (again : Lexer → LexResult) (L : Lexer) : LexResult :=
  scan_at again (skip_whitespace L)

/-- `get_next_token` with a budget for its recursive calls (after an empty
line and after a comment). -/
def get_next_token_aux : Nat → Lexer → LexResult
  | 0, _ => .error .out_of_fuel
  | fuel + 1, L =>
    if peek L = NUL then end_of_input L
    else
      match (if L.at_line_start then line_start L else LineStart.scans L) with
      | .returns r => r
      | .empty_line L1 => get_next_token_aux fuel L1
      | .scans L1 => scan_token (get_next_token_aux fuel) L1

/-- `get_next_token`. A recursive call starts at a newline or at the end of
the input with `at_line_start` cleared and does not recur, so a budget of two
calls is never exhausted (`get_next_token_aux_budget`). -/
def get_next_token (L : Lexer) : LexResult := get_next_token_aux 2 L

/-- The lexer state after `init_lexer` in a program that has just started. -/
def start (source_code : String) : Lexer := init_lexer source_code.data Lexer.fresh

/-- The kinds of the tokens returned by the first `n` calls of
`get_next_token`, stopping after EOF or at an error. -/
def token_kinds : Nat → Lexer → List TokenType
  | 0, _ => []
  | n + 1, L =>
    match get_next_token L with
    | .error _ => []
    | .ok (t, L1) => if t.type = TOKEN_EOF then [TOKEN_EOF] else t.type :: token_kinds n L1

/-! ## Abstract syntax (`ast.h`) -/

/-- The struct `ASTNode` of `ast.h` as a tagged variant: each kind of
`ASTNodeType` carries the fields that the parser sets and the generator reads
for that kind. The `next` links of a statement list are a list. -/
inductive ASTNode
  | program (statements : List ASTNode)
  | block (statements : List ASTNode)
  | var_decl (var_name : String) (is_mutable : Bool) (expr : ASTNode)
  | assignment (var_name : String) (expr : ASTNode)
  | func_decl (func_name : String) (body : ASTNode)
  | if_stmt (condition : ASTNode) (then_branch : ASTNode) (else_branch : Option ASTNode)
  | while_stmt (condition : ASTNode) (body : ASTNode)
  | for_stmt
  | return_stmt (expr : ASTNode)
  | bin_op (op : TokenType) (left : ASTNode) (right : ASTNode)
  | number (value : String)
  | identifier (value : String)
  | noop

mutual
/-- Structural equality of two nodes, as a Boolean. -/
def ASTNode.beq : ASTNode → ASTNode → Bool
  | .program a, x => match x with
    | .program b => ASTNode.beq_list a b
    | _ => false
  | .block a, x => match x with
    | .block b => ASTNode.beq_list a b
    | _ => false
  | .var_decl n m e, x => match x with
    | .var_decl n2 m2 e2 => decide (n = n2) && (decide (m = m2) && ASTNode.beq e e2)
    | _ => false
  | .assignment n e, x => match x with
    | .assignment n2 e2 => decide (n = n2) && ASTNode.beq e e2
    | _ => false
  | .func_decl n e, x => match x with
    | .func_decl n2 e2 => decide (n = n2) && ASTNode.beq e e2
    | _ => false
  | .if_stmt c t e, x => match x with
    | .if_stmt c2 t2 e2 => ASTNode.beq c c2 && (ASTNode.beq t t2 && ASTNode.beq_opt e e2)
    | _ => false
  | .while_stmt c t, x => match x with
    | .while_stmt c2 t2 => ASTNode.beq c c2 && ASTNode.beq t t2
    | _ => false
  | .for_stmt, x => match x with
    | .for_stmt => true
    | _ => false
  | .return_stmt e, x => match x with
    | .return_stmt e2 => ASTNode.beq e e2
    | _ => false
  | .bin_op o l r, x => match x with
    | .bin_op o2 l2 r2 => decide (o = o2) && (ASTNode.beq l l2 && ASTNode.beq r r2)
    | _ => false
  | .number v, x => match x with
    | .number v2 => decide (v = v2)
    | _ => false
  | .identifier v, x => match x with
    | .identifier v2 => decide (v = v2)
    | _ => false
  | .noop, x => match x with
    | .noop => true
    | _ => false
/-- Structural equality of two statement lists, as a Boolean. -/
def ASTNode.beq_list : List ASTNode → List ASTNode → Bool
  | [], x => match x with
    | [] => true
    | _ :: _ => false
  | a :: as, x => match x with
    | [] => false
    | b :: bs => ASTNode.beq a b && ASTNode.beq_list as bs
/-- Structural equality of two optional nodes, as a Boolean. -/
def ASTNode.beq_opt : Option ASTNode → Option ASTNode → Bool
  | none, x => match x with
    | none => true
    | some _ => false
  | some a, x => match x with
    | none => false
    | some b => ASTNode.beq a b
end

deriving instance DecidableEq for Except

/-! ## Parser (`parser.c`) -/

/-- The state of the parser: the lexer it pulls from and the static
`current_token`. -/
structure Parser where
  lexer : Lexer
  current_token : Token
  deriving DecidableEq

/-- The storage of a token that `get_next_token` returns, told by its kind.
The branches for words (keywords and identifiers, `lexer.c:132`), numbers
(`lexer.c:157`) and strings (`lexer.c:181`) return a block obtained from
`malloc`; every other return statement of `get_next_token` (DEDENT, EOF,
INDENT, NEWLINE at `lexer.c:63-102`, operators and punctuation at
`lexer.c:193-246`) returns `&(Token)\x7b...\x7d`, the address of a compound
literal. No kind is returned by branches of both groups. -/
def Token.on_heap (t : Token) : Bool :=
  match t.type with
  | TOKEN_FUNC => true
  | TOKEN_LET => true
  | TOKEN_VAR => true
  | TOKEN_IF => true
  | TOKEN_ELSE => true
  | TOKEN_ELIF => true
  | TOKEN_FOR => true
  | TOKEN_WHILE => true
  | TOKEN_RETURN => true
  | TOKEN_IDENTIFIER => true
  | TOKEN_NUMBER => true
  | TOKEN_STRING => true
  | _ => false

/-- `free_token` on a non-null pointer: `free(token->value); free(token);`.
The text of every token is allocated (`strndup`, `strdup`), so the first call
is defined; the second is defined only for a token obtained from `malloc`. -/
def free_token (token : Token) : Except Error Unit :=
  if token.on_heap then .ok () else .error .invalid_free

/-- `advance_token`: `if (current_token) free_token(current_token);
current_token = get_next_token();`. The argument `current_token` is the static
pointer of `parser.c` before the call, `none` for NULL. -/
def advance_token (current_token : Option Token) (L : Lexer) : Except Error Parser :=
  (match current_token with
   | none => .ok ()
   | some token => free_token token) >>= fun _ =>
  match get_next_token L with
  | .error e => .error e
  | .ok r => .ok ⟨r.2, r.1⟩

/-- The kind of the current token. -/
abbrev Parser.kind (P : Parser) : TokenType := P.current_token.type

/-- The call `advance_token()` in a parser state: `current_token` is not
null. -/
def Parser.advance (P : Parser) : Except Error Parser :=
  advance_token (some P.current_token) P.lexer

mutual
/-- `parse_expression`. -/
def parse_expression : Nat → Parser → Except Error (ASTNode × Parser)
  | 0, _ => .error .out_of_fuel
  | n + 1, P => parse_term n P >>= fun r => parse_expression_loop n r.1 r.2
/-- The `while` loop of `parse_expression`, `node` being its variable. -/
def parse_expression_loop : Nat → ASTNode → Parser → Except Error (ASTNode × Parser)
  | 0, _, _ => .error .out_of_fuel
  | n + 1, node, P =>
    if P.kind = TOKEN_PLUS ∨ P.kind = TOKEN_MINUS then
      P.advance >>= fun P1 =>
      parse_term n P1 >>= fun r =>
      parse_expression_loop n (.bin_op P.kind node r.1) r.2
    else .ok (node, P)
/-- `parse_term`. -/
def parse_term : Nat → Parser → Except Error (ASTNode × Parser)
  | 0, _ => .error .out_of_fuel
  | n + 1, P => parse_factor n P >>= fun r => parse_term_loop n r.1 r.2
/-- The `while` loop of `parse_term`, `node` being its variable. -/
def parse_term_loop : Nat → ASTNode → Parser → Except Error (ASTNode × Parser)
  | 0, _, _ => .error .out_of_fuel
  | n + 1, node, P =>
    if P.kind = TOKEN_ASTERISK ∨ P.kind = TOKEN_SLASH then
      P.advance >>= fun P1 =>
      parse_factor n P1 >>= fun r =>
      parse_term_loop n (.bin_op P.kind node r.1) r.2
    else .ok (node, P)
/-- `parse_factor`. -/
def parse_factor : Nat → Parser → Except Error (ASTNode × Parser)
  | 0, _ => .error .out_of_fuel
  | n + 1, P =>
    if P.kind = TOKEN_NUMBER then
      P.advance >>= fun P1 => .ok (.number P.current_token.value, P1)
    else if P.kind = TOKEN_IDENTIFIER then
      P.advance >>= fun P1 => .ok (.identifier P.current_token.value, P1)
    else if P.kind = TOKEN_LPAREN then
      P.advance >>= fun P1 =>
      parse_expression n P1 >>= fun r =>
      if r.2.kind ≠ TOKEN_RPAREN then .error .expected_rparen_after_expression
      else r.2.advance >>= fun P2 => .ok (r.1, P2)
    else .error .unexpected_token_in_factor
end

/-- The tail shared by `parse_variable_declaration` and the assignment branch:
`if (current_token->type == TOKEN_NEWLINE) advance_token();`. -/
def skip_newline (P : Parser) : Except Error Parser :=
  if P.kind = TOKEN_NEWLINE then P.advance else .ok P

/-- `parse_variable_declaration`; `n` is the budget of its `parse_expression`. -/
def parse_variable_declaration (n : Nat) (P : Parser) : Except Error (ASTNode × Parser) :=
  P.advance >>= fun P1 =>
  if P1.kind ≠ TOKEN_IDENTIFIER then .error .expected_identifier_after_let_or_var
  else
    P1.advance >>= fun P2 =>
    if P2.kind ≠ TOKEN_ASSIGN then .error .expected_assign_after_variable_name
    else
      P2.advance >>= fun P3 =>
      parse_expression n P3 >>= fun r =>
      skip_newline r.2 >>= fun P4 =>
      .ok (.var_decl P1.current_token.value (decide (P.kind = TOKEN_VAR)) r.1, P4)

/-- `parse_assignment_or_function_call`; `n` is the budget of its
`parse_expression`. -/
def parse_assignment_or_function_call (n : Nat) (P : Parser) : Except Error (ASTNode × Parser) :=
  P.advance >>= fun P1 =>
  if P1.kind = TOKEN_ASSIGN then
    P1.advance >>= fun P2 =>
    parse_expression n P2 >>= fun r =>
    skip_newline r.2 >>= fun P3 =>
    .ok (.assignment P.current_token.value r.1, P3)
  else if P1.kind = TOKEN_LPAREN then .error .function_calls_not_implemented
  else .error .unexpected_token_after_identifier

/-- `parse_for_statement`. -/
def parse_for_statement (_P : Parser) : Except Error (ASTNode × Parser) :=
  .error .for_loops_not_implemented

/-- The node of a parsing function as the statement `parse_statement` returns
(a non-null pointer). -/
def as_statement (r : Except Error (ASTNode × Parser)) : Except Error (Option ASTNode × Parser) :=
  r >>= fun x => .ok (some x.1, x.2)

/-- The list update of the statement loops: `if (stmt) { ... last_stmt = stmt; }`
appends a non-null statement at the tail. -/
def append_statement (stmts : List ASTNode) (stmt : Option ASTNode) : List ASTNode :=
  match stmt with
  | none => stmts
  | some s => stmts ++ [s]

mutual
/-- `parse_statement`; the value is `none` for the NULL returned at EOF. -/
def parse_statement : Nat → Parser → Except Error (Option ASTNode × Parser)
  | 0, _ => .error .out_of_fuel
  | n + 1, P =>
    if P.kind = TOKEN_LET ∨ P.kind = TOKEN_VAR then
      as_statement (parse_variable_declaration n P)
    else if P.kind = TOKEN_IDENTIFIER then
      as_statement (parse_assignment_or_function_call n P)
    else if P.kind = TOKEN_FUNC then as_statement (parse_function_declaration n P)
    else if P.kind = TOKEN_IF then as_statement (parse_if_statement n P)
    else if P.kind = TOKEN_WHILE then as_statement (parse_while_statement n P)
    else if P.kind = TOKEN_FOR then as_statement (parse_for_statement P)
    else if P.kind = TOKEN_RETURN then
      P.advance >>= fun P1 =>
      parse_expression n P1 >>= fun r => .ok (some (.return_stmt r.1), r.2)
    else if P.kind = TOKEN_NEWLINE then
      P.advance >>= fun P1 => parse_statement n P1
    else if P.kind = TOKEN_EOF then .ok (none, P)
    else as_statement (parse_expression n P)
/-- `parse_function_declaration`. -/
def parse_function_declaration : Nat → Parser → Except Error (ASTNode × Parser)
  | 0, _ => .error .out_of_fuel
  | n + 1, P =>
    P.advance >>= fun P1 =>
    if P1.kind ≠ TOKEN_IDENTIFIER then .error .expected_function_name_after_func
    else
      P1.advance >>= fun P2 =>
      if P2.kind = TOKEN_LPAREN then .error .function_parameters_not_implemented
      else if P2.kind ≠ TOKEN_COLON then .error .expected_colon_after_function_name
      else
        P2.advance >>= fun P3 =>
        parse_block n P3 >>= fun r =>
        .ok (.func_decl P1.current_token.value r.1, r.2)
/-- `parse_block`. -/
def parse_block : Nat → Parser → Except Error (ASTNode × Parser)
  | 0, _ => .error .out_of_fuel
  | n + 1, P =>
    if P.kind ≠ TOKEN_INDENT then .error .expected_indentation
    else
      P.advance >>= fun P1 =>
      parse_block_loop n [] P1 >>= fun r =>
      if r.2.kind = TOKEN_DEDENT then
        r.2.advance >>= fun P2 => .ok (.block r.1, P2)
      else .error .expected_dedentation
/-- The `while` loop of `parse_block`; `stmts` is the list built so far. -/
def parse_block_loop : Nat → List ASTNode → Parser → Except Error (List ASTNode × Parser)
  | 0, _, _ => .error .out_of_fuel
  | n + 1, stmts, P =>
    if P.kind ≠ TOKEN_DEDENT ∧ P.kind ≠ TOKEN_EOF then
      if P.kind = TOKEN_NEWLINE then
        P.advance >>= fun P1 => parse_block_loop n stmts P1
      else
        parse_statement n P >>= fun r =>
        parse_block_loop n (append_statement stmts r.1) r.2
    else .ok (stmts, P)
/-- `parse_if_statement`. -/
def parse_if_statement : Nat → Parser → Except Error (ASTNode × Parser)
  | 0, _ => .error .out_of_fuel
  | n + 1, P =>
    P.advance >>= fun P1 =>
    parse_expression n P1 >>= fun c =>
    if c.2.kind ≠ TOKEN_COLON then .error .expected_colon_after_if_condition
    else
      c.2.advance >>= fun P2 =>
      parse_block n P2 >>= fun t =>
      if t.2.kind = TOKEN_ELSE then
        t.2.advance >>= fun P3 =>
        if P3.kind ≠ TOKEN_COLON then .error .expected_colon_after_else
        else
          P3.advance >>= fun P4 =>
          parse_block n P4 >>= fun e =>
          .ok (.if_stmt c.1 t.1 (some e.1), e.2)
      else .ok (.if_stmt c.1 t.1 none, t.2)
/-- `parse_while_statement`. -/
def parse_while_statement : Nat → Parser → Except Error (ASTNode × Parser)
  | 0, _ => .error .out_of_fuel
  | n + 1, P =>
    P.advance >>= fun P1 =>
    parse_expression n P1 >>= fun c =>
    if c.2.kind ≠ TOKEN_COLON then .error .expected_colon_after_while_condition
    else
      c.2.advance >>= fun P2 =>
      parse_block n P2 >>= fun b =>
      .ok (.while_stmt c.1 b.1, b.2)
end

/-- The `while` loop of `parse_program`; `stmts` is the list built so far. -/
def parse_program_loop : Nat → List ASTNode → Parser → Except Error (List ASTNode × Parser)
  | 0, _, _ => .error .out_of_fuel
  | n + 1, stmts, P =>
    if P.kind ≠ TOKEN_EOF then
      parse_statement n P >>= fun r =>
      parse_program_loop n (append_statement stmts r.1) r.2
    else .ok (stmts, P)

/-- `parse_program`, on the lexer state left by `init_lexer`. At its call of
`advance_token` the static `current_token` is still NULL. -/
def parse_program (fuel : Nat) (L : Lexer) : Except Error ASTNode :=
  advance_token none L >>= fun P =>
  parse_program_loop fuel [] P >>= fun r => .ok (.program r.1)

/-! ## Code generator (`codegen.c`) -/

/-- The operator text of the inner `switch (node->op)` of
`generate_expression`. -/
def operator_text : TokenType → String
  | TOKEN_PLUS => " + "
  | TOKEN_MINUS => " - "
  | TOKEN_ASTERISK => " * "
  | TOKEN_SLASH => " / "
  | TOKEN_EQUAL => " == "
  | TOKEN_NOT_EQUAL => " != "
  | TOKEN_LESS => " < "
  | TOKEN_GREATER => " > "
  | TOKEN_LESS_EQUAL => " <= "
  | TOKEN_GREATER_EQUAL => " >= "
  | _ => ""

/-- `generate_expression`: the text it prints. -/
def generate_expression : ASTNode → String
  | .number value => value
  | .identifier value => value
  | .bin_op op left right =>
    "(" ++ generate_expression left ++ operator_text op ++ generate_expression right ++ ")"
  | _ => ""

mutual
/-- `generate_statement`: the text it prints. -/
def generate_statement : ASTNode → String
  | .var_decl var_name is_mutable expr =>
    (if is_mutable then "    int " ++ var_name ++ " = "
     else "    const int " ++ var_name ++ " = ")
      ++ generate_expression expr ++ ";\n"
  | .assignment var_name expr =>
    "    " ++ var_name ++ " = " ++ generate_expression expr ++ ";\n"
  | .return_stmt expr => "    return " ++ generate_expression expr ++ ";\n"
  | .if_stmt condition then_branch else_branch =>
    "    if (" ++ generate_expression condition ++ ") \x7b\n"
      ++ generate_block then_branch ++ "    \x7d"
      ++ (match else_branch with
          | some e => " else \x7b\n" ++ generate_block e ++ "    \x7d"
          | none => "")
      ++ "\n"
  | .while_stmt condition body =>
    "    while (" ++ generate_expression condition ++ ") \x7b\n"
      ++ generate_block body ++ "    \x7d\n"
  | .bin_op op left right => "    " ++ generate_expression (.bin_op op left right) ++ ";\n"
  | .number value => "    " ++ generate_expression (.number value) ++ ";\n"
  | .identifier value => "    " ++ generate_expression (.identifier value) ++ ";\n"
  | _ => ""
/-- `generate_block`: the statements of `node->statements`, which is NULL for
a node that is neither a block nor a program. -/
def generate_block : ASTNode → String
  | .block statements => generate_statements statements
  | .program statements => generate_statements statements
  | _ => ""
/-- The loop `while (stmt) { generate_statement(stmt); stmt = stmt->next; }`. -/
def generate_statements : List ASTNode → String
  | [] => ""
  | stmt :: rest => generate_statement stmt ++ generate_statements rest
end

/-- `generate_function`: the text it prints. -/
def generate_function : ASTNode → String
  | .func_decl func_name body => "void " ++ func_name ++ "() \x7b\n" ++ generate_block body ++ "\x7d\n"
  | _ => ""

/-- The body of the loop of `generate_code`. -/
def generate_toplevel (stmt : ASTNode) : String :=
  match stmt with
  | .func_decl _ _ => generate_function stmt
  | _ => generate_statement stmt

/-- The statements of a node (`node->statements`). -/
def ASTNode.statements_of : ASTNode → List ASTNode
  | .block statements => statements
  | .program statements => statements
  | _ => []

/-- The entry point printed at the end of `generate_code`. -/
def entry_point : String :=
  "int main() \x7b\n" ++ "    // Call the main function if it exists\n"
    ++ "    if (main) main();\n" ++ "    return 0;\n" ++ "\x7d\n"

/-- `generate_code`: the text it prints. -/
def generate_code (ast : ASTNode) : String :=
  "#include <stdio.h>\n\n"
    ++ String.join (ast.statements_of.map generate_toplevel)
    ++ entry_point

/-! ## Driver (`main.c`) -/

/-- What a run of the compiler leaves behind: the text on the standard output
and the error that ended it, if any. -/
structure Run where
  stdout : String
  failure : Option Error
  deriving DecidableEq

/-- `main` after the source file is read: `init_lexer`, `parse_program`,
`generate_code`. A fatal error exits before `generate_code` prints anything. -/
def main (fuel : Nat) (source_code : String) : Run :=
  match parse_program fuel (start source_code) with
  | .error e => ⟨"", some e⟩
  | .ok ast => ⟨generate_code ast, none⟩

/-! ## Vocabulary of the statements -/

/-- `Settles x y`: the outcome `x` either ran out of fuel or is `y`. -/
def Settles {α : Type} (x y : Except Error α) : Prop := x = .error .out_of_fuel ∨ x = y

/-- The lexer state after `n` calls of `get_next_token`. -/
def after_calls : Nat → Lexer → Except Error Lexer
  | 0, L => .ok L
  | n + 1, L => get_next_token L >>= fun r => after_calls n r.2

/-- The kinds of the tokens returned by the first `n` calls of
`get_next_token`, stopping only at an error. -/
def call_kinds : Nat → Lexer → List TokenType
  | 0, _ => []
  | n + 1, L =>
    match get_next_token L with
    | .error _ => []
    | .ok r => r.1.type :: call_kinds n r.2

/-- A parser state to stand for a run that has failed. -/
def Parser.none : Parser := ⟨Lexer.fresh, ⟨TOKEN_UNKNOWN, "", 0, 0⟩⟩

/-- The parser state in which token number `k` (from 0) of the source is the
current token: the token and the lexer state that call number `k + 1` of
`get_next_token` returns. -/
def state_at (source_code : String) : Nat → Parser
  | 0 =>
    match get_next_token (start source_code) with
    | .ok r => ⟨r.2, r.1⟩
    | .error _ => Parser.none
  | k + 1 =>
    match get_next_token (state_at source_code k).lexer with
    | .ok r => ⟨r.2, r.1⟩
    | .error _ => Parser.none

/-- `P.eats t P2`: the current token of `P` has kind `t`, and `advance_token`
over it succeeds and leaves the parser in `P2`. -/
def Parser.eats (P : Parser) (t : TokenType) (P2 : Parser) : Prop :=
  P.kind = t ∧ P.advance = .ok P2

/-- The kinds that continue an expression after a factor. -/
def binary_operators : List TokenType :=
  [TOKEN_PLUS, TOKEN_MINUS, TOKEN_ASTERISK, TOKEN_SLASH]

instance (P : Parser) (t : TokenType) (P2 : Parser) : Decidable (P.eats t P2) :=
  inferInstanceAs (Decidable (_ ∧ _))

/-- The lexer state after `n` calls of `get_next_token` on a source, in a
program that has just started. -/
def lexer_after (source_code : String) (n : Nat) : Lexer :=
  match after_calls n (start source_code) with
  | .ok L => L
  | .error _ => Lexer.fresh

/-- The number of leading spaces of a text. -/
def leading_spaces (s : List Char) : Nat := (s.takeWhile (fun c => c = ' ')).length

/-- A text without its leading spaces. -/
def after_spaces (s : List Char) : List Char := s.dropWhile (fun c => c = ' ')

/-- The line that starts a text is not blank: its first character after the
leading spaces is neither a newline nor the end of the input. -/
def starts_nonblank (s : List Char) : Prop :=
  (after_spaces s).headD NUL ≠ '\n' ∧ (after_spaces s).headD NUL ≠ NUL

instance (s : List Char) : Decidable (starts_nonblank s) :=
  inferInstanceAs (Decidable (_ ∧ _))

/-- The entries of the indentation stack, bottom first:
`indent_levels[0 .. indent_stack_top]`. -/
def Lexer.stack (L : Lexer) : List Nat := L.indent_levels.take (L.indent_stack_top + 1)

/-- The lexer state once the leading spaces of the line under the cursor are
consumed (`at_line_start` cleared). -/
def Lexer.past_spaces (L : Lexer) : Lexer :=
  { L with src := after_spaces L.src, pos := L.pos + leading_spaces L.src,
           column := L.column + leading_spaces L.src, at_line_start := false }

/-- `holds P r`: if the call returned a token, `P` holds of the token and of the
state after the call. -/
def holds (P : Token → Lexer → Prop) (r : LexResult) : Prop :=
  ∀ t M, r = .ok (t, M) → P t M

/-- The token is neither INDENT nor DEDENT and the call has changed nothing of
the indentation stack. -/
def quiet (L : Lexer) (t : Token) (M : Lexer) : Prop :=
  t.type ≠ TOKEN_INDENT ∧ t.type ≠ TOKEN_DEDENT ∧ M.indent_levels = L.indent_levels ∧
    M.indent_stack_top = L.indent_stack_top

/-- What a scanning step from `L` does: it consumes a prefix of the text and
nothing else, except that it sets `at_line_start` when it returns NEWLINE. -/
def plain (L : Lexer) (t : Token) (M : Lexer) : Prop :=
  quiet L t M ∧ M.src <:+ L.src ∧ M.at_line_start = L.at_line_start

/-- What a call of `get_next_token` that is past the line-start block does:
it consumes a prefix of the text, sets `at_line_start` only after a newline, and
either pops one level at the end of the input (reached by the call) or leaves the
stack alone. -/
def inner (L : Lexer) (t : Token) (M : Lexer) : Prop :=
  M.src <:+ L.src ∧
  (M.at_line_start = true → L.at_line_start = true ∨ '\n' :: M.src <:+ L.src) ∧
  ((t.type = TOKEN_DEDENT ∧ M.indent_levels = L.indent_levels ∧
      M.indent_stack_top = L.indent_stack_top - 1 ∧ 0 < L.indent_stack_top ∧
      peek M = NUL) ∨
   quiet L t M)

/-- What one call of `get_next_token` from `L` does, `t` being the token and
`M` the state after the call: it consumes a prefix of the text; `at_line_start`
is set afterwards only at the end of the input (nothing consumed) or after a
newline; and the call either pushes the leading-space count of the line and
returns INDENT, or pops one level and returns DEDENT (at the end of the input
with a level open, or at the start of a shallower line), or returns another
token and leaves the stack alone. -/
def step (L : Lexer) (t : Token) (M : Lexer) : Prop :=
  M.src <:+ L.src ∧
  (M.at_line_start = true → (peek L = NUL ∧ M.src = L.src) ∨ '\n' :: M.src <:+ L.src) ∧
  ((t.type = TOKEN_INDENT ∧ L.at_line_start = true ∧ L.top_width < leading_spaces L.src ∧
      M.indent_stack_top = L.indent_stack_top + 1 ∧ M.indent_stack_top < MAX_INDENT_LEVELS ∧
      M.indent_levels = L.indent_levels.set (L.indent_stack_top + 1) (leading_spaces L.src)) ∨
   (t.type = TOKEN_DEDENT ∧ M.indent_levels = L.indent_levels ∧
      M.indent_stack_top = L.indent_stack_top - 1 ∧
      ((0 < L.indent_stack_top ∧ peek M = NUL) ∨
        (L.at_line_start = true ∧ leading_spaces L.src < L.top_width))) ∨
   quiet L t M)

/-- The first line of a text and the lines after it, the text being cut at its
newlines. -/
def split_lines : List Char → List Char × List (List Char)
  | [] => ([], [])
  | c :: cs =>
    if c = '\n' then ([], (split_lines cs).1 :: (split_lines cs).2)
    else (c :: (split_lines cs).1, (split_lines cs).2)

/-- The lines of a text. -/
def source_lines (s : List Char) : List (List Char) := (split_lines s).1 :: (split_lines s).2

/-- No newline of the text is followed by a space. -/
def no_space_after_newline : List Char → Prop
  | [] => True
  | c :: cs => (c = '\n' → leading_spaces cs = 0) ∧ no_space_after_newline cs

/-- The invariant of the lexer on a source without leading spaces: the
indentation stack is `[0]`, no line ahead begins with a space, nor does the
text under the cursor at a line start. -/
def flat (L : Lexer) : Prop :=
  L.indent_stack_top = 0 ∧ L.top_width = 0 ∧
    (L.at_line_start = true → leading_spaces L.src = 0) ∧ no_space_after_newline L.src

/-- `shifted d L1 L2`: the two states look at the same text with the same
indentation state and line-start flag; the cursor index of `L1` is `d` more
than that of `L2`, and the line and column counters may differ. -/
def shifted (d : Nat) (L1 L2 : Lexer) : Prop :=
  L1.src = L2.src ∧ L1.pos = L2.pos + d ∧ L1.indent_levels = L2.indent_levels ∧
    L1.indent_stack_top = L2.indent_stack_top ∧ L1.at_line_start = L2.at_line_start

/-- `similar d r1 r2`: two outcomes of `get_next_token` that are the same error,
or tokens of the same kind and text with `shifted` states after the call. -/
def similar (d : Nat) (r1 r2 : LexResult) : Prop :=
  match r1, r2 with
  | .ok a, .ok b => a.1.type = b.1.type ∧ a.1.value = b.1.value ∧ shifted d a.2 b.2
  | .error e1, .error e2 => e1 = e2
  | _, _ => False

/-- What the first `n` calls of `get_next_token` show: for each call the kind
and text of the token and the indentation stack after the call, or the error that
ends the run. -/
def observe : Nat → Lexer → List (Except Error (TokenType × String × List Nat))
  | 0, _ => []
  | n + 1, L =>
    match get_next_token L with
    | .error e => [.error e]
    | .ok r => .ok (r.1.type, r.1.value, r.2.stack) :: observe n r.2

/-- The lexer state `L` with a blank line put in front of the text under the
cursor: `k` spaces and a newline. -/
def with_blank_line (k : Nat) (L : Lexer) : Lexer :=
  { L with src := List.replicate k ' ' ++ '\n' :: L.src }

/-- The lines of `k`, `k + 1`, ..., `k + m` spaces and `a`, each but the last
with its newline. -/
def stairs : Nat → Nat → List Char
  | k, 0 => List.replicate k ' ' ++ ['a']
  | k, m + 1 => List.replicate k ' ' ++ 'a' :: '\n' :: stairs (k + 1) m

/-- The source whose line number `i` (from 0) is `i` spaces and `a`, for `i`
up to `n`: each line is one space deeper than the line before it. -/
def staircase (n : Nat) : List Char := stairs 0 n

/-- The lexer at the start of line `k` of a staircase: the lines above have
pushed the widths up to `k - 1`. -/
def on_stair (k : Nat) (L : Lexer) : Prop :=
  L.at_line_start = true ∧ L.indent_stack_top + 1 = k ∧ L.top_width + 1 = k ∧
    L.indent_levels.length = MAX_INDENT_LEVELS

/-- The kinds of node for which the `switch` of `generate_statement` has no
case: program, block, function declaration, for-statement and the no-op
placeholder. -/
def no_statement_rule : ASTNode → Bool
  | .program _ => true
  | .block _ => true
  | .func_decl _ _ => true
  | .for_stmt => true
  | .noop => true
  | _ => false

/-- The target symbol of an operator kind: `+`, `-`, `*`, `/`, `==`, `!=`, `<`,
`>`, `<=`, `>=`; the other kinds have none. -/
def target_symbol : TokenType → Option String
  | TOKEN_PLUS => some "+"
  | TOKEN_MINUS => some "-"
  | TOKEN_ASTERISK => some "*"
  | TOKEN_SLASH => some "/"
  | TOKEN_EQUAL => some "=="
  | TOKEN_NOT_EQUAL => some "!="
  | TOKEN_LESS => some "<"
  | TOKEN_GREATER => some ">"
  | TOKEN_LESS_EQUAL => some "<="
  | TOKEN_GREATER_EQUAL => some ">="
  | _ => none

/-- An expression tree: a number, an identifier, or a binary operation on two
expression trees. -/
def ASTNode.is_expression : ASTNode → Bool
  | .number _ => true
  | .identifier _ => true
  | .bin_op _ left right => left.is_expression && right.is_expression
  | _ => false

/-- The number of binary-operation nodes of an expression tree. -/
def ASTNode.bin_ops : ASTNode → Nat
  | .bin_op _ left right => left.bin_ops + right.bin_ops + 1
  | _ => 0

/-- The texts of the numbers and identifiers of an expression tree, from left
to right. -/
def ASTNode.leaf_texts : ASTNode → List String
  | .number value => [value]
  | .identifier value => [value]
  | .bin_op _ left right => left.leaf_texts ++ right.leaf_texts
  | _ => []

/-- The operators of the binary-operation nodes of an expression tree. -/
def ASTNode.operators : ASTNode → List TokenType
  | .bin_op op left right => op :: (left.operators ++ right.operators)
  | _ => []

/-- A text without parenthesis. -/
def no_parenthesis (s : String) : Prop := '(' ∉ s.data ∧ ')' ∉ s.data

instance (s : String) : Decidable (no_parenthesis s) :=
  inferInstanceAs (Decidable (_ ∧ _))

/-- The parentheses of a text are balanced above the nesting depth `d`: read
from the left, no `)` comes without an open `(` and the depth is 0 at the
end. -/
def balanced_from : Nat → List Char → Bool
  | d, [] => decide (d = 0)
  | d, c :: cs =>
    if c = '(' then balanced_from (d + 1) cs
    else if c = ')' then decide (d ≠ 0) && balanced_from (d - 1) cs
    else balanced_from d cs

/-- The parentheses of a text are balanced. -/
def balanced (s : String) : Bool := balanced_from 0 s.data

/-- The keyword set with the kind of each keyword: `func`, `let`, `var`, `if`,
`else`, `elif`, `for`, `while`, `return`. -/
def keywords : List (String × TokenType) :=
  [("func", TOKEN_FUNC), ("let", TOKEN_LET), ("var", TOKEN_VAR), ("if", TOKEN_IF),
   ("else", TOKEN_ELSE), ("elif", TOKEN_ELIF), ("for", TOKEN_FOR), ("while", TOKEN_WHILE),
   ("return", TOKEN_RETURN)]

/-- The kind of a word by exact lookup in the keyword set: the kind of the
keyword when the word is one, IDENTIFIER otherwise. -/
def keyword_kind (text : String) : TokenType :=
  (keywords.lookup text).getD TOKEN_IDENTIFIER

/-- The maximal run of letters, digits and underscores at the start of a
text. -/
def word_at (s : List Char) : String := String.mk (s.takeWhile is_identifier_char)

/-- The comparison operators: `==`, `!=`, `<`, `>`, `<=`, `>=`. -/
def comparison_operators : List TokenType :=
  [TOKEN_EQUAL, TOKEN_NOT_EQUAL, TOKEN_LESS, TOKEN_GREATER, TOKEN_LESS_EQUAL,
   TOKEN_GREATER_EQUAL]

/-- `Ensures Q x`: if the outcome `x` is a value, `Q` holds of it. -/
def Ensures {α : Type} (Q : α → Prop) (x : Except Error α) : Prop :=
  ∀ a, x = .ok a → Q a

/-- The invariant of the indentation stack: the array `indent_levels` has its
`MAX_INDENT_LEVELS` entries, `indent_stack_top` is an index of it, the bottom
entry is 0, and the entries from the bottom to the top are strictly
increasing. -/
def stack_invariant (L : Lexer) : Prop :=
  L.indent_levels.length = MAX_INDENT_LEVELS ∧ L.indent_stack_top < MAX_INDENT_LEVELS ∧
    L.stack.head? = some 0 ∧ L.stack.Pairwise (fun a b => a < b)

/-- The state `L` with the array `indent_levels` replaced by `v`. -/
def Lexer.with_levels (L : Lexer) (v : List Nat) : Lexer := { L with indent_levels := v }

/-- An outcome of `get_next_token` with the array `indent_levels` of its state
replaced by `v`. -/
def with_levels_result (v : List Nat) (r : LexResult) : LexResult :=
  match r with
  | .ok x => .ok (x.1, x.2.with_levels v)
  | .error e => .error e

/-- The outcomes of the first `n` calls of `get_next_token`: the tokens, with
their lines and columns, and the error that ends the run, if any. -/
def token_run : Nat → Lexer → List (Except Error Token)
  | 0, _ => []
  | n + 1, L =>
    match get_next_token L with
    | .error e => [.error e]
    | .ok r => .ok r.1 :: token_run n r.2

/-- Two states that differ at most in the entries of `indent_levels` above the
top of the stack. -/
def same_stack (L1 L2 : Lexer) : Prop :=
  L2 = L1.with_levels L2.indent_levels ∧ L1.stack = L2.stack ∧
    L1.indent_levels.length = MAX_INDENT_LEVELS ∧
    L2.indent_levels.length = MAX_INDENT_LEVELS ∧ L1.indent_stack_top < MAX_INDENT_LEVELS

/-- Two outcomes of `get_next_token` that are the same error, or the same
token with states that differ at most above the top of the stack. -/
def same_stack_result (r1 r2 : LexResult) : Prop :=
  match r1, r2 with
  | .ok a, .ok b => a.1 = b.1 ∧ same_stack a.2 b.2
  | .error e1, .error e2 => e1 = e2
  | _, _ => False

/-- The text of a number or identifier token holds no parenthesis. -/
def Token.plain (t : Token) : Prop :=
  (t.type = TOKEN_NUMBER ∨ t.type = TOKEN_IDENTIFIER) → no_parenthesis t.value

/-- What the kind of the token tells about a call of `get_next_token` that is
past the line-start block, `t` being the token and `M` the state after the
call: EOF is returned with the stack empty and at the end of the input;
`at_line_start` is set afterwards only by NEWLINE, unless it was set before;
and a token other than DEDENT and EOF has consumed at least one character. -/
def scanned (L : Lexer) (t : Token) (M : Lexer) : Prop :=
  (t.type = TOKEN_EOF → M.indent_stack_top = 0 ∧ peek M = NUL) ∧
  (M.at_line_start = true → t.type = TOKEN_NEWLINE ∨ L.at_line_start = true) ∧
  (t.type ≠ TOKEN_DEDENT → t.type ≠ TOKEN_EOF → M.src.length < L.src.length)

/-- What the kind of the token tells about one call of `get_next_token` from
`L`, `t` being the token and `M` the state after the call: EOF is returned with
the stack empty and at the end of the input; `at_line_start` is set afterwards
only when the token is NEWLINE or the input is at its end; and a token other
than DEDENT and EOF has consumed at least one character. -/
def told (L : Lexer) (t : Token) (M : Lexer) : Prop :=
  (t.type = TOKEN_EOF → M.indent_stack_top = 0 ∧ peek M = NUL) ∧
  (M.at_line_start = true → t.type = TOKEN_NEWLINE ∨ peek M = NUL) ∧
  (t.type ≠ TOKEN_DEDENT → t.type ≠ TOKEN_EOF → M.src.length < L.src.length)

/-- The token is not EOF and the call has consumed at least one character. -/
def consumed (L : Lexer) (t : Token) (M : Lexer) : Prop :=
  t.type ≠ TOKEN_EOF ∧ M.src.length < L.src.length

mutual
/-- No node of the tree is a function declaration, an if-statement, a
while-statement or a block. -/
def ASTNode.without_blocks : ASTNode → Bool
  | .program statements => ASTNode.all_without_blocks statements
  | .block _ => false
  | .var_decl _ _ expr => expr.without_blocks
  | .assignment _ expr => expr.without_blocks
  | .func_decl _ _ => false
  | .if_stmt _ _ _ => false
  | .while_stmt _ _ => false
  | .for_stmt => true
  | .return_stmt expr => expr.without_blocks
  | .bin_op _ left right => left.without_blocks && right.without_blocks
  | .number _ => true
  | .identifier _ => true
  | .noop => true
/-- No node of the trees of a list is a function declaration, an if-statement,
a while-statement or a block. -/
def ASTNode.all_without_blocks : List ASTNode → Bool
  | [] => true
  | s :: rest => s.without_blocks && ASTNode.all_without_blocks rest
end

/-- The text ends a token: it is empty or starts with a space or with `)`. -/
def ends_token (rest : List Char) : Prop :=
  rest = [] ∨ rest.head? = some ' ' ∨ rest.head? = some ')'

/-- The lexer of `P` is away from a line start with the text `rest` under the
cursor and the indentation stack as high as in `L`. -/
def Parser.after (P : Parser) (L : Lexer) (rest : List Char) : Prop :=
  P.lexer.src = rest ∧ P.lexer.at_line_start = false ∧
    P.lexer.indent_stack_top = L.indent_stack_top

/-- The diagnostics of `lexer.c`: the four errors that `get_next_token` exits
with. -/
def Error.is_lexical : Error → Bool
  | .too_many_indentation_levels => true
  | .unterminated_string => true
  | .unexpected_bang => true
  | .unknown_character _ => true
  | _ => false

/-- `Fails ok x`: if the outcome `x` is a failure, `ok` holds of its error. -/
def Fails {α : Type} (ok : Error → Prop) (x : Except Error α) : Prop :=
  ∀ e, x = .error e → ok e

/-- Four diagnostics of `parser.c`: the expected-`)` check of `parse_factor`,
the two checks of `parse_block`, and the expected-`:` check after `else` of
`parse_if_statement`. -/
def guarded_diagnostics : List Error :=
  [.expected_rparen_after_expression, .expected_indentation, .expected_dedentation,
   .expected_colon_after_else]

/-- A statement that is a number, or the return of a number or of an
identifier. -/
def ASTNode.is_plain_statement : ASTNode → Bool
  | .number _ => true
  | .return_stmt (.number _) => true
  | .return_stmt (.identifier _) => true
  | _ => false

/-! ## Decidable equality of syntax trees -/

mutual
/-- `ASTNode.beq` holds of a node and itself. -/
theorem ASTNode.beq_refl : ∀ a : ASTNode, ASTNode.beq a a = true
  | .program a => by rw [ASTNode.beq]; exact ASTNode.beq_list_refl a
  | .block a => by rw [ASTNode.beq]; exact ASTNode.beq_list_refl a
  | .var_decl n m e => by rw [ASTNode.beq]; simp [ASTNode.beq_refl e]
  | .assignment n e => by rw [ASTNode.beq]; simp [ASTNode.beq_refl e]
  | .func_decl n e => by rw [ASTNode.beq]; simp [ASTNode.beq_refl e]
  | .if_stmt c t e => by
    rw [ASTNode.beq]; simp [ASTNode.beq_refl c, ASTNode.beq_refl t, ASTNode.beq_opt_refl e]
  | .while_stmt c t => by rw [ASTNode.beq]; simp [ASTNode.beq_refl c, ASTNode.beq_refl t]
  | .for_stmt => by rw [ASTNode.beq]
  | .return_stmt e => by rw [ASTNode.beq]; exact ASTNode.beq_refl e
  | .bin_op o l r => by rw [ASTNode.beq]; simp [ASTNode.beq_refl l, ASTNode.beq_refl r]
  | .number v => by rw [ASTNode.beq]; simp
  | .identifier v => by rw [ASTNode.beq]; simp
  | .noop => by rw [ASTNode.beq]
/-- `ASTNode.beq_list` holds of a list and itself. -/
theorem ASTNode.beq_list_refl : ∀ a : List ASTNode, ASTNode.beq_list a a = true
  | [] => by rw [ASTNode.beq_list]
  | a :: as => by rw [ASTNode.beq_list]; simp [ASTNode.beq_refl a, ASTNode.beq_list_refl as]
/-- `ASTNode.beq_opt` holds of an optional node and itself. -/
theorem ASTNode.beq_opt_refl : ∀ a : Option ASTNode, ASTNode.beq_opt a a = true
  | none => by rw [ASTNode.beq_opt]
  | some a => by rw [ASTNode.beq_opt]; exact ASTNode.beq_refl a
end

mutual
/-- Nodes that `ASTNode.beq` accepts are equal. -/
theorem ASTNode.eq_of_beq : ∀ a b : ASTNode, ASTNode.beq a b = true → a = b
  | .program a, b, h => by
    cases b <;> simp [ASTNode.beq] at h
    rw [ASTNode.eq_of_beq_list _ _ h]
  | .block a, b, h => by
    cases b <;> simp [ASTNode.beq] at h
    rw [ASTNode.eq_of_beq_list _ _ h]
  | .var_decl n m e, b, h => by
    cases b <;> simp [ASTNode.beq] at h
    rw [h.1, h.2.1, ASTNode.eq_of_beq _ _ h.2.2]
  | .assignment n e, b, h => by
    cases b <;> simp [ASTNode.beq] at h
    rw [h.1, ASTNode.eq_of_beq _ _ h.2]
  | .func_decl n e, b, h => by
    cases b <;> simp [ASTNode.beq] at h
    rw [h.1, ASTNode.eq_of_beq _ _ h.2]
  | .if_stmt c t e, b, h => by
    cases b <;> simp [ASTNode.beq] at h
    rw [ASTNode.eq_of_beq _ _ h.1, ASTNode.eq_of_beq _ _ h.2.1, ASTNode.eq_of_beq_opt _ _ h.2.2]
  | .while_stmt c t, b, h => by
    cases b <;> simp [ASTNode.beq] at h
    rw [ASTNode.eq_of_beq _ _ h.1, ASTNode.eq_of_beq _ _ h.2]
  | .for_stmt, b, h => by
    cases b <;> simp [ASTNode.beq] at h
    rfl
  | .return_stmt e, b, h => by
    cases b <;> simp [ASTNode.beq] at h
    rw [ASTNode.eq_of_beq _ _ h]
  | .bin_op o l r, b, h => by
    cases b <;> simp [ASTNode.beq] at h
    rw [h.1, ASTNode.eq_of_beq _ _ h.2.1, ASTNode.eq_of_beq _ _ h.2.2]
  | .number v, b, h => by
    cases b <;> simp [ASTNode.beq] at h
    rw [h]
  | .identifier v, b, h => by
    cases b <;> simp [ASTNode.beq] at h
    rw [h]
  | .noop, b, h => by
    cases b <;> simp [ASTNode.beq] at h
    rfl
/-- Lists that `ASTNode.beq_list` accepts are equal. -/
theorem ASTNode.eq_of_beq_list : ∀ a b : List ASTNode, ASTNode.beq_list a b = true → a = b
  | [], b, h => by
    cases b <;> simp [ASTNode.beq_list] at h
    rfl
  | a :: as, b, h => by
    cases b <;> simp [ASTNode.beq_list] at h
    rw [ASTNode.eq_of_beq _ _ h.1, ASTNode.eq_of_beq_list _ _ h.2]
/-- Optional nodes that `ASTNode.beq_opt` accepts are equal. -/
theorem ASTNode.eq_of_beq_opt : ∀ a b : Option ASTNode, ASTNode.beq_opt a b = true → a = b
  | none, b, h => by
    cases b <;> simp [ASTNode.beq_opt] at h
    rfl
  | some a, b, h => by
    cases b <;> simp [ASTNode.beq_opt] at h
    rw [ASTNode.eq_of_beq _ _ h]
end

/-- Equality of syntax trees is decided by `ASTNode.beq`. -/
instance : DecidableEq ASTNode := fun a b =>
  decidable_of_iff (ASTNode.beq a b = true)
    ⟨ASTNode.eq_of_beq a b, fun h => h ▸ ASTNode.beq_refl a⟩

/-! ## `free_token` and `advance_token` -/

/-- `free_token` of a token that was returned as a compound literal ends the
run. -/
theorem free_token_literal {t : Token} (h : t.on_heap = false) :
    free_token t = .error .invalid_free := by
  unfold free_token
  rw [h]
  rfl

/-- `free_token` of a token that was obtained from `malloc` returns. -/
theorem free_token_heap {t : Token} (h : t.on_heap = true) : free_token t = .ok () := by
  unfold free_token
  rw [h]
  rfl

/-- `advance_token` over a current token that was returned as a compound
literal ends the run in `free`, before `get_next_token` is called. -/
theorem Parser.advance_literal {P : Parser} (h : P.current_token.on_heap = false) :
    P.advance = .error .invalid_free := by
  show (free_token P.current_token >>= fun _ =>
    match get_next_token P.lexer with
    | .error e => .error e
    | .ok r => (.ok ⟨r.2, r.1⟩ : Except Error Parser)) = _
  rw [free_token_literal h]
  rfl

/-- `advance_token` over a current token that was obtained from `malloc` makes
the next token current. -/
theorem Parser.advance_heap {P : Parser} (h : P.current_token.on_heap = true) :
    P.advance = advance_token Option.none P.lexer := by
  show (free_token P.current_token >>= fun _ =>
    match get_next_token P.lexer with
    | .error e => .error e
    | .ok r => (.ok ⟨r.2, r.1⟩ : Except Error Parser)) = _
  rw [free_token_heap h]
  rfl

/-- The token that `advance_token` makes current and the lexer state it leaves
are those that `get_next_token` returns. -/
theorem advance_token_next {c : Option Token} {L : Lexer} {P : Parser}
    (h : advance_token c L = .ok P) : get_next_token L = .ok (P.current_token, P.lexer) := by
  unfold advance_token at h
  cases hf : (match c with
    | none => (.ok () : Except Error Unit)
    | some token => free_token token) with
  | error e => rw [hf] at h; exact absurd h (by simp [bind, Except.bind])
  | ok u =>
    rw [hf] at h
    cases hr : get_next_token L with
    | error e => rw [hr] at h; exact absurd h (by simp [bind, Except.bind])
    | ok r =>
      rw [hr] at h
      simp only [bind, Except.bind, Except.ok.injEq] at h
      subst h
      rfl

/-- When `advance_token` returns in a parser state, the token it has released
was obtained from `malloc`. -/
theorem Parser.advance_ok {P Q : Parser} (h : P.advance = .ok Q) :
    P.current_token.on_heap = true ∧ get_next_token P.lexer = .ok (Q.current_token, Q.lexer) := by
  refine ⟨?_, advance_token_next h⟩
  cases hh : P.current_token.on_heap with
  | true => rfl
  | false => rw [Parser.advance_literal hh] at h; exact absurd h (by simp)

/-! ## Fuel -/

/-- An outcome settles itself. -/
theorem Settles.refl {α : Type} (x : Except Error α) : Settles x x := Or.inr rfl

/-- Sequencing keeps `Settles`. -/
theorem Settles.bind {α β : Type} {x y : Except Error α} {f g : α → Except Error β}
    (h : Settles x y) (hf : ∀ a, Settles (f a) (g a)) : Settles (x >>= f) (y >>= g) := by
  rcases h with h | h
  · left; rw [h]; rfl
  · subst h
    cases x with
    | error e => right; rfl
    | ok a => exact hf a

/-- Sequencing after the same first step keeps `Settles`. -/
theorem Settles.bind_same {α β : Type} (x : Except Error α) {f g : α → Except Error β}
    (hf : ∀ a, Settles (f a) (g a)) : Settles (x >>= f) (x >>= g) :=
  Settles.bind (Settles.refl x) hf

/-- A conditional keeps `Settles`. -/
theorem Settles.ite {α : Type} (c : Prop) [Decidable c] {a b a2 b2 : Except Error α}
    (ha : Settles a a2) (hb : Settles b b2) :
    Settles (if c then a else b) (if c then a2 else b2) := by
  split
  · exact ha
  · exact hb

/-- One more unit of fuel settles the expression parsers. -/
theorem expr_settles (n : Nat) :
    (∀ P, Settles (parse_expression n P) (parse_expression (n + 1) P)) ∧
    (∀ node P, Settles (parse_expression_loop n node P) (parse_expression_loop (n + 1) node P)) ∧
    (∀ P, Settles (parse_term n P) (parse_term (n + 1) P)) ∧
    (∀ node P, Settles (parse_term_loop n node P) (parse_term_loop (n + 1) node P)) ∧
    (∀ P, Settles (parse_factor n P) (parse_factor (n + 1) P)) := by
  induction n with
  | zero =>
    refine ⟨?_, ?_, ?_, ?_, ?_⟩ <;> intros <;> left <;> rfl
  | succ n ih =>
    obtain ⟨he, hel, ht, htl, hf⟩ := ih
    refine ⟨?_, ?_, ?_, ?_, ?_⟩
    · intro P
      rw [parse_expression, parse_expression]
      exact Settles.bind (ht P) (fun r => hel _ _)
    · intro node P
      rw [parse_expression_loop, parse_expression_loop]
      apply Settles.ite _ _ (Settles.refl _)
      exact Settles.bind_same _ (fun P1 => Settles.bind (ht P1) (fun r => hel _ _))
    · intro P
      rw [parse_term, parse_term]
      exact Settles.bind (hf P) (fun r => htl _ _)
    · intro node P
      rw [parse_term_loop, parse_term_loop]
      apply Settles.ite _ _ (Settles.refl _)
      exact Settles.bind_same _ (fun P1 => Settles.bind (hf P1) (fun r => htl _ _))
    · intro P
      rw [parse_factor, parse_factor]
      apply Settles.ite _ (Settles.refl _)
      apply Settles.ite _ (Settles.refl _)
      apply Settles.ite _ _ (Settles.refl _)
      exact Settles.bind_same _ (fun P1 => Settles.bind (he P1) (fun r => Settles.refl _))

/-- `as_statement` keeps `Settles`. -/
theorem Settles.as_statement {x y : Except Error (ASTNode × Parser)} (h : Settles x y) :
    Settles (as_statement x) (as_statement y) :=
  Settles.bind h (fun _ => Settles.refl _)

/-- One more unit of fuel settles `parse_variable_declaration`. -/
theorem parse_variable_declaration_settles (n : Nat) (P : Parser) :
    Settles (parse_variable_declaration n P) (parse_variable_declaration (n + 1) P) := by
  unfold parse_variable_declaration
  refine Settles.bind_same _ (fun P1 => Settles.ite _ (Settles.refl _) ?_)
  refine Settles.bind_same _ (fun P2 => Settles.ite _ (Settles.refl _) ?_)
  exact Settles.bind_same _ (fun P3 =>
    Settles.bind ((expr_settles n).1 P3) (fun r => Settles.refl _))

/-- One more unit of fuel settles `parse_assignment_or_function_call`. -/
theorem parse_assignment_or_function_call_settles (n : Nat) (P : Parser) :
    Settles (parse_assignment_or_function_call n P)
      (parse_assignment_or_function_call (n + 1) P) := by
  unfold parse_assignment_or_function_call
  refine Settles.bind_same _ (fun P1 => Settles.ite _ ?_ (Settles.refl _))
  exact Settles.bind_same _ (fun P2 =>
    Settles.bind ((expr_settles n).1 P2) (fun r => Settles.refl _))

/-- One more unit of fuel settles the statement parsers. -/
theorem stmt_settles (n : Nat) :
    (∀ P, Settles (parse_statement n P) (parse_statement (n + 1) P)) ∧
    (∀ P, Settles (parse_function_declaration n P) (parse_function_declaration (n + 1) P)) ∧
    (∀ P, Settles (parse_block n P) (parse_block (n + 1) P)) ∧
    (∀ stmts P, Settles (parse_block_loop n stmts P) (parse_block_loop (n + 1) stmts P)) ∧
    (∀ P, Settles (parse_if_statement n P) (parse_if_statement (n + 1) P)) ∧
    (∀ P, Settles (parse_while_statement n P) (parse_while_statement (n + 1) P)) := by
  induction n with
  | zero =>
    refine ⟨?_, ?_, ?_, ?_, ?_, ?_⟩ <;> intros <;> left <;> rfl
  | succ n ih =>
    obtain ⟨hs, hf, hb, hbl, hi, hw⟩ := ih
    have he := (expr_settles n).1
    refine ⟨?_, ?_, ?_, ?_, ?_, ?_⟩
    · intro P
      rw [parse_statement, parse_statement]
      refine Settles.ite _ (parse_variable_declaration_settles n P).as_statement ?_
      refine Settles.ite _ (parse_assignment_or_function_call_settles n P).as_statement ?_
      refine Settles.ite _ (hf P).as_statement ?_
      refine Settles.ite _ (hi P).as_statement ?_
      refine Settles.ite _ (hw P).as_statement ?_
      refine Settles.ite _ (Settles.refl _) ?_
      refine Settles.ite _ ?_ ?_
      · exact Settles.bind_same _ (fun P1 => Settles.bind (he P1) (fun r => Settles.refl _))
      refine Settles.ite _ (Settles.bind_same _ (fun P1 => hs P1)) ?_
      exact Settles.ite _ (Settles.refl _) (he P).as_statement
    · intro P
      rw [parse_function_declaration, parse_function_declaration]
      refine Settles.bind_same _ (fun P1 => Settles.ite _ (Settles.refl _) ?_)
      refine Settles.bind_same _ (fun P2 => Settles.ite _ (Settles.refl _) ?_)
      refine Settles.ite _ (Settles.refl _) ?_
      exact Settles.bind_same _ (fun P3 => Settles.bind (hb P3) (fun r => Settles.refl _))
    · intro P
      rw [parse_block, parse_block]
      refine Settles.ite _ (Settles.refl _) ?_
      exact Settles.bind_same _ (fun P1 => Settles.bind (hbl _ P1) (fun r => Settles.refl _))
    · intro stmts P
      rw [parse_block_loop, parse_block_loop]
      refine Settles.ite _ ?_ (Settles.refl _)
      refine Settles.ite _ (Settles.bind_same _ (fun P1 => hbl _ P1)) ?_
      exact Settles.bind (hs P) (fun r => hbl _ _)
    · intro P
      rw [parse_if_statement, parse_if_statement]
      refine Settles.bind_same _ (fun P1 => Settles.bind (he P1) (fun c => ?_))
      refine Settles.ite _ (Settles.refl _) ?_
      refine Settles.bind_same _ (fun P2 => Settles.bind (hb P2) (fun t => ?_))
      refine Settles.ite _ ?_ (Settles.refl _)
      refine Settles.bind_same _ (fun P3 => Settles.ite _ (Settles.refl _) ?_)
      exact Settles.bind_same _ (fun P4 => Settles.bind (hb P4) (fun e => Settles.refl _))
    · intro P
      rw [parse_while_statement, parse_while_statement]
      refine Settles.bind_same _ (fun P1 => Settles.bind (he P1) (fun c => ?_))
      refine Settles.ite _ (Settles.refl _) ?_
      exact Settles.bind_same _ (fun P2 => Settles.bind (hb P2) (fun t => Settles.refl _))

/-- One more unit of fuel settles the loop of `parse_program`. -/
theorem parse_program_loop_settles (n : Nat) :
    ∀ stmts P, Settles (parse_program_loop n stmts P) (parse_program_loop (n + 1) stmts P) := by
  induction n with
  | zero => intros; left; rfl
  | succ n ih =>
    intro stmts P
    rw [parse_program_loop, parse_program_loop]
    refine Settles.ite _ ?_ (Settles.refl _)
    exact Settles.bind ((stmt_settles n).1 P) (fun r => ih _ _)

/-- A family of outcomes indexed by fuel in which more fuel only settles what
ran out. -/
theorem Settles.mono {α : Type} {f : Nat → Except Error α}
    (h : ∀ n, Settles (f n) (f (n + 1))) {n m : Nat} (hnm : n ≤ m) {r : Except Error α}
    (hr : f n = r) (hne : r ≠ .error .out_of_fuel) : f m = r := by
  induction hnm with
  | refl => exact hr
  | step _ ih =>
    rcases h _ with h1 | h1
    · rw [ih] at h1; exact absurd h1 hne
    · rw [← h1]; exact ih

/-- One more unit of fuel settles `parse_program`. -/
theorem parse_program_settles (n : Nat) (L : Lexer) :
    Settles (parse_program n L) (parse_program (n + 1) L) := by
  unfold parse_program
  exact Settles.bind_same _ (fun P =>
    Settles.bind (parse_program_loop_settles n _ P) (fun r => Settles.refl _))

/-- What `parse_program` returns with some fuel, other than running out, it
returns with any larger fuel. -/
theorem parse_program_mono {n m : Nat} (hnm : n ≤ m) {L : Lexer} {r : Except Error ASTNode}
    (hr : parse_program n L = r) (hne : r ≠ .error .out_of_fuel) : parse_program m L = r :=
  Settles.mono (f := fun k => parse_program k L) (fun k => parse_program_settles k L) hnm hr hne

/-! ## C8 -/

/-- At the end of the input `get_next_token` is `end_of_input`. -/
theorem get_next_token_at_end (L : Lexer) (h : peek L = NUL) :
    get_next_token L = end_of_input L := by
  unfold get_next_token
  rw [get_next_token_aux, if_pos h]

/-- At the end of the input, `i` calls pop `i` levels (as far as there are any)
and change nothing else. -/
theorem after_calls_at_end (i : Nat) : ∀ (L : Lexer), peek L = NUL →
    after_calls i L = .ok { L with indent_stack_top := L.indent_stack_top - i } := by
  induction i with
  | zero => intro L _; rfl
  | succ i ih =>
    intro L h
    rw [after_calls, get_next_token_at_end L h]
    unfold end_of_input
    split
    · show after_calls i { L with indent_stack_top := L.indent_stack_top - 1 } = _
      rw [ih { L with indent_stack_top := L.indent_stack_top - 1 } h]
      simp only [Nat.sub_sub, Nat.add_comm 1 i]
    · show after_calls i L = _
      rw [ih _ h]
      have h0 : L.indent_stack_top = 0 := by omega
      simp only [h0, Nat.zero_sub]

/-- C7: end-of-input flush. When the cursor is at the end of the source and
`indent_stack_top = k`: after `i` calls of `get_next_token` only the stack
has changed, by `i` pops (none below the base); each of the first `k` calls
returns DEDENT and pops one level; the call after them and every later call
returns EOF and leaves the state as it is, with `indent_stack_top = 0`. -/
theorem C7_end_of_input_flush (L : Lexer) (h : peek L = NUL) :
    (∀ i, after_calls i L = .ok { L with indent_stack_top := L.indent_stack_top - i }) ∧
    (∀ i, i < L.indent_stack_top →
      get_next_token { L with indent_stack_top := L.indent_stack_top - i }
        = .ok (⟨TOKEN_DEDENT, "<DEDENT>", L.line, L.column⟩,
               { L with indent_stack_top := L.indent_stack_top - (i + 1) })) ∧
    (∀ i, L.indent_stack_top ≤ i →
      get_next_token { L with indent_stack_top := L.indent_stack_top - i }
        = .ok (⟨TOKEN_EOF, "<EOF>", L.line, L.column⟩,
               { L with indent_stack_top := 0 })) ∧
    (∀ j, call_kinds (L.indent_stack_top + j) L
      = List.replicate L.indent_stack_top TOKEN_DEDENT ++ List.replicate j TOKEN_EOF) := by
  refine ⟨fun i => after_calls_at_end i L h, ?_, ?_, ?_⟩
  · intro i hi
    rw [get_next_token_at_end { L with indent_stack_top := L.indent_stack_top - i } h]
    unfold end_of_input
    rw [if_pos (show L.indent_stack_top - i > 0 by omega)]
    simp only [Nat.sub_sub]
  · intro i hi
    rw [get_next_token_at_end { L with indent_stack_top := L.indent_stack_top - i } h]
    unfold end_of_input
    have h0 : L.indent_stack_top - i = 0 := by omega
    rw [if_neg (by simp [h0])]
    simp only [h0]
  · have key : ∀ (k : Nat) (M : Lexer), peek M = NUL → M.indent_stack_top = k → ∀ j,
        call_kinds (k + j) M = List.replicate k TOKEN_DEDENT ++ List.replicate j TOKEN_EOF := by
      intro k
      induction k with
      | zero =>
        intro M hM h0 j
        induction j with
        | zero => rfl
        | succ j ihj =>
          show call_kinds (0 + j + 1) M = _
          rw [call_kinds, get_next_token_at_end M hM]
          unfold end_of_input
          rw [if_neg (by simp [h0])]
          show TOKEN_EOF :: call_kinds (0 + j) M = _
          rw [ihj]
          simp [List.replicate_succ]
      | succ k ih =>
        intro M hM hk j
        show call_kinds (k + 1 + j) M = _
        rw [show k + 1 + j = (k + j) + 1 by omega, call_kinds, get_next_token_at_end M hM]
        unfold end_of_input
        rw [if_pos (by omega)]
        show TOKEN_DEDENT :: call_kinds (k + j)
          { M with indent_stack_top := M.indent_stack_top - 1 } = _
        rw [ih { M with indent_stack_top := M.indent_stack_top - 1 } hM
          (by show M.indent_stack_top - 1 = k; omega)]
        simp [List.replicate_succ]
    exact key _ L h rfl

/-- Witness of C7: after the seven tokens of `a\n  b\n    c` the cursor is at
the end with two levels open; the next calls return DEDENT, DEDENT, EOF, EOF,
EOF. -/
theorem C7_witness :
    peek (lexer_after "a\n  b\n    c" 7) = NUL ∧
    (lexer_after "a\n  b\n    c" 7).indent_stack_top = 2 ∧
    call_kinds (2 + 3) (lexer_after "a\n  b\n    c" 7)
      = [TOKEN_DEDENT, TOKEN_DEDENT, TOKEN_EOF, TOKEN_EOF, TOKEN_EOF] ∧
    after_calls 5 (lexer_after "a\n  b\n    c" 7)
      = .ok { lexer_after "a\n  b\n    c" 7 with indent_stack_top := 0 } :=
  ⟨by decide!, by decide!,
   (C7_end_of_input_flush (lexer_after "a\n  b\n    c" 7) (by decide!)).2.2.2 3,
   (C7_end_of_input_flush (lexer_after "a\n  b\n    c" 7) (by decide!)).1 5⟩

/-! ## The start of a line -/

/-- The space-counting loop consumes the leading spaces and counts them. -/
theorem count_spaces_eq (n : Nat) : ∀ (L : Lexer) (k : Nat), L.src.length ≤ n →
    count_spaces n L k =
      ({ L with src := after_spaces L.src, pos := L.pos + leading_spaces L.src,
                column := L.column + leading_spaces L.src }, k + leading_spaces L.src) := by
  induction n with
  | zero =>
    intro L k h
    have hs : L.src = [] := List.length_eq_zero.mp (Nat.le_zero.mp h)
    cases L
    simp only at hs
    subst hs
    simp [count_spaces, after_spaces, leading_spaces]
  | succ n ih =>
    intro L k h
    rw [count_spaces]
    cases hs : L.src with
    | nil =>
      have hp : peek L ≠ ' ' := by
        simp only [peek, hs, List.headD_nil]
        decide
      rw [if_neg hp]
      cases L
      simp only at hs
      subst hs
      simp [after_spaces, leading_spaces]
    | cons c cs =>
      have hp : peek L = c := by simp [peek, hs]
      by_cases hc : c = ' '
      · rw [if_pos (by rw [hp, hc])]
        have hadv : advance L = { L with src := cs, pos := L.pos + 1, column := L.column + 1 } := by
          unfold advance
          rw [if_neg (by rw [hp, hc]; decide)]
          simp [hs]
        rw [hadv, ih _ _ (by simp only; rw [hs] at h; simpa using h)]
        subst hc
        simp [after_spaces, leading_spaces]
        omega
      · rw [if_neg (by rw [hp]; exact hc)]
        cases L
        simp only at hs
        subst hs
        simp [after_spaces, leading_spaces, hc]

/-- What the line-start block computes first: the state past the leading
spaces and their number. -/
theorem count_spaces_line (L : Lexer) :
    count_spaces L.src.length { L with at_line_start := false } 0
      = (L.past_spaces, leading_spaces L.src) := by
  rw [count_spaces_eq L.src.length { L with at_line_start := false } 0 (le_refl _)]
  simp [Lexer.past_spaces]

/-! ## What the scanning loops change -/

/-- `advance` drops the character under the cursor. -/
theorem advance_src (L : Lexer) : (advance L).src = L.src.tail := by
  unfold advance; split <;> rfl

/-- `advance` moves the cursor by one. -/
theorem advance_pos (L : Lexer) : (advance L).pos = L.pos + 1 := by
  unfold advance; split <;> rfl

/-- `advance` leaves the indentation widths alone. -/
theorem advance_indent_levels (L : Lexer) : (advance L).indent_levels = L.indent_levels := by
  unfold advance; split <;> rfl

/-- `advance` leaves the top of the indentation stack alone. -/
theorem advance_indent_stack_top (L : Lexer) :
    (advance L).indent_stack_top = L.indent_stack_top := by
  unfold advance; split <;> rfl

/-- `advance` leaves `at_line_start` alone. -/
theorem advance_at_line_start (L : Lexer) : (advance L).at_line_start = L.at_line_start := by
  unfold advance; split <;> rfl

/-- The loop `while (p(peek())) advance();`, with as many rounds as the text
has characters: what is left is the text without its longest prefix of `p`, the
cursor has moved by the length of that prefix, and nothing of the indentation
state changes. -/
theorem advance_while_aux_spec (p : Char → Bool) (n : Nat) : ∀ (L : Lexer), L.src.length = n →
    (advance_while_aux p n L).src = L.src.dropWhile p ∧
    (advance_while_aux p n L).pos = L.pos + (L.src.takeWhile p).length ∧
    (advance_while_aux p n L).indent_levels = L.indent_levels ∧
    (advance_while_aux p n L).indent_stack_top = L.indent_stack_top ∧
    (advance_while_aux p n L).at_line_start = L.at_line_start := by
  induction n with
  | zero =>
    intro L h
    have hs : L.src = [] := List.length_eq_zero.mp h
    simp [advance_while_aux, hs]
  | succ n ih =>
    intro L h
    rw [advance_while_aux]
    cases hs : L.src with
    | nil => rw [hs] at h; simp at h
    | cons c cs =>
      have hp : peek L = c := by simp [peek, hs]
      by_cases hc : p c = true
      · rw [if_pos (by rw [hp]; exact hc)]
        have hlen : (advance L).src.length = n := by
          rw [advance_src, hs]; rw [hs] at h; simpa using h
        obtain ⟨h1, h2, h3, h4, h5⟩ := ih (advance L) hlen
        rw [h1, h2, h3, h4, h5, advance_src, advance_pos, advance_indent_levels,
          advance_indent_stack_top, advance_at_line_start, hs]
        simp [hc]
        omega
      · rw [if_neg (by rw [hp]; exact hc)]
        simp [hs, hc]

/-- What is left after `advance_while`. -/
theorem advance_while_src (p : Char → Bool) (L : Lexer) :
    (advance_while p L).src = L.src.dropWhile p :=
  (advance_while_aux_spec p _ L rfl).1

/-- How far `advance_while` moves the cursor. -/
theorem advance_while_pos (p : Char → Bool) (L : Lexer) :
    (advance_while p L).pos = L.pos + (L.src.takeWhile p).length :=
  (advance_while_aux_spec p _ L rfl).2.1

/-- `advance_while` leaves the indentation widths alone. -/
theorem advance_while_indent_levels (p : Char → Bool) (L : Lexer) :
    (advance_while p L).indent_levels = L.indent_levels :=
  (advance_while_aux_spec p _ L rfl).2.2.1

/-- `advance_while` leaves the top of the indentation stack alone. -/
theorem advance_while_indent_stack_top (p : Char → Bool) (L : Lexer) :
    (advance_while p L).indent_stack_top = L.indent_stack_top :=
  (advance_while_aux_spec p _ L rfl).2.2.2.1

/-- `advance_while` leaves `at_line_start` alone. -/
theorem advance_while_at_line_start (p : Char → Bool) (L : Lexer) :
    (advance_while p L).at_line_start = L.at_line_start :=
  (advance_while_aux_spec p _ L rfl).2.2.2.2

/-- `advance_while p` stops at a character that `p` rejects, or at the end. -/
theorem advance_while_stops (p : Char → Bool) (L : Lexer) :
    (advance_while p L).src = [] ∨ p (peek (advance_while p L)) = false := by
  rw [peek, advance_while_src]
  cases h : L.src.dropWhile p with
  | nil => left; rfl
  | cons c cs =>
    right
    have := List.head_dropWhile_not p L.src (by rw [h]; simp)
    simp only [h, List.head_cons] at this
    simpa using this

/-- `advance_while p` does nothing where `p` rejects the character under the
cursor. -/
theorem advance_while_of_not (p : Char → Bool) (L : Lexer) (h : p (peek L) = false) :
    advance_while p L = L := by
  unfold advance_while
  cases hs : L.src with
  | nil => rfl
  | cons c cs =>
    show advance_while_aux p (cs.length + 1) L = L
    rw [advance_while_aux, if_neg (by simp [h])]

/-! ## One call of `get_next_token` -/

/-- The line-start block in terms of the leading spaces of the line. -/
theorem line_start_eq (L : Lexer) :
    line_start L =
      if peek L.past_spaces = '\n' ∨ peek L.past_spaces = NUL then .empty_line L.past_spaces
      else if leading_spaces L.src > L.top_width then
        if L.indent_stack_top + 1 ≥ MAX_INDENT_LEVELS then
          .returns (.error .too_many_indentation_levels)
        else
          .returns (.ok (⟨TOKEN_INDENT, "<INDENT>", L.line, L.column + leading_spaces L.src⟩,
            { L.past_spaces with
                indent_stack_top := L.indent_stack_top + 1,
                indent_levels :=
                  L.indent_levels.set (L.indent_stack_top + 1) (leading_spaces L.src) }))
      else if leading_spaces L.src < L.top_width then
        .returns (.ok (⟨TOKEN_DEDENT, "<DEDENT>", L.line, L.column + leading_spaces L.src⟩,
          { L.past_spaces with indent_stack_top := L.indent_stack_top - 1 }))
      else .scans L.past_spaces := by
  unfold line_start
  simp only [count_spaces_line]
  rfl

/-- A line that is not blank does not start at the end of the input. -/
theorem peek_ne_NUL_of_nonblank {L : Lexer} (h : starts_nonblank L.src) : peek L ≠ NUL := by
  unfold starts_nonblank after_spaces at h
  unfold peek
  cases hs : L.src with
  | nil => rw [hs] at h; simp at h
  | cons c cs =>
    rw [hs] at h
    by_cases hc : c = ' '
    · subst hc; simp only [List.headD_cons]; decide
    · simp only [List.dropWhile_cons, hc, decide_False, Bool.false_eq_true, if_false,
        List.headD_cons] at h
      simpa using h.2

/-- The character under the cursor past the leading spaces of a line that is
not blank. -/
theorem peek_past_spaces_of_nonblank {L : Lexer} (h : starts_nonblank L.src) :
    ¬ (peek L.past_spaces = '\n' ∨ peek L.past_spaces = NUL) := by
  intro hc
  rcases hc with hc | hc
  · exact h.1 hc
  · exact h.2 hc

/-- `get_next_token` away from the end of the input and from a line start is
the scanner. -/
theorem get_next_token_scans (L : Lexer) (h0 : peek L ≠ NUL) (hs : L.at_line_start = false) :
    get_next_token L = scan_token (get_next_token_aux 1) L := by
  unfold get_next_token
  rw [get_next_token_aux, if_neg h0]
  simp [hs]

/-- `get_next_token` at a line start, away from the end of the input. -/
theorem get_next_token_line_start (L : Lexer) (h0 : peek L ≠ NUL) (hs : L.at_line_start = true) :
    get_next_token L =
      match line_start L with
      | .returns r => r
      | .empty_line L1 => get_next_token_aux 1 L1
      | .scans L1 => scan_token (get_next_token_aux 1) L1 := by
  unfold get_next_token
  rw [get_next_token_aux, if_neg h0]
  simp [hs]

/-! ## What one call of `get_next_token` does -/

/-- The keyword lookup never gives INDENT or DEDENT. -/
theorem keyword_type_not_structural (text : String) :
    keyword_type text ≠ TOKEN_INDENT ∧ keyword_type text ≠ TOKEN_DEDENT := by
  unfold keyword_type
  split_ifs <;> exact ⟨by decide, by decide⟩

/-- A conditional keeps `holds`. -/
theorem holds_ite {P : Token → Lexer → Prop} (c : Prop) [Decidable c] {a b : LexResult}
    (ha : holds P a) (hb : holds P b) : holds P (if c then a else b) := by
  split
  · exact ha
  · exact hb

/-- An error satisfies `holds`. -/
theorem holds_error {P : Token → Lexer → Prop} (e : Error) : holds P (.error e) := by
  intro t M h
  exact absurd h (by simp)

/-- A returned token satisfies `holds` when the property is true of it. -/
theorem holds_ok {P : Token → Lexer → Prop} {t : Token} {M : Lexer} (h : P t M) :
    holds P (.ok (t, M)) := by
  intro t2 M2 h2
  simp only [Except.ok.injEq, Prod.mk.injEq] at h2
  obtain ⟨rfl, rfl⟩ := h2
  exact h

/-- `holds` follows the implication of properties. -/
theorem holds_imp {P Q : Token → Lexer → Prop} {r : LexResult} (h : holds P r)
    (hpq : ∀ t M, P t M → Q t M) : holds Q r :=
  fun t M hr => hpq t M (h t M hr)

/-- The text after `advance` is a suffix of the text before. -/
theorem advance_suffix (L : Lexer) : (advance L).src <:+ L.src := by
  rw [advance_src]
  exact List.tail_suffix _

/-- The text after `advance_while` is a suffix of the text before. -/
theorem advance_while_suffix (p : Char → Bool) (L : Lexer) :
    (advance_while p L).src <:+ L.src := by
  rw [advance_while_src]
  exact List.dropWhile_suffix _

/-- `advance` is a plain step, whatever token is made of it. -/
theorem plain_advance {L : Lexer} {t : Token}
    (ht : t.type ≠ TOKEN_INDENT ∧ t.type ≠ TOKEN_DEDENT) : plain L t (advance L) :=
  ⟨⟨ht.1, ht.2, advance_indent_levels L, advance_indent_stack_top L⟩, advance_suffix L,
    advance_at_line_start L⟩

/-- `advance_while` is a plain step, whatever token is made of it. -/
theorem plain_advance_while {L : Lexer} {t : Token} (p : Char → Bool)
    (ht : t.type ≠ TOKEN_INDENT ∧ t.type ≠ TOKEN_DEDENT) : plain L t (advance_while p L) :=
  ⟨⟨ht.1, ht.2, advance_while_indent_levels p L, advance_while_indent_stack_top p L⟩,
    advance_while_suffix p L, advance_while_at_line_start p L⟩

/-- Plain steps compose. -/
theorem plain_trans {L K M : Lexer} {t u : Token} (h1 : plain L u K) (h2 : plain K t M) :
    plain L t M :=
  ⟨⟨h2.1.1, h2.1.2.1, h2.1.2.2.1.trans h1.1.2.2.1, h2.1.2.2.2.trans h1.1.2.2.2⟩,
    h2.2.1.trans h1.2.1, h2.2.2.trans h1.2.2⟩

/-- `single_char` is a plain step. -/
theorem single_char_plain (k : TokenType) (text : String) (L : Lexer)
    (hk : k ≠ TOKEN_INDENT ∧ k ≠ TOKEN_DEDENT) : holds (plain L) (single_char k text L) :=
  holds_ok (plain_advance hk)

/-- `with_equals` is a plain step when its one-character alternative is. -/
theorem with_equals_plain (k : TokenType) (text : String) (alone : Lexer → LexResult)
    (L : Lexer) (hk : k ≠ TOKEN_INDENT ∧ k ≠ TOKEN_DEDENT)
    (ha : holds (plain L) (alone (advance L))) :
    holds (plain L) (with_equals k text alone L) := by
  unfold with_equals
  exact holds_ite _ (holds_ok (plain_trans (plain_advance (t := ⟨k, text, 0, 0⟩) hk)
    (plain_advance hk))) ha

/-- `scan_operator` is a plain step. -/
theorem scan_operator_plain (L : Lexer) : holds (plain L) (scan_operator L) := by
  unfold scan_operator
  refine holds_ite _ (single_char_plain _ _ _ (by decide)) ?_
  refine holds_ite _ (single_char_plain _ _ _ (by decide)) ?_
  refine holds_ite _ (single_char_plain _ _ _ (by decide)) ?_
  refine holds_ite _ (single_char_plain _ _ _ (by decide)) ?_
  refine holds_ite _ (single_char_plain _ _ _ (by decide)) ?_
  refine holds_ite _ (single_char_plain _ _ _ (by decide)) ?_
  refine holds_ite _ (single_char_plain _ _ _ (by decide)) ?_
  refine holds_ite _ (single_char_plain _ _ _ (by decide)) ?_
  refine holds_ite _ (with_equals_plain _ _ _ _ (by decide)
    (holds_ok (plain_advance ⟨by simp, by simp⟩))) ?_
  refine holds_ite _ (with_equals_plain _ _ _ _ (by decide) (holds_error _)) ?_
  refine holds_ite _ (with_equals_plain _ _ _ _ (by decide)
    (holds_ok (plain_advance ⟨by simp, by simp⟩))) ?_
  exact holds_ite _ (with_equals_plain _ _ _ _ (by decide)
    (holds_ok (plain_advance ⟨by simp, by simp⟩))) (holds_error _)

/-- The identifier branch is a plain step. -/
theorem identifier_token_plain (L : Lexer) :
    holds (plain L) (identifier_token L (advance_while is_identifier_char L)) := by
  unfold identifier_token
  exact holds_ok (plain_advance_while _ (keyword_type_not_structural _))

/-- The state after a number is reached by plain steps. -/
theorem number_end_plain (L : Lexer) {t : Token}
    (ht : t.type ≠ TOKEN_INDENT ∧ t.type ≠ TOKEN_DEDENT) : plain L t (number_end L) := by
  unfold number_end
  split
  · exact plain_trans (plain_trans (plain_advance_while (t := t) _ ht) (plain_advance (t := t) ht))
      (plain_advance_while _ ht)
  · exact plain_advance_while _ ht

/-- The number branch is a plain step. -/
theorem number_token_plain (L : Lexer) : holds (plain L) (number_token L) := by
  unfold number_token
  exact holds_ok (number_end_plain L ⟨by simp, by simp⟩)

/-- The string branch is a plain step. -/
theorem string_token_plain (L : Lexer) (q : Char) :
    holds (plain L) (string_token (advance L) (advance_while (in_string q) (advance L))) := by
  unfold string_token
  refine holds_ite _ (holds_error _) (holds_ok ?_)
  exact plain_trans (plain_trans (plain_advance (t := ⟨TOKEN_STRING, "", 0, 0⟩) (by decide))
    (plain_advance_while (t := ⟨TOKEN_STRING, "", 0, 0⟩) _ (by decide)))
    (plain_advance ⟨by simp, by simp⟩)

/-- A conditional keeps `holds`, each branch under its condition. -/
theorem holds_ite_of {P : Token → Lexer → Prop} (c : Prop) [Decidable c] {a b : LexResult}
    (ha : c → holds P a) (hb : ¬ c → holds P b) : holds P (if c then a else b) := by
  split
  · exact ha ‹_›
  · exact hb ‹_›

/-- A plain step is an inner step. -/
theorem inner_of_plain {L M : Lexer} {t : Token} (h : plain L t M) : inner L t M :=
  ⟨h.2.1, fun hM => Or.inl (h.2.2 ▸ hM), Or.inr h.1⟩

/-- An inner step from a state reached by skipping text is an inner step from
the state before the skipping. -/
theorem inner_of_skipped {L K M : Lexer} {t : Token} (h : inner K t M)
    (hsrc : K.src <:+ L.src) (hl : K.indent_levels = L.indent_levels)
    (ht : K.indent_stack_top = L.indent_stack_top)
    (hf : K.at_line_start = true → L.at_line_start = true) : inner L t M := by
  obtain ⟨h1, h2, h3⟩ := h
  refine ⟨h1.trans hsrc, fun hM => ?_, ?_⟩
  · rcases h2 hM with h | h
    · exact Or.inl (hf h)
    · exact Or.inr (h.trans hsrc)
  · rcases h3 with ⟨a, b, c, d⟩ | ⟨a, b, c, d⟩
    · exact Or.inl ⟨a, b.trans hl, by rw [c, ht], by rw [← ht]; exact d.1, d.2⟩
    · exact Or.inr ⟨a, b, c.trans hl, d.trans ht⟩

/-- The end-of-input branch is an inner step that consumes nothing. -/
theorem end_of_input_inner (L : Lexer) (h0 : peek L = NUL) :
    holds (fun t M => inner L t M ∧ M.src = L.src ∧ M.at_line_start = L.at_line_start)
      (end_of_input L) := by
  unfold end_of_input
  refine holds_ite_of _ (fun h => holds_ok ?_) (fun _ => holds_ok ?_)
  · exact ⟨⟨List.suffix_refl _, fun hM => Or.inl hM, Or.inl ⟨rfl, rfl, rfl, h, h0⟩⟩, rfl, rfl⟩
  · exact ⟨⟨List.suffix_refl _, fun hM => Or.inl hM,
      Or.inr ⟨by simp, by simp, rfl, rfl⟩⟩, rfl, rfl⟩

/-- The scanner past the white space is an inner step when the call made after
a comment is. -/
theorem scan_at_inner (again : Lexer → LexResult) (L : Lexer)
    (hag : holds (inner (skip_comment (advance L))) (again (skip_comment (advance L)))) :
    holds (inner L) (scan_at again L) := by
  unfold scan_at
  refine holds_ite_of _ (fun hnl => holds_ok ?_) (fun _ => ?_)
  · refine ⟨advance_suffix L, fun _ => Or.inr ?_, Or.inr ⟨by simp, by simp,
      advance_indent_levels L, advance_indent_stack_top L⟩⟩
    show '\n' :: (advance L).src <:+ L.src
    rw [advance_src]
    unfold peek at hnl
    cases hs : L.src with
    | nil => rw [hs] at hnl; exact absurd hnl (by decide)
    | cons c cs =>
      rw [hs] at hnl
      simp only [List.headD_cons] at hnl
      rw [hnl]
      exact List.suffix_refl _
  refine holds_ite _ ?_ ?_
  · refine holds_imp hag (fun t M h => inner_of_skipped h ?_ ?_ ?_ ?_)
    · exact (advance_while_suffix _ _).trans (advance_suffix L)
    · exact (advance_while_indent_levels _ _).trans (advance_indent_levels L)
    · exact (advance_while_indent_stack_top _ _).trans (advance_indent_stack_top L)
    · intro h
      rw [← advance_at_line_start L]
      exact (advance_while_at_line_start _ _ ▸ h)
  refine holds_ite _ (holds_imp (identifier_token_plain L) (fun _ _ => inner_of_plain)) ?_
  refine holds_ite _ (holds_imp (number_token_plain L) (fun _ _ => inner_of_plain)) ?_
  refine holds_ite _ (holds_imp (string_token_plain L _) (fun _ _ => inner_of_plain)) ?_
  exact holds_imp (scan_operator_plain L) (fun _ _ => inner_of_plain)

/-- The scanner is an inner step when the call made after a comment is. -/
theorem scan_token_inner (again : Lexer → LexResult) (L : Lexer)
    (hag : ∀ K, K.at_line_start = L.at_line_start → holds (inner K) (again K)) :
    holds (inner L) (scan_token again L) := by
  unfold scan_token
  have hflag : (skip_whitespace L).at_line_start = L.at_line_start :=
    advance_while_at_line_start _ L
  refine holds_imp (scan_at_inner again (skip_whitespace L) (hag _ ?_))
    (fun t M h => inner_of_skipped h (advance_while_suffix _ L)
      (advance_while_indent_levels _ L) (advance_while_indent_stack_top _ L)
      (fun hK => hflag ▸ hK))
  show (advance_while _ (advance (skip_whitespace L))).at_line_start = _
  rw [advance_while_at_line_start, advance_at_line_start, hflag]

/-- Away from a line start, a call with a budget of one is an inner step. -/
theorem get_next_token_aux_one_inner (L : Lexer) (hs : L.at_line_start = false) :
    holds (inner L) (get_next_token_aux 1 L) := by
  rw [get_next_token_aux]
  refine holds_ite_of _ (fun h0 => holds_imp (end_of_input_inner L h0) (fun _ _ h => h.1))
    (fun _ => ?_)
  simp only [hs, Bool.false_eq_true, if_false]
  exact scan_token_inner _ L (fun K _ => holds_error _)

/-- Away from a line start, a call is an inner step. -/
theorem get_next_token_inner (L : Lexer) (hs : L.at_line_start = false) :
    holds (inner L) (get_next_token L) := by
  unfold get_next_token
  rw [get_next_token_aux]
  refine holds_ite_of _ (fun h0 => holds_imp (end_of_input_inner L h0) (fun _ _ h => h.1))
    (fun _ => ?_)
  simp only [hs, Bool.false_eq_true, if_false]
  exact scan_token_inner _ L (fun K hK => get_next_token_aux_one_inner K (hK.trans hs))

/-- An inner step from a state that is not at a line start is a step. -/
theorem step_of_inner {L M : Lexer} {t : Token} (h : inner L t M)
    (hs : L.at_line_start = false) : step L t M := by
  obtain ⟨h1, h2, h3⟩ := h
  refine ⟨h1, fun hM => ?_, ?_⟩
  · rcases h2 hM with h | h
    · rw [hs] at h; exact absurd h (by simp)
    · exact Or.inr h
  · rcases h3 with ⟨a, b, c, d⟩ | h
    · exact Or.inr (Or.inl ⟨a, b, c, Or.inl d⟩)
    · exact Or.inr (Or.inr h)

/-- An inner step from the state past the leading spaces of a line is a step
from the start of the line. -/
theorem step_of_inner_past_spaces {L M : Lexer} {t : Token}
    (h : inner L.past_spaces t M) : step L t M := by
  have hsuf : L.past_spaces.src <:+ L.src := List.dropWhile_suffix _
  obtain ⟨h1, h2, h3⟩ := h
  refine ⟨h1.trans hsuf, fun hM => ?_, ?_⟩
  · rcases h2 hM with h | h
    · exact absurd h (by simp [Lexer.past_spaces])
    · exact Or.inr (h.trans hsuf)
  · rcases h3 with ⟨a, b, c, d⟩ | h
    · exact Or.inr (Or.inl ⟨a, b, c, Or.inl d⟩)
    · exact Or.inr (Or.inr h)

/-- One call of `get_next_token`, whatever the state: see `step`. -/
theorem get_next_token_step (L : Lexer) : holds (step L) (get_next_token L) := by
  by_cases h0 : peek L = NUL
  · rw [get_next_token_at_end L h0]
    refine holds_imp (end_of_input_inner L h0) (fun t M h => ?_)
    obtain ⟨⟨h1, _, h3⟩, hsrc, _⟩ := h
    refine ⟨h1, fun _ => Or.inl ⟨h0, hsrc⟩, ?_⟩
    rcases h3 with ⟨a, b, c, d⟩ | h
    · exact Or.inr (Or.inl ⟨a, b, c, Or.inl d⟩)
    · exact Or.inr (Or.inr h)
  by_cases hs : L.at_line_start = true
  · rw [get_next_token_line_start L h0 hs, line_start_eq]
    by_cases hb : peek L.past_spaces = '\n' ∨ peek L.past_spaces = NUL
    · rw [if_pos hb]
      exact holds_imp (get_next_token_aux_one_inner L.past_spaces rfl)
        (fun _ _ => step_of_inner_past_spaces)
    rw [if_neg hb]
    have hsuf : L.past_spaces.src <:+ L.src := List.dropWhile_suffix _
    by_cases hgt : leading_spaces L.src > L.top_width
    · rw [if_pos hgt]
      by_cases hmax : L.indent_stack_top + 1 ≥ MAX_INDENT_LEVELS
      · rw [if_pos hmax]
        exact holds_error _
      · rw [if_neg hmax]
        refine holds_ok ⟨hsuf, fun hM => absurd hM (by simp [Lexer.past_spaces]), Or.inl ?_⟩
        exact ⟨rfl, hs, hgt, rfl, by simpa using hmax, rfl⟩
    rw [if_neg hgt]
    by_cases hlt : leading_spaces L.src < L.top_width
    · rw [if_pos hlt]
      refine holds_ok ⟨hsuf, fun hM => absurd hM (by simp [Lexer.past_spaces]), Or.inr (Or.inl ?_)⟩
      exact ⟨rfl, rfl, rfl, Or.inr ⟨hs, hlt⟩⟩
    · rw [if_neg hlt]
      exact holds_imp (scan_token_inner _ L.past_spaces
        (fun K hK => get_next_token_aux_one_inner K hK)) (fun _ _ => step_of_inner_past_spaces)
  · have hs2 : L.at_line_start = false := by simpa using hs
    exact holds_imp (get_next_token_inner L hs2) (fun _ _ h => step_of_inner h hs2)

/-! ## The recursion budget of `get_next_token` -/

/-- `skip_comment` stops at a newline or at the end of the input. -/
theorem peek_skip_comment (L : Lexer) :
    peek (skip_comment L) = '\n' ∨ peek (skip_comment L) = NUL := by
  unfold skip_comment
  rcases advance_while_stops (fun c => c ≠ '\n' && c ≠ NUL) L with h | h
  · right
    unfold peek
    rw [h]
    rfl
  · simp only [ne_eq, Bool.and_eq_false_imp, decide_eq_true_eq, decide_eq_false_iff_not,
      Decidable.not_not] at h
    by_cases hn : peek (advance_while (fun c => c ≠ '\n' && c ≠ NUL) L) = '\n'
    · exact Or.inl hn
    · exact Or.inr (h hn)

/-- The scanner at a newline returns NEWLINE, whatever the call made after a
comment would be. -/
theorem scan_token_at_newline (again : Lexer → LexResult) (L : Lexer) (h : peek L = '\n') :
    scan_token again L =
      .ok (⟨TOKEN_NEWLINE, "<NEWLINE>", (advance L).line - 1, (advance L).column⟩,
           { advance L with at_line_start := true }) := by
  unfold scan_token skip_whitespace
  rw [advance_while_of_not _ L (by rw [h]; decide)]
  unfold scan_at
  rw [if_pos h]

/-- At a newline or at the end of the input, away from a line start, a call
does not recur: any budget gives what a budget of one gives, and that is not
the exhaustion of the budget. -/
theorem get_next_token_aux_at_line_end (n : Nat) (L : Lexer) (hs : L.at_line_start = false)
    (h : peek L = '\n' ∨ peek L = NUL) :
    get_next_token_aux (n + 1) L = get_next_token_aux 1 L ∧
      get_next_token_aux 1 L ≠ .error .out_of_fuel := by
  rw [get_next_token_aux, get_next_token_aux]
  by_cases h0 : peek L = NUL
  · rw [if_pos h0, if_pos h0]
    refine ⟨rfl, ?_⟩
    unfold end_of_input
    split <;> simp
  · have hn : peek L = '\n' := h.resolve_right h0
    rw [if_neg h0, if_neg h0]
    simp only [hs, Bool.false_eq_true, if_false]
    rw [scan_token_at_newline _ L hn, scan_token_at_newline _ L hn]
    exact ⟨rfl, by simp⟩

/-- The scanner uses the call made after a comment only at the end of the
comment. -/
theorem scan_token_congr (a b : Lexer → LexResult) (L : Lexer)
    (h : a (skip_comment (advance (skip_whitespace L)))
      = b (skip_comment (advance (skip_whitespace L)))) :
    scan_token a L = scan_token b L := by
  unfold scan_token scan_at
  rw [h]

/-- The scanner with a budget of one for the call after a comment gives what
any larger budget gives. -/
theorem scan_token_budget (n : Nat) (L : Lexer) (hs : L.at_line_start = false) :
    scan_token (get_next_token_aux (n + 1)) L = scan_token (get_next_token_aux 1) L := by
  refine scan_token_congr _ _ L (get_next_token_aux_at_line_end n _ ?_ (peek_skip_comment _)).1
  show (advance_while _ (advance (skip_whitespace L))).at_line_start = false
  rw [advance_while_at_line_start, advance_at_line_start]
  exact (advance_while_at_line_start _ L).trans hs

/-- The budget of `get_next_token` is enough: any larger budget gives the same
outcome. -/
theorem get_next_token_aux_budget (n : Nat) (L : Lexer) :
    get_next_token_aux (n + 2) L = get_next_token L := by
  unfold get_next_token
  rw [get_next_token_aux, get_next_token_aux]
  by_cases h0 : peek L = NUL
  · rw [if_pos h0, if_pos h0]
  rw [if_neg h0, if_neg h0]
  by_cases hs : L.at_line_start = true
  · simp only [hs, if_true]
    rw [line_start_eq]
    by_cases hb : peek L.past_spaces = '\n' ∨ peek L.past_spaces = NUL
    · rw [if_pos hb]
      exact (get_next_token_aux_at_line_end n L.past_spaces rfl hb).1
    rw [if_neg hb]
    by_cases hgt : leading_spaces L.src > L.top_width
    · rw [if_pos hgt]
      by_cases hmax : L.indent_stack_top + 1 ≥ MAX_INDENT_LEVELS
      · rw [if_pos hmax]
      · rw [if_neg hmax]
    rw [if_neg hgt]
    by_cases hlt : leading_spaces L.src < L.top_width
    · rw [if_pos hlt]
    · rw [if_neg hlt]
      exact scan_token_budget n L.past_spaces rfl
  · have hs2 : L.at_line_start = false := by simpa using hs
    simp only [hs2, Bool.false_eq_true, if_false]
    exact scan_token_budget n L hs2

/-- A conditional differs from what both of its branches differ from. -/
theorem ite_ne_of {α : Type} (c : Prop) [Decidable c] {a b x : α} (ha : a ≠ x) (hb : b ≠ x) :
    (if c then a else b) ≠ x := by
  split
  · exact ha
  · exact hb

/-- `with_equals` does not run out of fuel when its alternative does not. -/
theorem with_equals_settled (k : TokenType) (text : String) (alone : Lexer → LexResult)
    (L : Lexer) (ha : alone (advance L) ≠ .error .out_of_fuel) :
    with_equals k text alone L ≠ .error .out_of_fuel := by
  unfold with_equals
  exact ite_ne_of _ (by simp) ha

/-- `scan_operator` does not run out of fuel. -/
theorem scan_operator_settled (L : Lexer) : scan_operator L ≠ .error .out_of_fuel := by
  unfold scan_operator
  refine ite_ne_of _ (by simp [single_char]) ?_
  refine ite_ne_of _ (by simp [single_char]) ?_
  refine ite_ne_of _ (by simp [single_char]) ?_
  refine ite_ne_of _ (by simp [single_char]) ?_
  refine ite_ne_of _ (by simp [single_char]) ?_
  refine ite_ne_of _ (by simp [single_char]) ?_
  refine ite_ne_of _ (by simp [single_char]) ?_
  refine ite_ne_of _ (by simp [single_char]) ?_
  refine ite_ne_of _ (with_equals_settled _ _ _ _ (by simp)) ?_
  refine ite_ne_of _ (with_equals_settled _ _ _ _ (by simp)) ?_
  refine ite_ne_of _ (with_equals_settled _ _ _ _ (by simp)) ?_
  exact ite_ne_of _ (with_equals_settled _ _ _ _ (by simp)) (by simp)

/-- The scanner does not run out of fuel when the call made after a comment
does not. -/
theorem scan_token_settled (again : Lexer → LexResult) (L : Lexer)
    (hag : again (skip_comment (advance (skip_whitespace L))) ≠ .error .out_of_fuel) :
    scan_token again L ≠ .error .out_of_fuel := by
  unfold scan_token scan_at
  refine ite_ne_of _ (by simp) ?_
  refine ite_ne_of _ hag ?_
  refine ite_ne_of _ (by simp [identifier_token]) ?_
  refine ite_ne_of _ (by simp [number_token]) ?_
  refine ite_ne_of _ ?_ (scan_operator_settled _)
  unfold string_token
  exact ite_ne_of _ (by simp) (by simp)

/-- The scanner with a budget of one for the call after a comment does not run
out of fuel. -/
theorem scan_token_budget_settled (L : Lexer) (hs : L.at_line_start = false) :
    scan_token (get_next_token_aux 1) L ≠ .error .out_of_fuel := by
  refine scan_token_settled _ L (get_next_token_aux_at_line_end 0 _ ?_ (peek_skip_comment _)).2
  show (advance_while _ (advance (skip_whitespace L))).at_line_start = false
  rw [advance_while_at_line_start, advance_at_line_start]
  exact (advance_while_at_line_start _ L).trans hs

/-- `get_next_token` never runs out of its recursion budget. -/
theorem get_next_token_settled (L : Lexer) : get_next_token L ≠ .error .out_of_fuel := by
  unfold get_next_token
  rw [get_next_token_aux]
  by_cases h0 : peek L = NUL
  · rw [if_pos h0]
    unfold end_of_input
    exact ite_ne_of _ (by simp) (by simp)
  rw [if_neg h0]
  by_cases hs : L.at_line_start = true
  · simp only [hs, if_true]
    rw [line_start_eq]
    by_cases hb : peek L.past_spaces = '\n' ∨ peek L.past_spaces = NUL
    · rw [if_pos hb]
      exact (get_next_token_aux_at_line_end 0 L.past_spaces rfl hb).2
    rw [if_neg hb]
    by_cases hgt : leading_spaces L.src > L.top_width
    · rw [if_pos hgt]
      by_cases hmax : L.indent_stack_top + 1 ≥ MAX_INDENT_LEVELS
      · rw [if_pos hmax]; simp
      · rw [if_neg hmax]; simp
    rw [if_neg hgt]
    by_cases hlt : leading_spaces L.src < L.top_width
    · rw [if_pos hlt]; simp
    · rw [if_neg hlt]
      exact scan_token_budget_settled L.past_spaces rfl
  · have hs2 : L.at_line_start = false := by simpa using hs
    simp only [hs2, Bool.false_eq_true, if_false]
    exact scan_token_budget_settled L hs2

/-! ## C4, C5, C6: the start of a line -/

/-- Writing past the top of the stack and raising the top pushes. -/
theorem stack_push (l : List Nat) (n v : Nat) (h : n + 1 < l.length) :
    (l.set (n + 1) v).take (n + 1 + 1) = l.take (n + 1) ++ [v] := by
  rw [List.take_succ]
  congr 1
  · apply List.ext_getElem?
    intro i
    rw [List.getElem?_take, List.getElem?_take]
    split
    · rw [List.getElem?_set_ne (by omega)]
    · rfl
  · simp [List.getElem?_set, h]

/-- The scanner past the white space, away from a comment, is quiet. -/
theorem scan_at_quiet (again : Lexer → LexResult) (L : Lexer) (hc : peek L ≠ '#') :
    holds (quiet L) (scan_at again L) := by
  unfold scan_at
  refine holds_ite _ (holds_ok ⟨by simp, by simp, advance_indent_levels L,
    advance_indent_stack_top L⟩) ?_
  rw [if_neg hc]
  refine holds_ite _ (holds_imp (identifier_token_plain L) (fun _ _ h => h.1)) ?_
  refine holds_ite _ (holds_imp (number_token_plain L) (fun _ _ h => h.1)) ?_
  refine holds_ite _ (holds_imp (string_token_plain L _) (fun _ _ h => h.1)) ?_
  exact holds_imp (scan_operator_plain L) (fun _ _ h => h.1)

/-! ## A staircase of lines -/

/-- The leading spaces of a line of `k` spaces and a character that is not a
space. -/
theorem leading_spaces_replicate (k : Nat) (c : Char) (s : List Char) (hc : c ≠ ' ') :
    leading_spaces (List.replicate k ' ' ++ c :: s) = k := by
  induction k with
  | zero => simp [leading_spaces, hc]
  | succ k ih =>
    unfold leading_spaces at ih ⊢
    simpa [List.replicate_succ] using ih

/-- What follows the leading spaces of a line of `k` spaces and a character
that is not a space. -/
theorem after_spaces_replicate (k : Nat) (c : Char) (s : List Char) (hc : c ≠ ' ') :
    after_spaces (List.replicate k ' ' ++ c :: s) = c :: s := by
  induction k with
  | zero => simp [after_spaces, hc]
  | succ k ih =>
    unfold after_spaces at ih ⊢
    simpa [List.replicate_succ] using ih

/-- The state that `lexer_after` names, when the calls succeed. -/
theorem lexer_after_eq (source_code : String) (n : Nat) (M : Lexer)
    (h : after_calls n (start source_code) = .ok M) : lexer_after source_code n = M := by
  unfold lexer_after
  rw [h]

/-- The calls of `get_next_token` compose. -/
theorem after_calls_add (a b : Nat) : ∀ (L M : Lexer), after_calls a L = .ok M →
    after_calls (a + b) L = after_calls b M := by
  induction a with
  | zero =>
    intro L M h
    simp only [after_calls, Except.ok.injEq] at h
    rw [Nat.zero_add, h]
  | succ a ih =>
    intro L M h
    have hab : a + 1 + b = (a + b) + 1 := by omega
    rw [hab]
    show (get_next_token L >>= fun r => after_calls (a + b) r.2) = _
    have h2 : (get_next_token L >>= fun r => after_calls a r.2) = .ok M := h
    cases hr : get_next_token L with
    | error e => rw [hr] at h2; cases h2
    | ok r =>
      rw [hr] at h2
      exact ih r.2 M h2

/-- The scanner at the word `a` that ends its line returns a token and stops
at the newline; nothing else of the state that the lexer reads changes. -/
theorem scan_token_word (again : Lexer → LexResult) (L : Lexer) (rest : List Char)
    (hsrc : L.src = 'a' :: '\n' :: rest) :
    ∃ t M, scan_token again L = .ok (t, M) ∧ M.src = '\n' :: rest ∧
      M.at_line_start = L.at_line_start ∧ M.indent_levels = L.indent_levels ∧
      M.indent_stack_top = L.indent_stack_top := by
  have hp : peek L = 'a' := by simp [peek, hsrc]
  refine ⟨⟨keyword_type (token_text L (advance_while is_identifier_char L) 0),
      token_text L (advance_while is_identifier_char L) 0,
      (advance_while is_identifier_char L).line, L.column⟩,
    advance_while is_identifier_char L, ?_, ?_, advance_while_at_line_start _ L,
    advance_while_indent_levels _ L, advance_while_indent_stack_top _ L⟩
  · unfold scan_token skip_whitespace
    rw [advance_while_of_not _ L (by rw [hp]; decide)]
    unfold scan_at
    rw [if_neg (by rw [hp]; decide), if_neg (by rw [hp]; decide), if_pos (by rw [hp]; decide)]
    rfl
  · rw [advance_while_src, hsrc]
    have h1 : is_identifier_char 'a' = true := by decide
    have h2 : is_identifier_char '\n' = false := by decide
    simp [List.dropWhile, h1, h2]

/-- Away from a line start, the call at the word `a` that ends its line and
the call after it, at the newline, leave the lexer at the start of the next
line with the indentation state untouched. -/
theorem after_calls_word_line (L : Lexer) (rest : List Char) (hs : L.at_line_start = false)
    (hsrc : L.src = 'a' :: '\n' :: rest) :
    ∃ M, after_calls 2 L = .ok M ∧ M.src = rest ∧ M.at_line_start = true ∧
      M.indent_levels = L.indent_levels ∧ M.indent_stack_top = L.indent_stack_top := by
  have hp : peek L ≠ NUL := by simp only [peek, hsrc, List.headD_cons]; decide
  obtain ⟨t, M1, h1, hsrc1, hs1, hl1, ht1⟩ := scan_token_word (get_next_token_aux 1) L rest hsrc
  have hp1 : peek M1 = '\n' := by simp [peek, hsrc1]
  have hs1f : M1.at_line_start = false := hs1.trans hs
  refine ⟨{ advance M1 with at_line_start := true }, ?_, ?_, rfl, ?_, ?_⟩
  · rw [after_calls, get_next_token_scans L hp hs, h1]
    show after_calls 1 M1 = _
    rw [after_calls, get_next_token_scans M1 (by rw [hp1]; decide) hs1f,
      scan_token_at_newline _ M1 hp1]
    rfl
  · show (advance M1).src = rest
    rw [advance_src, hsrc1]
    rfl
  · show (advance M1).indent_levels = _
    rw [advance_indent_levels, hl1]
  · show (advance M1).indent_stack_top = _
    rw [advance_indent_stack_top, ht1]

/-- At the start of a deeper line, with room in `indent_levels`, a call pushes
the leading-space count of the line and stops past the spaces. -/
theorem get_next_token_indent (L : Lexer) (hstart : L.at_line_start = true)
    (hnb : starts_nonblank L.src) (hgt : leading_spaces L.src > L.top_width)
    (hroom : L.indent_stack_top + 1 < MAX_INDENT_LEVELS) :
    get_next_token L
      = .ok (⟨TOKEN_INDENT, "<INDENT>", L.line, L.column + leading_spaces L.src⟩,
          { L.past_spaces with
              indent_stack_top := L.indent_stack_top + 1,
              indent_levels :=
                L.indent_levels.set (L.indent_stack_top + 1) (leading_spaces L.src) }) := by
  rw [get_next_token_line_start L (peek_ne_NUL_of_nonblank hnb) hstart, line_start_eq,
    if_neg (peek_past_spaces_of_nonblank hnb), if_pos hgt, if_neg (by simpa using hroom)]

/-- One stair: from the start of a line of `k` spaces and `a`, one level deeper
than the line above, three calls (INDENT, the word, NEWLINE) lead to the start
of the next line with the width `k` pushed. -/
theorem after_calls_stair (k : Nat) (L : Lexer) (rest : List Char) (hL : on_stair k L)
    (hk : k < MAX_INDENT_LEVELS)
    (hsrc : L.src = List.replicate k ' ' ++ 'a' :: '\n' :: rest) :
    ∃ M, after_calls 3 L = .ok M ∧ on_stair (k + 1) M ∧ M.src = rest := by
  obtain ⟨hstart, htop, hwidth, hlen⟩ := hL
  have hls : leading_spaces L.src = k := by
    rw [hsrc]; exact leading_spaces_replicate k 'a' _ (by decide)
  have has : after_spaces L.src = 'a' :: '\n' :: rest := by
    rw [hsrc]; exact after_spaces_replicate k 'a' _ (by decide)
  have hnb : starts_nonblank L.src := by
    unfold starts_nonblank
    rw [has]
    simp only [List.headD_cons]
    exact ⟨by decide, by decide⟩
  have hroom : L.indent_stack_top + 1 < MAX_INDENT_LEVELS := by omega
  have h1 := get_next_token_indent L hstart hnb (by omega) hroom
  obtain ⟨M, hM, hMsrc, hMs, hMl, hMt⟩ := after_calls_word_line
    { L.past_spaces with
        indent_stack_top := L.indent_stack_top + 1,
        indent_levels := L.indent_levels.set (L.indent_stack_top + 1) (leading_spaces L.src) }
    rest rfl has
  refine ⟨M, ?_, ⟨hMs, ?_, ?_, ?_⟩, hMsrc⟩
  · rw [show (3 : Nat) = 1 + 2 from rfl]
    rw [after_calls_add 1 2 L _ (by rw [after_calls, h1]; rfl)]
    exact hM
  · rw [hMt]
    show L.indent_stack_top + 1 + 1 = k + 1
    omega
  · unfold Lexer.top_width
    rw [hMl, hMt]
    show (L.indent_levels.set (L.indent_stack_top + 1) (leading_spaces L.src)).getD
      (L.indent_stack_top + 1) 0 + 1 = k + 1
    have hlt : L.indent_stack_top + 1 < L.indent_levels.length := by rw [hlen]; exact hroom
    simp [List.getD_eq_getElem?_getD, List.getElem?_set, hlt, hls]
  · rw [hMl]
    show (L.indent_levels.set _ _).length = _
    rw [List.length_set]
    exact hlen

/-- The stairs: from the start of line `k` of a staircase, three calls per line
lead to the start of its last line, `m` lines below, with the widths of the
lines in between pushed. -/
theorem after_calls_stairs (m : Nat) : ∀ (k : Nat) (L : Lexer), on_stair k L →
    L.src = stairs k m → k + m ≤ MAX_INDENT_LEVELS →
    ∃ M, after_calls (3 * m) L = .ok M ∧ on_stair (k + m) M ∧ M.src = stairs (k + m) 0 := by
  induction m with
  | zero =>
    intro k L hL hsrc _
    exact ⟨L, rfl, hL, hsrc⟩
  | succ m ih =>
    intro k L hL hsrc hk
    obtain ⟨M1, h1, hM1, hsrc1⟩ := after_calls_stair k L (stairs (k + 1) m) hL (by omega) hsrc
    obtain ⟨M, h2, hM, hsrc2⟩ := ih (k + 1) M1 hM1 hsrc1 (by omega)
    have e : k + 1 + m = k + (m + 1) := by omega
    refine ⟨M, ?_, e ▸ hM, e ▸ hsrc2⟩
    rw [show 3 * (m + 1) = 3 + 3 * m by omega, after_calls_add 3 (3 * m) L M1 h1]
    exact h2

/-- The first line of a staircase: from the start of the source, two calls (the
word, NEWLINE) lead to the start of the second line. -/
theorem after_calls_first_stair (L : Lexer) (rest : List Char) (hstart : L.at_line_start = true)
    (htop : L.indent_stack_top = 0) (hwidth : L.top_width = 0)
    (hlen : L.indent_levels.length = MAX_INDENT_LEVELS) (hsrc : L.src = 'a' :: '\n' :: rest) :
    ∃ M, after_calls 2 L = .ok M ∧ on_stair 1 M ∧ M.src = rest := by
  have hp : peek L ≠ NUL := by simp only [peek, hsrc, List.headD_cons]; decide
  have hls : leading_spaces L.src = 0 := by rw [hsrc]; rfl
  have has : after_spaces L.src = 'a' :: '\n' :: rest := by rw [hsrc]; rfl
  have hb : ¬ (peek L.past_spaces = '\n' ∨ peek L.past_spaces = NUL) := by
    show ¬ ((after_spaces L.src).headD NUL = '\n' ∨ (after_spaces L.src).headD NUL = NUL)
    rw [has]
    simp only [List.headD_cons]
    decide
  obtain ⟨t, M1, h1, hsrc1, hs1, hl1, ht1⟩ :=
    scan_token_word (get_next_token_aux 1) L.past_spaces rest has
  have hp1 : peek M1 = '\n' := by simp [peek, hsrc1]
  have hs1f : M1.at_line_start = false := hs1
  refine ⟨{ advance M1 with at_line_start := true }, ?_, ⟨rfl, ?_, ?_, ?_⟩, ?_⟩
  · rw [after_calls, get_next_token_line_start L hp hstart, line_start_eq, if_neg hb,
      if_neg (by omega), if_neg (by omega)]
    show (scan_token (get_next_token_aux 1) L.past_spaces >>= fun r => after_calls 1 r.2) = _
    rw [h1]
    show after_calls 1 M1 = _
    rw [after_calls, get_next_token_scans M1 (by rw [hp1]; decide) hs1f,
      scan_token_at_newline _ M1 hp1]
    rfl
  · show (advance M1).indent_stack_top + 1 = 1
    rw [advance_indent_stack_top, ht1]
    show L.indent_stack_top + 1 = 1
    omega
  · show (advance M1).indent_levels.getD (advance M1).indent_stack_top 0 + 1 = 1
    rw [advance_indent_stack_top, advance_indent_levels, ht1, hl1]
    show L.top_width + 1 = 1
    omega
  · show (advance M1).indent_levels.length = _
    rw [advance_indent_levels, hl1]
    exact hlen
  · show (advance M1).src = rest
    rw [advance_src, hsrc1]
    rfl

/-- The staircase of `n + 2` lines: after the `2 + 3 * n` tokens of its first
`n + 1` lines the lexer is at the start of the last line, `n + 1` spaces and `a`,
with `n + 1` entries on the indentation stack and the width `n` on top. -/
theorem after_calls_staircase (n : Nat) (hn : n + 1 ≤ MAX_INDENT_LEVELS) :
    ∃ M, after_calls (2 + 3 * n) (start (String.mk (staircase (n + 1)))) = .ok M ∧
      on_stair (n + 1) M ∧ M.src = List.replicate (n + 1) ' ' ++ ['a'] := by
  obtain ⟨M1, h1, hM1, hsrc1⟩ := after_calls_first_stair
    (start (String.mk (staircase (n + 1)))) (stairs 1 n) rfl rfl rfl rfl rfl
  obtain ⟨M, h2, hM, hsrc2⟩ := after_calls_stairs n 1 M1 hM1 hsrc1 (by omega)
  have e : 1 + n = n + 1 := by omega
  refine ⟨M, ?_, e ▸ hM, ?_⟩
  · rw [after_calls_add 2 (3 * n) _ M1 h1]
    exact h2
  · rw [hsrc2, e]
    rfl

/-- Counterexample to C5 as stated. In `a\n  # c` the last line is not blank
and deeper than the base, and the token after its INDENT is the DEDENT of the
end-of-input flush: the line holds only a comment. In `a\n  # c\nb` the line of
the comment is followed by another line, and the token after its INDENT is the
NEWLINE that ends it, followed by the DEDENT of the next line: the line has no
token of its own. In `a\n  @` the call after the INDENT returns no token: it
fails with the unknown-character error. In the staircase of 101 lines the last line is deeper than
the 100th level on top of the stack, and the call at its start fails with the
too-many-levels error instead of returning INDENT. -/
theorem C5_indent_exceptions :
    call_kinds 5 (start "a\n  # c")
      = [TOKEN_IDENTIFIER, TOKEN_NEWLINE, TOKEN_INDENT, TOKEN_DEDENT, TOKEN_EOF] ∧
    call_kinds 7 (start "a\n  # c\nb")
      = [TOKEN_IDENTIFIER, TOKEN_NEWLINE, TOKEN_INDENT, TOKEN_NEWLINE, TOKEN_DEDENT,
         TOKEN_IDENTIFIER, TOKEN_EOF] ∧
    call_kinds 4 (start "a\n  @") = [TOKEN_IDENTIFIER, TOKEN_NEWLINE, TOKEN_INDENT] ∧
    get_next_token (lexer_after "a\n  @" 3) = .error (.unknown_character '@') ∧
    (lexer_after (String.mk (staircase 100)) 299).at_line_start = true ∧
    starts_nonblank (lexer_after (String.mk (staircase 100)) 299).src ∧
    leading_spaces (lexer_after (String.mk (staircase 100)) 299).src = 100 ∧
    (lexer_after (String.mk (staircase 100)) 299).top_width = 99 ∧
    (lexer_after (String.mk (staircase 100)) 299).indent_stack_top = 99 ∧
    get_next_token (lexer_after (String.mk (staircase 100)) 299)
      = .error .too_many_indentation_levels := by
  obtain ⟨M, hM, ⟨hstart, htop, hwidth, _⟩, hsrc⟩ := after_calls_staircase 99 (by decide)
  have e : lexer_after (String.mk (staircase 100)) 299 = M := lexer_after_eq _ _ M hM
  have hls : leading_spaces M.src = 100 := by
    rw [hsrc]
    exact leading_spaces_replicate 100 'a' [] (by decide)
  have hnb : starts_nonblank M.src := by
    unfold starts_nonblank
    rw [hsrc, after_spaces_replicate (99 + 1) 'a' [] (by decide)]
    decide
  have htop2 : M.indent_stack_top = 99 := by omega
  have hwidth2 : M.top_width = 99 := by omega
  rw [e]
  refine ⟨by decide!, by decide!, by decide!, by decide!, hstart, hnb, hls, hwidth2, htop2, ?_⟩
  rw [get_next_token_line_start M (peek_ne_NUL_of_nonblank hnb) hstart, line_start_eq,
    if_neg (peek_past_spaces_of_nonblank hnb), if_pos (by omega),
    if_pos (by rw [htop2]; decide)]

/-- C4 (defect of the code): one DEDENT per closed level is not what happens at
a line start. In `a\n  b\n    c\nd` the line `d` has count 0 under the stack
`[0, 2, 4]`, so two levels are closed; the call at the start of that line
returns one DEDENT and pops one level, the next call returns the identifier
`d` with the stack still `[0, 2]`, and the second DEDENT comes only from the
end-of-input flush. -/
theorem C4_one_dedent_at_line_start :
    (lexer_after "a\n  b\n    c\nd" 8).at_line_start = true ∧
    (lexer_after "a\n  b\n    c\nd" 8).src = ['d'] ∧
    (lexer_after "a\n  b\n    c\nd" 8).stack = [0, 2, 4] ∧
    call_kinds 4 (lexer_after "a\n  b\n    c\nd" 8)
      = [TOKEN_DEDENT, TOKEN_IDENTIFIER, TOKEN_DEDENT, TOKEN_EOF] ∧
    (lexer_after "a\n  b\n    c\nd" 9).stack = [0, 2] ∧
    (lexer_after "a\n  b\n    c\nd" 10).stack = [0, 2] ∧
    (lexer_after "a\n  b\n    c\nd" 10).src = [] ∧
    (lexer_after "a\n  b\n    c\nd" 11).stack = [0] := by
  decide!

/-- Counterexample to C6 as stated: in `a\n    b\n  c` the line `  c` has
count 2 under the stack `[0, 4]`, smaller than the top and equal to no entry;
`get_next_token` does not fail there: it returns DEDENT, then the identifier,
then EOF. -/
theorem C6_partial_dedent_is_accepted :
    (lexer_after "a\n    b\n  c" 5).at_line_start = true ∧
    (lexer_after "a\n    b\n  c" 5).src = [' ', ' ', 'c'] ∧
    (lexer_after "a\n    b\n  c" 5).stack = [0, 4] ∧
    leading_spaces (lexer_after "a\n    b\n  c" 5).src = 2 ∧
    call_kinds 3 (lexer_after "a\n    b\n  c" 5)
      = [TOKEN_DEDENT, TOKEN_IDENTIFIER, TOKEN_EOF] ∧
    token_kinds 8 (start "a\n    b\n  c")
      = [TOKEN_IDENTIFIER, TOKEN_NEWLINE, TOKEN_INDENT, TOKEN_IDENTIFIER, TOKEN_NEWLINE,
         TOKEN_DEDENT, TOKEN_IDENTIFIER, TOKEN_EOF] := by
  decide!

/-- C6 as amended: a partial dedent is not an error. At a line start, on a line
that is not blank and whose leading-space count is smaller than the top of the
indentation stack and equal to no entry of the stack, `get_next_token`
returns DEDENT; the call pops one level, consumes the leading spaces and does
nothing else. -/
theorem C6_partial_dedent_pops_one_level (L : Lexer)
    (hstart : L.at_line_start = true) (hnb : starts_nonblank L.src)
    (hlt : leading_spaces L.src < L.top_width)
    (_hno : leading_spaces L.src ∉ L.stack) :
    get_next_token L
      = .ok (⟨TOKEN_DEDENT, "<DEDENT>", L.line, L.column + leading_spaces L.src⟩,
             { L.past_spaces with indent_stack_top := L.indent_stack_top - 1 }) := by
  rw [get_next_token_line_start L (peek_ne_NUL_of_nonblank hnb) hstart, line_start_eq,
    if_neg (peek_past_spaces_of_nonblank hnb), if_neg (by omega), if_pos hlt]

/-- Witness of C6 as amended: the line `  c` of `a\n    b\n  c`. -/
theorem C6_witness :
    leading_spaces (lexer_after "a\n    b\n  c" 5).src ∉ (lexer_after "a\n    b\n  c" 5).stack ∧
    get_next_token (lexer_after "a\n    b\n  c" 5)
      = .ok (⟨TOKEN_DEDENT, "<DEDENT>", (lexer_after "a\n    b\n  c" 5).line,
              (lexer_after "a\n    b\n  c" 5).column
                + leading_spaces (lexer_after "a\n    b\n  c" 5).src⟩,
             { (lexer_after "a\n    b\n  c" 5).past_spaces with
                 indent_stack_top := (lexer_after "a\n    b\n  c" 5).indent_stack_top - 1 }) :=
  ⟨by decide!,
   C6_partial_dedent_pops_one_level (lexer_after "a\n    b\n  c" 5) (by decide!) (by decide!)
     (by decide!) (by decide!)⟩

/-! ## C9: sources without leading spaces -/

/-- The leading spaces of a text are those of its first line. -/
theorem leading_spaces_first_line (s : List Char) :
    leading_spaces (split_lines s).1 = leading_spaces s := by
  cases s with
  | nil => rfl
  | cons c cs =>
    unfold split_lines
    by_cases hn : c = '\n'
    · subst hn
      simp [leading_spaces]
    · rw [if_neg hn]
      by_cases hsp : c = ' '
      · subst hsp
        simp only [leading_spaces, List.takeWhile_cons, decide_True, if_true, List.length_cons]
        have := leading_spaces_first_line cs
        unfold leading_spaces at this
        rw [this]
      · simp [leading_spaces, hsp]

/-- When no line after the first begins with a space, no newline is followed by
a space. -/
theorem no_space_after_newline_of_lines (s : List Char)
    (h : ∀ l ∈ (split_lines s).2, leading_spaces l = 0) : no_space_after_newline s := by
  induction s with
  | nil => trivial
  | cons c cs ih =>
    unfold split_lines at h
    by_cases hn : c = '\n'
    · rw [if_pos hn] at h
      simp only [List.mem_cons, forall_eq_or_imp] at h
      refine ⟨fun _ => ?_, ih h.2⟩
      rw [← leading_spaces_first_line]
      exact h.1
    · rw [if_neg hn] at h
      exact ⟨fun hc => absurd hc hn, ih h⟩

/-- A suffix of a text in which no newline is followed by a space is such a
text. -/
theorem no_space_after_newline_suffix {s t : List Char} (h : no_space_after_newline s)
    (hst : t <:+ s) : no_space_after_newline t := by
  induction s with
  | nil =>
    rw [List.suffix_nil] at hst
    rw [hst]
    trivial
  | cons c cs ih =>
    rcases List.suffix_cons_iff.mp hst with h1 | h1
    · rw [h1]; exact h
    · exact ih h.2 h1

/-- The state after `init_lexer` on a source without leading spaces is flat. -/
theorem flat_start (source_code : String)
    (h : ∀ l ∈ source_lines source_code.data, leading_spaces l = 0) :
    flat (start source_code) := by
  unfold source_lines at h
  simp only [List.mem_cons, forall_eq_or_imp] at h
  refine ⟨rfl, rfl, fun _ => ?_, no_space_after_newline_of_lines _ h.2⟩
  show leading_spaces source_code.data = 0
  rw [← leading_spaces_first_line]
  exact h.1

/-- From a flat state a call returns neither INDENT nor DEDENT and leaves the
state flat. -/
theorem flat_step {L M : Lexer} {t : Token} (hL : flat L) (h : get_next_token L = .ok (t, M)) :
    t.type ≠ TOKEN_INDENT ∧ t.type ≠ TOKEN_DEDENT ∧ flat M := by
  obtain ⟨htop, hw, hlead, hns⟩ := hL
  obtain ⟨hsuf, hflag, hstack⟩ := get_next_token_step L t M h
  have hq : quiet L t M := by
    rcases hstack with ⟨_, hs, hlt, _⟩ | ⟨_, _, _, hpos | ⟨hs, hlt⟩⟩ | hq
    · rw [hlead hs, hw] at hlt; exact absurd hlt (by simp)
    · rw [htop] at hpos; exact absurd hpos.1 (by simp)
    · rw [hw] at hlt; exact absurd hlt (by simp)
    · exact hq
  refine ⟨hq.1, hq.2.1, hq.2.2.2.trans htop, ?_, fun hM => ?_,
    no_space_after_newline_suffix hns hsuf⟩
  · unfold Lexer.top_width
    rw [hq.2.2.1, hq.2.2.2]
    exact hw
  · rcases hflag hM with ⟨h0, hsrc⟩ | hnl
    · rw [hsrc]
      unfold peek at h0
      cases hs : L.src with
      | nil => rfl
      | cons c cs =>
        rw [hs] at h0
        simp only [List.headD_cons] at h0
        rw [h0]
        have hne : NUL ≠ ' ' := by decide
        simp [leading_spaces, hne]
    · exact (no_space_after_newline_suffix hns hnl).1 rfl

/-- From a flat state no call ever returns INDENT or DEDENT. -/
theorem flat_call_kinds (n : Nat) : ∀ L : Lexer, flat L →
    TOKEN_INDENT ∉ call_kinds n L ∧ TOKEN_DEDENT ∉ call_kinds n L := by
  induction n with
  | zero => intro L _; simp [call_kinds]
  | succ n ih =>
    intro L hL
    rw [call_kinds]
    cases hr : get_next_token L with
    | error e => simp
    | ok r =>
      obtain ⟨h1, h2, h3⟩ := flat_step (t := r.1) (M := r.2) hL hr
      obtain ⟨h4, h5⟩ := ih r.2 h3
      simp only [List.mem_cons, not_or]
      exact ⟨⟨fun h => h1 h.symm, h4⟩, ⟨fun h => h2 h.symm, h5⟩⟩

/-- From a flat state the token stream up to EOF holds no INDENT and no
DEDENT. -/
theorem flat_token_kinds (n : Nat) : ∀ L : Lexer, flat L →
    TOKEN_INDENT ∉ token_kinds n L ∧ TOKEN_DEDENT ∉ token_kinds n L := by
  induction n with
  | zero => intro L _; simp [token_kinds]
  | succ n ih =>
    intro L hL
    rw [token_kinds]
    cases hr : get_next_token L with
    | error e => simp
    | ok r =>
      obtain ⟨t, M⟩ := r
      obtain ⟨h1, h2, h3⟩ := flat_step hL hr
      obtain ⟨h4, h5⟩ := ih M h3
      simp only
      split
      · simp
      · simp only [List.mem_cons, not_or]
        exact ⟨⟨fun h => h1 h.symm, h4⟩, ⟨fun h => h2 h.symm, h5⟩⟩

/-- Counterexample to C9 as stated: every line of `  a\n  b` has two leading
spaces (no variation), and the token stream begins with INDENT and has a
DEDENT before EOF. -/
theorem C9_uniform_spaces_give_indent :
    (∀ l ∈ source_lines "  a\n  b".data, leading_spaces l = 2) ∧
    token_kinds 6 (start "  a\n  b")
      = [TOKEN_INDENT, TOKEN_IDENTIFIER, TOKEN_NEWLINE, TOKEN_IDENTIFIER, TOKEN_DEDENT,
         TOKEN_EOF] := by
  decide!

/-- C9 as amended: for every source in which every line has zero leading
spaces, no call of `get_next_token` ever returns INDENT or DEDENT; in
particular the token stream up to and including EOF holds neither. -/
theorem C9_no_leading_spaces_no_indent (source_code : String)
    (h : ∀ l ∈ source_lines source_code.data, leading_spaces l = 0) (n : Nat) :
    TOKEN_INDENT ∉ call_kinds n (start source_code) ∧
    TOKEN_DEDENT ∉ call_kinds n (start source_code) ∧
    TOKEN_INDENT ∉ token_kinds n (start source_code) ∧
    TOKEN_DEDENT ∉ token_kinds n (start source_code) :=
  ⟨(flat_call_kinds n _ (flat_start source_code h)).1,
   (flat_call_kinds n _ (flat_start source_code h)).2,
   (flat_token_kinds n _ (flat_start source_code h)).1,
   (flat_token_kinds n _ (flat_start source_code h)).2⟩

/-- Witness of C9 as amended: `a = 1\n\nb = a # c\nc`, four lines without
leading spaces. -/
theorem C9_witness :
    (∀ l ∈ source_lines "a = 1\n\nb = a # c\nc".data, leading_spaces l = 0) ∧
    token_kinds 12 (start "a = 1\n\nb = a # c\nc")
      = [TOKEN_IDENTIFIER, TOKEN_ASSIGN, TOKEN_NUMBER, TOKEN_NEWLINE, TOKEN_NEWLINE,
         TOKEN_IDENTIFIER, TOKEN_ASSIGN, TOKEN_IDENTIFIER, TOKEN_NEWLINE, TOKEN_IDENTIFIER,
         TOKEN_EOF] ∧
    TOKEN_INDENT ∉ call_kinds 12 (start "a = 1\n\nb = a # c\nc") ∧
    TOKEN_DEDENT ∉ call_kinds 12 (start "a = 1\n\nb = a # c\nc") ∧
    TOKEN_INDENT ∉ token_kinds 12 (start "a = 1\n\nb = a # c\nc") ∧
    TOKEN_DEDENT ∉ token_kinds 12 (start "a = 1\n\nb = a # c\nc") :=
  ⟨by decide!, by decide!,
   C9_no_leading_spaces_no_indent "a = 1\n\nb = a # c\nc" (by decide!) 12⟩

/-! ## C10: blank lines -/

/-- Shifted states have the same character under the cursor. -/
theorem shifted_peek {d : Nat} {L1 L2 : Lexer} (h : shifted d L1 L2) : peek L1 = peek L2 := by
  unfold peek
  rw [h.1]

/-- `advance` keeps states shifted. -/
theorem shifted_advance {d : Nat} {L1 L2 : Lexer} (h : shifted d L1 L2) :
    shifted d (advance L1) (advance L2) := by
  refine ⟨?_, ?_, ?_, ?_, ?_⟩
  · rw [advance_src, advance_src, h.1]
  · rw [advance_pos, advance_pos, h.2.1]; omega
  · rw [advance_indent_levels, advance_indent_levels, h.2.2.1]
  · rw [advance_indent_stack_top, advance_indent_stack_top, h.2.2.2.1]
  · rw [advance_at_line_start, advance_at_line_start, h.2.2.2.2]

/-- `advance_while` keeps states shifted. -/
theorem shifted_advance_while {d : Nat} {L1 L2 : Lexer} (p : Char → Bool)
    (h : shifted d L1 L2) : shifted d (advance_while p L1) (advance_while p L2) := by
  refine ⟨?_, ?_, ?_, ?_, ?_⟩
  · rw [advance_while_src, advance_while_src, h.1]
  · rw [advance_while_pos, advance_while_pos, h.2.1, h.1]; omega
  · rw [advance_while_indent_levels, advance_while_indent_levels, h.2.2.1]
  · rw [advance_while_indent_stack_top, advance_while_indent_stack_top, h.2.2.2.1]
  · rw [advance_while_at_line_start, advance_while_at_line_start, h.2.2.2.2]

/-- The text of a token does not depend on where the cursor index started. -/
theorem shifted_token_text {d : Nat} {a1 a2 b1 b2 : Lexer} (ha : shifted d a1 a2)
    (hb : shifted d b1 b2) (k : Nat) : token_text a1 b1 k = token_text a2 b2 k := by
  unfold token_text
  rw [ha.1, ha.2.1, hb.2.1]
  congr 2
  omega

/-- An outcome is similar to itself with shifted states. -/
theorem similar_ok {d : Nat} {t1 t2 : Token} {M1 M2 : Lexer} (hk : t1.type = t2.type)
    (hv : t1.value = t2.value) (hM : shifted d M1 M2) : similar d (.ok (t1, M1)) (.ok (t2, M2)) :=
  ⟨hk, hv, hM⟩

/-- A conditional on equivalent conditions keeps outcomes similar. -/
theorem similar_ite {d : Nat} (c1 c2 : Prop) [Decidable c1] [Decidable c2] {a1 a2 b1 b2 : LexResult}
    (hc : c1 ↔ c2) (ha : similar d a1 a2) (hb : similar d b1 b2) :
    similar d (if c1 then a1 else b1) (if c2 then a2 else b2) := by
  by_cases h : c1
  · rw [if_pos h, if_pos (hc.mp h)]; exact ha
  · rw [if_neg h, if_neg (fun h2 => h (hc.mpr h2))]; exact hb

/-- From shifted states, tests of the character under the cursor agree. -/
theorem shifted_peek_iff {d : Nat} {L1 L2 : Lexer} (h : shifted d L1 L2) (q : Char → Prop) :
    q (peek L1) ↔ q (peek L2) := by
  rw [shifted_peek h]

/-- `single_char` from shifted states. -/
theorem similar_single_char {d : Nat} {L1 L2 : Lexer} (k : TokenType) (text : String)
    (h : shifted d L1 L2) : similar d (single_char k text L1) (single_char k text L2) :=
  similar_ok rfl rfl (shifted_advance h)

/-- `with_equals` from shifted states. -/
theorem similar_with_equals {d : Nat} {L1 L2 : Lexer} (k : TokenType) (text : String)
    (f1 f2 : Lexer → LexResult) (h : shifted d L1 L2)
    (hf : similar d (f1 (advance L1)) (f2 (advance L2))) :
    similar d (with_equals k text f1 L1) (with_equals k text f2 L2) := by
  unfold with_equals
  exact similar_ite _ _ (shifted_peek_iff (shifted_advance h) (fun c => c = '='))
    (similar_ok rfl rfl (shifted_advance (shifted_advance h))) hf

/-- `scan_operator` from shifted states. -/
theorem similar_scan_operator {d : Nat} {L1 L2 : Lexer} (h : shifted d L1 L2) :
    similar d (scan_operator L1) (scan_operator L2) := by
  unfold scan_operator
  refine similar_ite _ _ (shifted_peek_iff h (fun c => c = '+')) (similar_single_char _ _ h) ?_
  refine similar_ite _ _ (shifted_peek_iff h (fun c => c = '-')) (similar_single_char _ _ h) ?_
  refine similar_ite _ _ (shifted_peek_iff h (fun c => c = '*')) (similar_single_char _ _ h) ?_
  refine similar_ite _ _ (shifted_peek_iff h (fun c => c = '/')) (similar_single_char _ _ h) ?_
  refine similar_ite _ _ (shifted_peek_iff h (fun c => c = '(')) (similar_single_char _ _ h) ?_
  refine similar_ite _ _ (shifted_peek_iff h (fun c => c = ')')) (similar_single_char _ _ h) ?_
  refine similar_ite _ _ (shifted_peek_iff h (fun c => c = ':')) (similar_single_char _ _ h) ?_
  refine similar_ite _ _ (shifted_peek_iff h (fun c => c = ',')) (similar_single_char _ _ h) ?_
  refine similar_ite _ _ (shifted_peek_iff h (fun c => c = '='))
    (similar_with_equals _ _ _ _ h (similar_ok rfl rfl (shifted_advance h))) ?_
  refine similar_ite _ _ (shifted_peek_iff h (fun c => c = '!'))
    (similar_with_equals _ _ _ _ h rfl) ?_
  refine similar_ite _ _ (shifted_peek_iff h (fun c => c = '<'))
    (similar_with_equals _ _ _ _ h (similar_ok rfl rfl (shifted_advance h))) ?_
  refine similar_ite _ _ (shifted_peek_iff h (fun c => c = '>'))
    (similar_with_equals _ _ _ _ h (similar_ok rfl rfl (shifted_advance h))) ?_
  show Error.unknown_character (peek L1) = Error.unknown_character (peek L2)
  rw [shifted_peek h]

/-- The state after a number, from shifted states. -/
theorem shifted_number_end {d : Nat} {L1 L2 : Lexer} (h : shifted d L1 L2) :
    shifted d (number_end L1) (number_end L2) := by
  unfold number_end
  have h1 := shifted_advance_while Char.isDigit h
  by_cases hc : peek (advance_while Char.isDigit L1) = '.'
  · rw [if_pos hc, if_pos (by rw [← shifted_peek h1]; exact hc)]
    exact shifted_advance_while _ (shifted_advance h1)
  · rw [if_neg hc, if_neg (by rw [← shifted_peek h1]; exact hc)]
    exact h1

/-- The scanner past the white space, from shifted states. -/
theorem similar_scan_at {d : Nat} {L1 L2 : Lexer} (f1 f2 : Lexer → LexResult)
    (h : shifted d L1 L2)
    (hf : similar d (f1 (skip_comment (advance L1))) (f2 (skip_comment (advance L2)))) :
    similar d (scan_at f1 L1) (scan_at f2 L2) := by
  unfold scan_at
  have ha := shifted_advance h
  refine similar_ite _ _ (shifted_peek_iff h (fun c => c = '\n')) ?_ ?_
  · exact similar_ok rfl rfl ⟨ha.1, ha.2.1, ha.2.2.1, ha.2.2.2.1, rfl⟩
  refine similar_ite _ _ (shifted_peek_iff h (fun c => c = '#')) hf ?_
  refine similar_ite _ _ (shifted_peek_iff h (fun c => (c.isAlpha || c = '_') = true)) ?_ ?_
  · have hw := shifted_advance_while is_identifier_char h
    unfold identifier_token
    exact similar_ok (by show keyword_type _ = keyword_type _; rw [shifted_token_text h hw])
      (shifted_token_text h hw 0) hw
  refine similar_ite _ _ (shifted_peek_iff h (fun c => c.isDigit = true)) ?_ ?_
  · unfold number_token
    exact similar_ok rfl (shifted_token_text h (shifted_number_end h) 0) (shifted_number_end h)
  refine similar_ite _ _ (shifted_peek_iff h (fun c => c = DQUOTE ∨ c = SQUOTE)) ?_
    (similar_scan_operator h)
  rw [shifted_peek h]
  have hw := shifted_advance_while (in_string (peek L2)) ha
  unfold string_token
  refine similar_ite _ _ (shifted_peek_iff hw (fun c => c = NUL)) rfl ?_
  exact similar_ok rfl (shifted_token_text ha (shifted_advance hw) 1) (shifted_advance hw)

/-- The scanner, from shifted states. -/
theorem similar_scan_token {d : Nat} {L1 L2 : Lexer} (f1 f2 : Lexer → LexResult)
    (h : shifted d L1 L2) (hf : ∀ K1 K2, shifted d K1 K2 → similar d (f1 K1) (f2 K2)) :
    similar d (scan_token f1 L1) (scan_token f2 L2) := by
  unfold scan_token
  have hw : shifted d (skip_whitespace L1) (skip_whitespace L2) := shifted_advance_while _ h
  exact similar_scan_at f1 f2 hw (hf _ _ (shifted_advance_while _ (shifted_advance hw)))

/-- The end-of-input branch, from shifted states. -/
theorem similar_end_of_input {d : Nat} {L1 L2 : Lexer} (h : shifted d L1 L2) :
    similar d (end_of_input L1) (end_of_input L2) := by
  unfold end_of_input
  refine similar_ite _ _ (by rw [h.2.2.2.1]) ?_ ?_
  · exact similar_ok rfl rfl ⟨h.1, h.2.1, h.2.2.1, by show _ - 1 = _ - 1; rw [h.2.2.2.1],
      h.2.2.2.2⟩
  · exact similar_ok rfl rfl h

/-- The states past the leading spaces of shifted states are shifted. -/
theorem shifted_past_spaces {d : Nat} {L1 L2 : Lexer} (h : shifted d L1 L2) :
    shifted d L1.past_spaces L2.past_spaces := by
  refine ⟨?_, ?_, h.2.2.1, h.2.2.2.1, rfl⟩
  · show after_spaces L1.src = after_spaces L2.src
    rw [h.1]
  · show L1.pos + leading_spaces L1.src = L2.pos + leading_spaces L2.src + d
    rw [h.1, h.2.1]
    omega

/-- One call with any budget, from shifted states. -/
theorem similar_get_next_token_aux {d : Nat} (n : Nat) : ∀ L1 L2 : Lexer, shifted d L1 L2 →
    similar d (get_next_token_aux n L1) (get_next_token_aux n L2) := by
  induction n with
  | zero => intro L1 L2 _; rfl
  | succ n ih =>
    intro L1 L2 h
    rw [get_next_token_aux, get_next_token_aux]
    refine similar_ite _ _ (shifted_peek_iff h (fun c => c = NUL)) (similar_end_of_input h) ?_
    by_cases hs : L2.at_line_start = true
    · have hs1 : L1.at_line_start = true := h.2.2.2.2.trans hs
      simp only [hs, hs1, if_true]
      rw [line_start_eq, line_start_eq]
      have hp := shifted_past_spaces h
      have hw : L1.top_width = L2.top_width := by
        unfold Lexer.top_width
        rw [h.2.2.1, h.2.2.2.1]
      by_cases hb : peek L2.past_spaces = '\n' ∨ peek L2.past_spaces = NUL
      · rw [if_pos hb, if_pos (by rw [shifted_peek hp]; exact hb)]
        exact ih _ _ hp
      rw [if_neg hb, if_neg (by rw [shifted_peek hp]; exact hb)]
      rw [h.1, hw, h.2.2.2.1, h.2.2.1]
      by_cases hgt : leading_spaces L2.src > L2.top_width
      · rw [if_pos hgt, if_pos hgt]
        by_cases hmax : L2.indent_stack_top + 1 ≥ MAX_INDENT_LEVELS
        · rw [if_pos hmax, if_pos hmax]
          rfl
        · rw [if_neg hmax, if_neg hmax]
          exact similar_ok rfl rfl ⟨hp.1, hp.2.1, rfl, rfl, rfl⟩
      rw [if_neg hgt, if_neg hgt]
      by_cases hlt : leading_spaces L2.src < L2.top_width
      · rw [if_pos hlt, if_pos hlt]
        exact similar_ok rfl rfl ⟨hp.1, hp.2.1, hp.2.2.1, rfl, rfl⟩
      · rw [if_neg hlt, if_neg hlt]
        exact similar_scan_token _ _ hp ih
    · have hs2 : L2.at_line_start = false := by simpa using hs
      have hs1 : L1.at_line_start = false := h.2.2.2.2.trans hs2
      simp only [hs1, hs2, Bool.false_eq_true, if_false]
      exact similar_scan_token _ _ h ih

/-- One call of `get_next_token`, from shifted states. -/
theorem similar_get_next_token {d : Nat} {L1 L2 : Lexer} (h : shifted d L1 L2) :
    similar d (get_next_token L1) (get_next_token L2) :=
  similar_get_next_token_aux 2 L1 L2 h

/-- Shifted states show the same tokens, stacks and error. -/
theorem observe_shifted {d : Nat} (n : Nat) : ∀ L1 L2 : Lexer, shifted d L1 L2 →
    observe n L1 = observe n L2 := by
  induction n with
  | zero => intro _ _ _; rfl
  | succ n ih =>
    intro L1 L2 h
    have hsim := similar_get_next_token h
    rw [observe, observe]
    cases h1 : get_next_token L1 with
    | error e1 =>
      cases h2 : get_next_token L2 with
      | error e2 =>
        rw [h1, h2] at hsim
        have : e1 = e2 := hsim
        rw [this]
      | ok r2 => rw [h1, h2] at hsim; exact absurd hsim (by simp [similar])
    | ok r1 =>
      cases h2 : get_next_token L2 with
      | error e2 => rw [h1, h2] at hsim; exact absurd hsim (by simp [similar])
      | ok r2 =>
        rw [h1, h2] at hsim
        obtain ⟨hk, hv, hM⟩ : r1.1.type = r2.1.type ∧ r1.1.value = r2.1.value ∧
          shifted d r1.2 r2.2 := hsim
        simp only
        rw [hk, hv, ih _ _ hM]
        unfold Lexer.stack
        rw [hM.2.2.1, hM.2.2.2.1]

/-- The leading spaces of a blank line. -/
theorem leading_spaces_blank (k : Nat) (s : List Char) :
    leading_spaces (List.replicate k ' ' ++ '\n' :: s) = k := by
  induction k with
  | zero => simp [leading_spaces]
  | succ k ih =>
    unfold leading_spaces at ih ⊢
    simp [List.replicate_succ, ih]

/-- What follows the leading spaces of a blank line. -/
theorem after_spaces_blank (k : Nat) (s : List Char) :
    after_spaces (List.replicate k ' ' ++ '\n' :: s) = '\n' :: s := by
  induction k with
  | zero => simp [after_spaces]
  | succ k ih =>
    unfold after_spaces at ih ⊢
    simp [List.replicate_succ, ih]

/-- At a line start, a blank line gives NEWLINE and leaves the lexer at the
start of the next line with the indentation state untouched. -/
theorem get_next_token_blank_line (k : Nat) (L : Lexer) (hstart : L.at_line_start = true) :
    ∃ t M, get_next_token (with_blank_line k L) = .ok (t, M) ∧ t.type = TOKEN_NEWLINE ∧
      t.value = "<NEWLINE>" ∧ shifted (k + 1) M L := by
  have h0 : peek (with_blank_line k L) ≠ NUL := by
    unfold peek with_blank_line
    cases k with
    | zero => simp only [List.replicate_zero, List.nil_append, List.headD_cons]; decide
    | succ k => simp only [List.replicate_succ, List.cons_append, List.headD_cons]; decide
  have hsrc : (with_blank_line k L).past_spaces.src = '\n' :: L.src := after_spaces_blank k L.src
  have hpk : peek (with_blank_line k L).past_spaces = '\n' := by
    unfold peek
    rw [hsrc]
    rfl
  refine ⟨⟨TOKEN_NEWLINE, "<NEWLINE>", (advance (with_blank_line k L).past_spaces).line - 1,
      (advance (with_blank_line k L).past_spaces).column⟩,
    { advance (with_blank_line k L).past_spaces with at_line_start := true }, ?_, rfl, rfl, ?_⟩
  · rw [get_next_token_line_start _ h0 hstart, line_start_eq, if_pos (Or.inl hpk)]
    show get_next_token_aux 1 _ = _
    rw [get_next_token_aux, if_neg (by rw [hpk]; decide)]
    show scan_token _ (with_blank_line k L).past_spaces = _
    rw [scan_token_at_newline _ _ hpk]
  · refine ⟨?_, ?_, ?_, ?_, hstart.symm⟩
    · show (advance _).src = _
      rw [advance_src, hsrc]
      rfl
    · show (advance _).pos = _
      rw [advance_pos]
      show L.pos + leading_spaces (List.replicate k ' ' ++ '\n' :: L.src) + 1 = _
      rw [leading_spaces_blank]
      omega
    · show (advance _).indent_levels = _
      rw [advance_indent_levels]
      rfl
    · show (advance _).indent_stack_top = _
      rw [advance_indent_stack_top]
      rfl

/-- Counterexample to C10 as stated: the blank line of `a\n\nb` gives a token
that `a\nb` does not have, a second NEWLINE. -/
theorem C10_blank_line_gives_a_token :
    token_kinds 5 (start "a\n\nb")
      = [TOKEN_IDENTIFIER, TOKEN_NEWLINE, TOKEN_NEWLINE, TOKEN_IDENTIFIER, TOKEN_EOF] ∧
    token_kinds 5 (start "a\nb")
      = [TOKEN_IDENTIFIER, TOKEN_NEWLINE, TOKEN_IDENTIFIER, TOKEN_EOF] := by
  decide!

/-- C10 as amended: a blank line gives one NEWLINE token and nothing else.
Wherever the lexer stands at a line start, with a blank line (`k` spaces and a
newline) put in front of the remaining text the first call returns NEWLINE with
the indentation stack as it was, and the calls after it show exactly what the
calls without the blank line show: the same token kinds and texts, the same
indentation stack after each call, and the same error if the run fails. -/
theorem C10_blank_line_adds_one_newline (L : Lexer) (hstart : L.at_line_start = true)
    (k n : Nat) :
    observe (n + 1) (with_blank_line k L)
      = .ok (TOKEN_NEWLINE, "<NEWLINE>", L.stack) :: observe n L := by
  obtain ⟨t, M, h1, h2, h3, h4⟩ := get_next_token_blank_line k L hstart
  rw [observe, h1]
  simp only
  rw [h2, h3, observe_shifted n M L h4]
  unfold Lexer.stack
  rw [h4.2.2.1, h4.2.2.2.1]

/-- Witness of C10 as amended: the state at the line `  b` of `a\n  b\nc` with
a blank line of one space in front is the state at the blank line of
`a\n \n  b\nc`, and the blank line gives one more NEWLINE. -/
theorem C10_witness :
    (lexer_after "a\n  b\nc" 2).at_line_start = true ∧
    with_blank_line 1 (lexer_after "a\n  b\nc" 2) = lexer_after "a\n \n  b\nc" 2 ∧
    observe (6 + 1) (with_blank_line 1 (lexer_after "a\n  b\nc" 2))
      = .ok (TOKEN_NEWLINE, "<NEWLINE>", (lexer_after "a\n  b\nc" 2).stack)
          :: observe 6 (lexer_after "a\n  b\nc" 2) ∧
    observe 6 (lexer_after "a\n  b\nc" 2)
      = [.ok (TOKEN_INDENT, "<INDENT>", [0, 2]), .ok (TOKEN_IDENTIFIER, "b", [0, 2]),
         .ok (TOKEN_NEWLINE, "<NEWLINE>", [0, 2]), .ok (TOKEN_DEDENT, "<DEDENT>", [0]),
         .ok (TOKEN_IDENTIFIER, "c", [0]), .ok (TOKEN_EOF, "<EOF>", [0])] :=
  ⟨by decide!, by decide!,
   C10_blank_line_adds_one_newline (lexer_after "a\n  b\nc" 2) (by decide!) 1 6,
   by decide!⟩

/-! ## C17, C19, C20: the text of statements -/

/-- The statements of a list are generated one after the other. -/
theorem generate_statements_append (a b : List ASTNode) :
    generate_statements (a ++ b) = generate_statements a ++ generate_statements b := by
  induction a with
  | nil => simp [generate_statements]
  | cons x a ih => simp [generate_statements, ih, String.append_assoc]

/-- Two texts with a common beginning are equal only if what follows it is. -/
theorem text_append_left_cancel {a b c : String} (h : a ++ b = a ++ c) : b = c := by
  have h2 := congrArg String.data h
  simp only [String.data_append] at h2
  exact String.ext (List.append_cancel_left h2)

/-- C17: an if-statement without else-branch is generated as the condition and
the then-block only. For every condition and then-block, `generate_statement`
on the node with `else_branch` absent prints exactly `    if (`, the text of
the condition, `) {\n`, the statements of the then-block and `    }\n`; with
an else-branch it prints ` else {\n`, the statements of the else-block and
`    }` between the closing brace of the then-block and the newline; and the
text of a node is the text without else clause if and only if the node has no
else-branch. -/
theorem C17_if_without_else :
    (∀ c t : ASTNode, generate_statement (.if_stmt c t none)
      = "    if (" ++ generate_expression c ++ ") \x7b\n" ++ generate_block t ++ "    \x7d\n") ∧
    (∀ c t e : ASTNode, generate_statement (.if_stmt c t (some e))
      = "    if (" ++ generate_expression c ++ ") \x7b\n" ++ generate_block t ++ "    \x7d"
          ++ " else \x7b\n" ++ generate_block e ++ "    \x7d" ++ "\n") ∧
    (∀ (c t : ASTNode) (b : Option ASTNode),
      generate_statement (.if_stmt c t b)
        = "    if (" ++ generate_expression c ++ ") \x7b\n" ++ generate_block t ++ "    \x7d\n"
      ↔ b = none) := by
  have h1 : ∀ c t : ASTNode, generate_statement (.if_stmt c t none)
      = "    if (" ++ generate_expression c ++ ") \x7b\n" ++ generate_block t ++ "    \x7d\n" := by
    intro c t
    rw [generate_statement]
    simp [String.append_assoc]
  have h2 : ∀ c t e : ASTNode, generate_statement (.if_stmt c t (some e))
      = "    if (" ++ generate_expression c ++ ") \x7b\n" ++ generate_block t ++ "    \x7d"
          ++ " else \x7b\n" ++ generate_block e ++ "    \x7d" ++ "\n" := by
    intro c t e
    rw [generate_statement]
    simp only [String.append_assoc]
  refine ⟨h1, h2, fun c t b => ⟨fun h => ?_, fun h => by rw [h]; exact h1 c t⟩⟩
  cases b with
  | none => rfl
  | some e =>
    exfalso
    rw [h2] at h
    have h3 : "    \x7d\n" = "    \x7d" ++ "\n" := by decide
    rw [h3] at h
    simp only [String.append_assoc] at h
    have h4 := text_append_left_cancel (text_append_left_cancel (text_append_left_cancel
      (text_append_left_cancel (text_append_left_cancel h))))
    have h5 := congrArg String.data h4
    simp only [String.data_append] at h5
    have h6 := congrArg List.head? h5
    simp at h6

/-- Witness of C17: an if-statement without and with an else-branch. -/
theorem C17_witness :
    generate_statement (.if_stmt (.identifier "a") (.block [.assignment "x" (.number "1")]) none)
      = "    if (" ++ generate_expression (.identifier "a") ++ ") \x7b\n"
          ++ generate_block (.block [.assignment "x" (.number "1")]) ++ "    \x7d\n" ∧
    generate_statement (.if_stmt (.identifier "a") (.block [.assignment "x" (.number "1")]) none)
      = "    if (a) \x7b\n    x = 1;\n    \x7d\n" ∧
    generate_statement (.if_stmt (.identifier "a") (.block [.assignment "x" (.number "1")])
        (some (.block [.assignment "x" (.number "2")])))
      = "    if (a) \x7b\n    x = 1;\n    \x7d else \x7b\n    x = 2;\n    \x7d\n" :=
  ⟨C17_if_without_else.1 (.identifier "a") (.block [.assignment "x" (.number "1")]),
    by decide!, by decide!⟩

/-- The concatenation of the texts of two lists put end to end. -/
theorem join_append (a b : List String) :
    String.join (a ++ b) = String.join a ++ String.join b := by
  apply String.ext
  simp [String.join_eq, String.data_append]

/-- C19: the shape of the output of `generate_code`. For every list of
top-level statements the output is the header `#include <stdio.h>\n\n`, then
the texts of the statements in list order, then the fixed entry point; the
text of a function declaration is `void <name>() {\n`, its block and `}\n`
(`generate_function`), the text of any other statement is what
`generate_statement` prints; and for every node at all the output begins with
the header and ends with the entry point, whether or not a function `main` is
declared. -/
theorem C19_generate_code_shape :
    (∀ stmts : List ASTNode, generate_code (.program stmts)
      = "#include <stdio.h>\n\n" ++ String.join (stmts.map generate_toplevel)
          ++ "int main() \x7b\n    // Call the main function if it exists\n    if (main) main();\n    return 0;\n\x7d\n") ∧
    (∀ a b : List ASTNode, String.join ((a ++ b).map generate_toplevel)
      = String.join (a.map generate_toplevel) ++ String.join (b.map generate_toplevel)) ∧
    (∀ (s : ASTNode) (rest : List ASTNode), String.join ((s :: rest).map generate_toplevel)
      = generate_toplevel s ++ String.join (rest.map generate_toplevel)) ∧
    (∀ (func_name : String) (body : ASTNode), generate_toplevel (.func_decl func_name body)
      = "void " ++ func_name ++ "() \x7b\n" ++ generate_block body ++ "\x7d\n") ∧
    (∀ s : ASTNode, (∀ func_name body, s ≠ .func_decl func_name body) →
      generate_toplevel s = generate_statement s) ∧
    (∀ ast : ASTNode, ∃ body : String, generate_code ast
      = "#include <stdio.h>\n\n" ++ body
          ++ "int main() \x7b\n    // Call the main function if it exists\n    if (main) main();\n    return 0;\n\x7d\n") := by
  have he : entry_point
      = "int main() \x7b\n    // Call the main function if it exists\n    if (main) main();\n    return 0;\n\x7d\n" := by
    decide
  refine ⟨fun stmts => ?_, fun a b => ?_, fun s rest => ?_, fun _ _ => rfl, fun s hs => ?_,
    fun ast => ⟨String.join (ast.statements_of.map generate_toplevel), ?_⟩⟩
  · unfold generate_code
    rw [he]
    rfl
  · rw [List.map_append, join_append]
  · rw [List.map_cons]
    apply String.ext
    simp [String.join_eq, String.data_append]
  · cases s <;> first | rfl | exact absurd rfl (hs _ _)
  · unfold generate_code
    rw [he]

/-- Witness of C19: a program with a function `main` and a loose statement, and
the empty program; both end with the entry point. -/
theorem C19_witness :
    generate_code (.program [.func_decl "main" (.block [.return_stmt (.identifier "x")]),
        .var_decl "y" true (.number "2")])
      = "#include <stdio.h>\n\n"
          ++ String.join ([.func_decl "main" (.block [.return_stmt (.identifier "x")]),
              .var_decl "y" true (.number "2")].map generate_toplevel)
          ++ "int main() \x7b\n    // Call the main function if it exists\n    if (main) main();\n    return 0;\n\x7d\n" ∧
    generate_code (.program [.func_decl "main" (.block [.return_stmt (.identifier "x")]),
        .var_decl "y" true (.number "2")])
      = "#include <stdio.h>\n\nvoid main() \x7b\n    return x;\n\x7d\n    int y = 2;\n"
          ++ "int main() \x7b\n    // Call the main function if it exists\n    if (main) main();\n    return 0;\n\x7d\n" ∧
    generate_code (.program [])
      = "#include <stdio.h>\n\n"
          ++ "int main() \x7b\n    // Call the main function if it exists\n    if (main) main();\n    return 0;\n\x7d\n" :=
  ⟨C19_generate_code_shape.1 _, by decide!⟩

/-- A text that ends with a text that is not empty is not empty. -/
theorem append_ne_empty (a b : String) (hb : b ≠ "") : a ++ b ≠ "" := by
  intro h
  have h2 := congrArg String.data h
  simp only [String.data_append] at h2
  exact hb (String.ext (List.append_eq_nil.mp h2).2)

/-- The kinds with a statement rule print something: the list of C20 is
complete. -/
theorem statement_rule_prints (x : ASTNode) (hx : no_statement_rule x = false) :
    generate_statement x ≠ "" := by
  cases x <;> first
    | (rw [generate_statement]; exact append_ne_empty _ _ (by decide))
    | (rename_i b; cases b <;> (rw [generate_statement]; exact append_ne_empty _ _ (by decide)))
    | simp [no_statement_rule] at hx

/-- C20: a node without statement rule is a silent no-op. The kinds of node
without a case in `generate_statement` are program, block, function
declaration, for-statement and the no-op placeholder: for a node of one of
these kinds `generate_statement` prints nothing (it has no way to fail), and
for a node of any other kind it prints something. In a list of statements
that holds a node of one of these kinds, what is printed is what is printed
for the statements before it followed by what is printed for the statements
after it, also as the statements of a block. -/
theorem C20_unknown_node_is_silent :
    (∀ x : ASTNode, no_statement_rule x = true → generate_statement x = "") ∧
    (∀ x : ASTNode, no_statement_rule x = false → generate_statement x ≠ "") ∧
    (∀ x : ASTNode, no_statement_rule x = true → ∀ before after : List ASTNode,
      generate_statements (before ++ x :: after)
        = generate_statements before ++ generate_statements after ∧
      generate_block (.block (before ++ x :: after))
        = generate_block (.block (before ++ after))) := by
  have h : ∀ x : ASTNode, no_statement_rule x = true → generate_statement x = "" := by
    intro x hx
    cases x <;> first | rfl | simp [no_statement_rule] at hx
  have h2 : ∀ x : ASTNode, no_statement_rule x = true → ∀ before after : List ASTNode,
      generate_statements (before ++ x :: after)
        = generate_statements before ++ generate_statements after := by
    intro x hx before after
    rw [generate_statements_append, generate_statements, h x hx]
    simp
  refine ⟨h, statement_rule_prints, fun x hx before after => ⟨h2 x hx before after, ?_⟩⟩
  rw [generate_block, generate_block, h2 x hx, generate_statements_append]

/-- Witness of C20: a for-statement, a nested block, a nested function
declaration, the placeholder and a nested program between two statements of a
block. -/
theorem C20_witness :
    (∀ before after : List ASTNode,
      generate_statements (before ++ .for_stmt :: after)
        = generate_statements before ++ generate_statements after ∧
      generate_block (.block (before ++ .for_stmt :: after))
        = generate_block (.block (before ++ after))) ∧
    generate_block (.block [.assignment "x" (.number "1"), .for_stmt,
        .block [.assignment "x" (.number "2")], .func_decl "f" (.block [.number "3"]), .noop,
        .program [.number "4"], .return_stmt (.identifier "x")])
      = "    x = 1;\n    return x;\n" :=
  ⟨C20_unknown_node_is_silent.2.2 .for_stmt rfl, by decide!⟩

/-! ## C15: words -/

/-- The `strcmp` chain of the lexer is the exact lookup in the keyword set. -/
theorem keyword_type_eq (text : String) : keyword_type text = keyword_kind text := by
  unfold keyword_type keyword_kind keywords
  by_cases h1 : text = "func"
  · subst h1; rfl
  by_cases h2 : text = "let"
  · subst h2; rfl
  by_cases h3 : text = "var"
  · subst h3; rfl
  by_cases h4 : text = "if"
  · subst h4; rfl
  by_cases h5 : text = "else"
  · subst h5; rfl
  by_cases h6 : text = "elif"
  · subst h6; rfl
  by_cases h7 : text = "for"
  · subst h7; rfl
  by_cases h8 : text = "while"
  · subst h8; rfl
  by_cases h9 : text = "return"
  · subst h9; rfl
  rw [if_neg h1, if_neg h2, if_neg h3, if_neg h4, if_neg h5, if_neg h6, if_neg h7, if_neg h8,
    if_neg h9]
  simp [List.lookup, beq_eq_false_iff_ne.mpr h1, beq_eq_false_iff_ne.mpr h2,
    beq_eq_false_iff_ne.mpr h3, beq_eq_false_iff_ne.mpr h4, beq_eq_false_iff_ne.mpr h5,
    beq_eq_false_iff_ne.mpr h6, beq_eq_false_iff_ne.mpr h7, beq_eq_false_iff_ne.mpr h8,
    beq_eq_false_iff_ne.mpr h9, h1, h2, h3, h4, h5, h6, h7, h8, h9]

/-- A word is a keyword exactly when its kind is not IDENTIFIER. -/
theorem keyword_kind_identifier (text : String) :
    keyword_kind text = TOKEN_IDENTIFIER ↔ text ∉ keywords.map Prod.fst := by
  unfold keyword_kind keywords
  by_cases h1 : text = "func"
  · subst h1; decide
  by_cases h2 : text = "let"
  · subst h2; decide
  by_cases h3 : text = "var"
  · subst h3; decide
  by_cases h4 : text = "if"
  · subst h4; decide
  by_cases h5 : text = "else"
  · subst h5; decide
  by_cases h6 : text = "elif"
  · subst h6; decide
  by_cases h7 : text = "for"
  · subst h7; decide
  by_cases h8 : text = "while"
  · subst h8; decide
  by_cases h9 : text = "return"
  · subst h9; decide
  simp [List.lookup, beq_eq_false_iff_ne.mpr h1, beq_eq_false_iff_ne.mpr h2,
    beq_eq_false_iff_ne.mpr h3, beq_eq_false_iff_ne.mpr h4, beq_eq_false_iff_ne.mpr h5,
    beq_eq_false_iff_ne.mpr h6, beq_eq_false_iff_ne.mpr h7, beq_eq_false_iff_ne.mpr h8,
    beq_eq_false_iff_ne.mpr h9, h1, h2, h3, h4, h5, h6, h7, h8, h9]

/-- The text between the cursor and the cursor after `advance_while` is the
longest prefix that the loop accepts. -/
theorem token_text_advance_while (p : Char → Bool) (L : Lexer) :
    token_text L (advance_while p L) 0 = String.mk (L.src.takeWhile p) := by
  unfold token_text
  rw [advance_while_pos]
  congr 1
  have h : L.pos + (L.src.takeWhile p).length - L.pos - 0 = (L.src.takeWhile p).length := by
    omega
  rw [h]
  have h2 := List.take_left (L.src.takeWhile p) (L.src.dropWhile p)
  rw [List.takeWhile_append_dropWhile] at h2
  exact h2

/-- The scanner at a letter or an underscore: the word and its kind. -/
theorem scan_at_word (again : Lexer → LexResult) (L : Lexer)
    (h : (peek L).isAlpha = true ∨ peek L = '_') :
    scan_at again L
      = .ok (⟨keyword_kind (word_at L.src), word_at L.src,
              (advance_while is_identifier_char L).line, L.column⟩,
             advance_while is_identifier_char L) := by
  have hn : peek L ≠ '\n' := by
    rcases h with h | h
    · intro hc; rw [hc] at h; exact absurd h (by decide)
    · rw [h]; decide
  have hc : peek L ≠ '#' := by
    rcases h with h | h
    · intro hc; rw [hc] at h; exact absurd h (by decide)
    · rw [h]; decide
  unfold scan_at
  rw [if_neg hn, if_neg hc, if_pos (by simpa using h)]
  unfold identifier_token
  rw [token_text_advance_while, keyword_type_eq]
  rfl

/-- The kind of each keyword of the set is found by the lookup. -/
theorem keyword_kind_of_mem (text : String) (k : TokenType) (h : (text, k) ∈ keywords) :
    keyword_kind text = k := by
  simp only [keywords, List.mem_cons, Prod.mk.injEq, List.mem_singleton, List.not_mem_nil,
    or_false] at h
  rcases h with h | h | h | h | h | h | h | h | h <;> (obtain ⟨rfl, rfl⟩ := h; rfl)

/-- The characters that continue a word are the letters, the digits and the
underscore. -/
theorem is_identifier_char_iff (c : Char) :
    is_identifier_char c = true ↔ (c.isAlpha = true ∨ c.isDigit = true ∨ c = '_') := by
  simp [is_identifier_char, Char.isAlphanum, or_assoc]

/-- C15: keyword recognition is longest match, then exact lookup. Wherever the
scanner stands at a letter or an underscore, it returns one token whose text
is the maximal run of letters, digits and underscores from the cursor
(`word_at`): the text and what is left make up the text from the cursor, every
character of the text is a letter, a digit or an underscore, the first is the
character under the cursor, and the character after the text is none of them.
The kind of the token is found by exact, case-sensitive lookup of the text in
the keyword set: a word has the kind of a keyword if and only if it is exactly
that keyword, and the kind IDENTIFIER if and only if it is none of the nine.
This is what `get_next_token` returns away from a line start, and what the
scanner returns on every path that reaches it. -/
theorem C15_keyword_recognition (L : Lexer)
    (h : (peek L).isAlpha = true ∨ peek L = '_') :
    (∀ again : Lexer → LexResult, scan_at again L
      = .ok (⟨keyword_kind (word_at L.src), word_at L.src,
              (advance_while is_identifier_char L).line, L.column⟩,
             advance_while is_identifier_char L)) ∧
    (∀ again : Lexer → LexResult, scan_token again L = scan_at again L) ∧
    (L.at_line_start = false → get_next_token L
      = .ok (⟨keyword_kind (word_at L.src), word_at L.src,
              (advance_while is_identifier_char L).line, L.column⟩,
             advance_while is_identifier_char L)) ∧
    (word_at L.src).data ++ (advance_while is_identifier_char L).src = L.src ∧
    (∀ c ∈ (word_at L.src).data, c.isAlpha = true ∨ c.isDigit = true ∨ c = '_') ∧
    (word_at L.src).data.head? = some (peek L) ∧
    (∀ c, (advance_while is_identifier_char L).src.head? = some c →
      ¬ (c.isAlpha = true ∨ c.isDigit = true ∨ c = '_')) ∧
    (∀ (text : String) (k : TokenType), (text, k) ∈ keywords → keyword_kind text = k) ∧
    (∀ text : String, keyword_kind text = TOKEN_IDENTIFIER ↔ text ∉ keywords.map Prod.fst) := by
  have hw : skip_whitespace L = L := by
    unfold skip_whitespace
    apply advance_while_of_not
    rcases h with h | h
    · by_cases hc : peek L = ' '
      · rw [hc] at h; exact absurd h (by decide)
      by_cases hc2 : peek L = '\t'
      · rw [hc2] at h; exact absurd h (by decide)
      simp [hc, hc2]
    · rw [h]; decide
  have h0 : peek L ≠ NUL := by
    rcases h with h | h
    · intro hc; rw [hc] at h; exact absurd h (by decide)
    · rw [h]; decide
  have hst : ∀ again : Lexer → LexResult, scan_token again L = scan_at again L := by
    intro again
    unfold scan_token
    rw [hw]
  have hid : is_identifier_char (peek L) = true := by
    rw [is_identifier_char_iff]
    rcases h with h | h
    · exact Or.inl h
    · exact Or.inr (Or.inr h)
  refine ⟨fun again => scan_at_word again L h, hst, fun hs => ?_, ?_, ?_, ?_, ?_,
    keyword_kind_of_mem, keyword_kind_identifier⟩
  · rw [get_next_token_scans L h0 hs, hst, scan_at_word _ L h]
  · rw [advance_while_src]
    exact List.takeWhile_append_dropWhile _ _
  · intro c hc
    exact (is_identifier_char_iff c).mp (List.mem_takeWhile_imp hc)
  · unfold word_at peek at *
    cases hs : L.src with
    | nil =>
      rw [hs] at hid
      exact absurd hid (by decide)
    | cons c cs =>
      rw [hs] at hid
      simp only [List.headD_cons] at hid ⊢
      simp [List.takeWhile_cons, hid]
  · intro c hc hcc
    rcases advance_while_stops is_identifier_char L with hs | hs
    · rw [hs] at hc
      simp at hc
    · unfold peek at hs
      cases hsrc : (advance_while is_identifier_char L).src with
      | nil => rw [hsrc] at hc; simp at hc
      | cons d ds =>
        rw [hsrc] at hc hs
        simp only [List.head?_cons, Option.some.injEq] at hc
        subst hc
        simp only [List.headD_cons] at hs
        rw [(is_identifier_char_iff d).mpr hcc] at hs
        exact absurd hs (by decide)

/-- Witness of C15: the word `letx` after `(`, and the words `letx`, `Let`,
`_if`, which are identifiers, among the nine keywords. -/
theorem C15_witness :
    ((peek (lexer_after "(letx+1" 1)).isAlpha = true ∨ peek (lexer_after "(letx+1" 1) = '_') ∧
    (lexer_after "(letx+1" 1).at_line_start = false ∧
    get_next_token (lexer_after "(letx+1" 1)
      = .ok (⟨keyword_kind (word_at (lexer_after "(letx+1" 1).src),
              word_at (lexer_after "(letx+1" 1).src,
              (advance_while is_identifier_char (lexer_after "(letx+1" 1)).line,
              (lexer_after "(letx+1" 1).column⟩,
             advance_while is_identifier_char (lexer_after "(letx+1" 1)) ∧
    word_at (lexer_after "(letx+1" 1).src = "letx" ∧
    keyword_kind "letx" = TOKEN_IDENTIFIER ∧
    (advance_while is_identifier_char (lexer_after "(letx+1" 1)).src = ['+', '1'] ∧
    observe 4 (start "letx Let _if let2")
      = [.ok (TOKEN_IDENTIFIER, "letx", [0]), .ok (TOKEN_IDENTIFIER, "Let", [0]),
         .ok (TOKEN_IDENTIFIER, "_if", [0]), .ok (TOKEN_IDENTIFIER, "let2", [0])] ∧
    token_kinds 10 (start "func let var if else elif for while return")
      = [TOKEN_FUNC, TOKEN_LET, TOKEN_VAR, TOKEN_IF, TOKEN_ELSE, TOKEN_ELIF, TOKEN_FOR,
         TOKEN_WHILE, TOKEN_RETURN, TOKEN_EOF] :=
  ⟨by decide!, by decide!,
    (C15_keyword_recognition (lexer_after "(letx+1" 1) (by decide!)).2.2.1 (by decide!),
    by decide!, by decide!, by decide!, by decide!, by decide!⟩

/-! ## Parentheses in the text of expressions -/

/-- The operator text of the generator is the target symbol between two
spaces, and nothing for a kind without target symbol. -/
theorem operator_text_eq (op : TokenType) :
    operator_text op = match target_symbol op with
      | some sym => " " ++ sym ++ " "
      | none => "" := by
  cases op <;> rfl

/-- No operator text holds a parenthesis. -/
theorem operator_text_no_parenthesis (op : TokenType) : no_parenthesis (operator_text op) := by
  cases op <;> decide

/-- A text without parenthesis does not change the nesting depth. -/
theorem balanced_from_plain (s : List Char) (h1 : '(' ∉ s) (h2 : ')' ∉ s) (d : Nat)
    (rest : List Char) : balanced_from d (s ++ rest) = balanced_from d rest := by
  induction s with
  | nil => rfl
  | cons c cs ih =>
    simp only [List.mem_cons, not_or] at h1 h2
    rw [List.cons_append, balanced_from, if_neg (Ne.symm h1.1), if_neg (Ne.symm h2.1)]
    exact ih h1.2 h2.2

/-- The text of an expression tree with plain leaves does not change the
nesting depth, and holds one `(` and one `)` per binary operation. -/
theorem generate_expression_parentheses : ∀ e : ASTNode, e.is_expression = true →
    (∀ v ∈ e.leaf_texts, no_parenthesis v) →
    (∀ (d : Nat) (rest : List Char),
      balanced_from d ((generate_expression e).data ++ rest) = balanced_from d rest) ∧
    (generate_expression e).data.count '(' = e.bin_ops ∧
    (generate_expression e).data.count ')' = e.bin_ops
  | .number value, _, hl => by
    have h := hl value (by simp [ASTNode.leaf_texts])
    refine ⟨fun d rest => balanced_from_plain _ h.1 h.2 d rest, ?_, ?_⟩
    · exact List.count_eq_zero.mpr h.1
    · exact List.count_eq_zero.mpr h.2
  | .identifier value, _, hl => by
    have h := hl value (by simp [ASTNode.leaf_texts])
    refine ⟨fun d rest => balanced_from_plain _ h.1 h.2 d rest, ?_, ?_⟩
    · exact List.count_eq_zero.mpr h.1
    · exact List.count_eq_zero.mpr h.2
  | .bin_op op left right, he, hl => by
    simp only [ASTNode.is_expression, Bool.and_eq_true] at he
    have hL := generate_expression_parentheses left he.1
      (fun v hv => hl v (by simp [ASTNode.leaf_texts, hv]))
    have hR := generate_expression_parentheses right he.2
      (fun v hv => hl v (by simp [ASTNode.leaf_texts, hv]))
    have ho := operator_text_no_parenthesis op
    have hd : (generate_expression (.bin_op op left right)).data
        = '(' :: ((generate_expression left).data ++ ((operator_text op).data
            ++ ((generate_expression right).data ++ [')']))) := by
      rw [generate_expression]
      simp only [String.data_append, List.append_assoc]
      rfl
    rw [hd]
    refine ⟨fun d rest => ?_, ?_, ?_⟩
    · rw [List.cons_append, balanced_from, if_pos rfl, List.append_assoc, hL.1,
        List.append_assoc, balanced_from_plain _ ho.1 ho.2, List.append_assoc, hR.1]
      show balanced_from (d + 1) (')' :: rest) = _
      rw [balanced_from, if_neg (by decide), if_pos rfl]
      simp
    · rw [List.count_cons, List.count_append, List.count_append, List.count_append, hL.2.1,
        hR.2.1, List.count_eq_zero.mpr ho.1]
      simp [ASTNode.bin_ops]
    · rw [List.count_cons, List.count_append, List.count_append, List.count_append, hL.2.2,
        hR.2.2, List.count_eq_zero.mpr ho.2]
      simp [ASTNode.bin_ops]
      omega
  | .program _, he, _ => by simp [ASTNode.is_expression] at he
  | .block _, he, _ => by simp [ASTNode.is_expression] at he
  | .var_decl _ _ _, he, _ => by simp [ASTNode.is_expression] at he
  | .assignment _ _, he, _ => by simp [ASTNode.is_expression] at he
  | .func_decl _ _, he, _ => by simp [ASTNode.is_expression] at he
  | .if_stmt _ _ _, he, _ => by simp [ASTNode.is_expression] at he
  | .while_stmt _ _, he, _ => by simp [ASTNode.is_expression] at he
  | .for_stmt, he, _ => by simp [ASTNode.is_expression] at he
  | .return_stmt _, he, _ => by simp [ASTNode.is_expression] at he
  | .noop, he, _ => by simp [ASTNode.is_expression] at he

/-! ## What the expression parsers build -/

/-- A failure ensures anything. -/
theorem Ensures.error {α : Type} {Q : α → Prop} (e : Error) :
    Ensures Q (.error e : Except Error α) := by
  intro a h
  exact absurd h (by simp)

/-- A value ensures what holds of it. -/
theorem Ensures.ok {α : Type} {Q : α → Prop} {a : α} (h : Q a) :
    Ensures Q (.ok a : Except Error α) := by
  intro b hb
  simp only [Except.ok.injEq] at hb
  exact hb ▸ h

/-- Sequencing keeps `Ensures`. -/
theorem Ensures.seq {α β : Type} {R : α → Prop} {Q : β → Prop} {x : Except Error α}
    {f : α → Except Error β} (hx : Ensures R x) (hf : ∀ a, R a → Ensures Q (f a)) :
    Ensures Q (x >>= f) := by
  cases x with
  | error e => exact Ensures.error e
  | ok a => exact hf a (hx a rfl)

/-- A conditional keeps `Ensures`, each branch under its condition. -/
theorem Ensures.cond {α : Type} {Q : α → Prop} (c : Prop) [Decidable c] {a b : Except Error α}
    (ha : c → Ensures Q a) (hb : ¬ c → Ensures Q b) : Ensures Q (if c then a else b) := by
  split
  · exact ha ‹_›
  · exact hb ‹_›

/-- The token that `advance_token` makes current is one that `get_next_token`
returns. -/
theorem advance_token_ensures (good : Token → Prop)
    (hnext : ∀ L t M, get_next_token L = .ok (t, M) → good t) (c : Option Token) (L : Lexer) :
    Ensures (fun P : Parser => good P.current_token) (advance_token c L) := by
  intro P h
  have h2 := advance_token_next h
  exact hnext L _ _ h2

/-- The invariant of the expression parsers. Let `good` hold of every token
that `get_next_token` returns, and let `tree` hold of the number and the
identifier made from a good token and of a binary operation with one of the
four operators on trees of which it holds. Then from a parser state whose
current token is good, each of the expression parsers returns a tree of which
`tree` holds and leaves a good token current. -/
theorem expression_invariant (good : Token → Prop) (tree : ASTNode → Prop)
    (hnext : ∀ L t M, get_next_token L = .ok (t, M) → good t)
    (hnum : ∀ t : Token, good t → t.type = TOKEN_NUMBER → tree (.number t.value))
    (hid : ∀ t : Token, good t → t.type = TOKEN_IDENTIFIER → tree (.identifier t.value))
    (hbin : ∀ op l r, op ∈ binary_operators → tree l → tree r → tree (.bin_op op l r))
    (n : Nat) :
    (∀ P, good P.current_token →
      Ensures (fun r => tree r.1 ∧ good r.2.current_token) (parse_expression n P)) ∧
    (∀ node P, tree node → good P.current_token →
      Ensures (fun r => tree r.1 ∧ good r.2.current_token) (parse_expression_loop n node P)) ∧
    (∀ P, good P.current_token →
      Ensures (fun r => tree r.1 ∧ good r.2.current_token) (parse_term n P)) ∧
    (∀ node P, tree node → good P.current_token →
      Ensures (fun r => tree r.1 ∧ good r.2.current_token) (parse_term_loop n node P)) ∧
    (∀ P, good P.current_token →
      Ensures (fun r => tree r.1 ∧ good r.2.current_token) (parse_factor n P)) := by
  have hadv : ∀ P : Parser, Ensures (fun Q : Parser => good Q.current_token) P.advance :=
    fun P => advance_token_ensures good hnext _ _
  induction n with
  | zero =>
    refine ⟨?_, ?_, ?_, ?_, ?_⟩ <;> intros <;> exact Ensures.error _
  | succ n ih =>
    obtain ⟨he, hel, ht, htl, hf⟩ := ih
    refine ⟨?_, ?_, ?_, ?_, ?_⟩
    · intro P hP
      rw [parse_expression]
      exact Ensures.seq (ht P hP) (fun r hr => hel _ _ hr.1 hr.2)
    · intro node P hnode hP
      rw [parse_expression_loop]
      refine Ensures.cond _ (fun hk => ?_) (fun _ => Ensures.ok ⟨hnode, hP⟩)
      refine Ensures.seq (hadv _) (fun P1 h1 => Ensures.seq (ht P1 h1) (fun r hr => ?_))
      refine hel _ _ (hbin _ _ _ ?_ hnode hr.1) hr.2
      rcases hk with hk | hk <;> rw [hk] <;> decide
    · intro P hP
      rw [parse_term]
      exact Ensures.seq (hf P hP) (fun r hr => htl _ _ hr.1 hr.2)
    · intro node P hnode hP
      rw [parse_term_loop]
      refine Ensures.cond _ (fun hk => ?_) (fun _ => Ensures.ok ⟨hnode, hP⟩)
      refine Ensures.seq (hadv _) (fun P1 h1 => Ensures.seq (hf P1 h1) (fun r hr => ?_))
      refine htl _ _ (hbin _ _ _ ?_ hnode hr.1) hr.2
      rcases hk with hk | hk <;> rw [hk] <;> decide
    · intro P hP
      rw [parse_factor]
      refine Ensures.cond _ (fun hk => ?_) (fun _ => ?_)
      · exact Ensures.seq (hadv _) (fun P1 h1 => Ensures.ok ⟨hnum _ hP hk, h1⟩)
      refine Ensures.cond _ (fun hk => ?_) (fun _ => ?_)
      · exact Ensures.seq (hadv _) (fun P1 h1 => Ensures.ok ⟨hid _ hP hk, h1⟩)
      refine Ensures.cond _ (fun _ => ?_) (fun _ => Ensures.error _)
      refine Ensures.seq (hadv _) (fun P1 h1 => Ensures.seq (he P1 h1) (fun r hr => ?_))
      refine Ensures.cond _ (fun _ => Ensures.error _) (fun _ => ?_)
      exact Ensures.seq (hadv _) (fun P2 h2 => Ensures.ok ⟨hr.1, h2⟩)

/-! ## C12: the invariant of the indentation stack -/

/-- The stack is the entries below the top followed by the width on top. -/
theorem stack_eq_take_append (L : Lexer) (h : L.indent_stack_top < L.indent_levels.length) :
    L.stack = L.indent_levels.take L.indent_stack_top ++ [L.top_width] := by
  unfold Lexer.stack Lexer.top_width
  rw [List.take_succ, List.getD_eq_getElem?_getD, List.getElem?_eq_getElem h]
  rfl

/-- Under the invariant no entry of the stack is wider than the top. -/
theorem stack_le_top {L : Lexer} (h : stack_invariant L) : ∀ a ∈ L.stack, a ≤ L.top_width := by
  obtain ⟨hlen, htop, _, hp⟩ := h
  have he := stack_eq_take_append L (by rw [hlen]; exact htop)
  rw [he] at hp ⊢
  intro a ha
  rw [List.pairwise_append] at hp
  rcases List.mem_append.mp ha with ha | ha
  · exact Nat.le_of_lt (hp.2.2 a ha _ (List.mem_singleton_self _))
  · rw [List.mem_singleton.mp ha]

/-- Under the invariant the width on top is 0 only at the bottom. -/
theorem top_pos_of_width_pos {L : Lexer} (h : stack_invariant L) (hw : 0 < L.top_width) :
    0 < L.indent_stack_top := by
  obtain ⟨hlen, htop, h0, _⟩ := h
  by_contra hc
  have hz : L.indent_stack_top = 0 := by omega
  have he := stack_eq_take_append L (by rw [hlen]; exact htop)
  rw [he, hz] at h0
  simp at h0
  omega

/-- `init_lexer` establishes the invariant, whatever the state before it. -/
theorem stack_invariant_init (source_code : List Char) (L : Lexer)
    (hsize : L.indent_levels.length = MAX_INDENT_LEVELS) :
    stack_invariant (init_lexer source_code L) := by
  have hs : (init_lexer source_code L).stack = [0] := by
    show (L.indent_levels.set 0 0).take (0 + 1) = [0]
    cases hl : L.indent_levels with
    | nil => rw [hl] at hsize; exact absurd hsize (by decide)
    | cons a as => rfl
  refine ⟨?_, (by decide : 0 < MAX_INDENT_LEVELS), ?_, ?_⟩
  · show (L.indent_levels.set 0 0).length = _
    rw [List.length_set]
    exact hsize
  · rw [hs]; rfl
  · rw [hs]; exact List.pairwise_singleton _ _

/-- One call of `get_next_token` keeps the invariant, and a DEDENT pops a level
that is open. -/
theorem stack_invariant_step {L M : Lexer} {t : Token} (h : stack_invariant L)
    (hs : step L t M) :
    stack_invariant M ∧ (t.type = TOKEN_DEDENT →
      0 < L.indent_stack_top ∧ M.indent_stack_top + 1 = L.indent_stack_top) := by
  have hle := stack_le_top h
  obtain ⟨hlen, htop, h0, hp⟩ := h
  rcases hs.2.2 with ⟨hi, _, hgt, hMtop, hMmax, hMlev⟩ | ⟨hd, hMlev, hMtop, hwhy⟩ | hq
  · refine ⟨⟨?_, hMmax, ?_, ?_⟩, fun hd => absurd hd (by rw [hi]; decide)⟩
    · rw [hMlev, List.length_set]
      exact hlen
    all_goals
      have hpush : M.stack = L.stack ++ [leading_spaces L.src] := by
        unfold Lexer.stack
        rw [hMlev, hMtop]
        exact stack_push _ _ _ (by rw [hlen, ← hMtop]; exact hMmax)
      rw [hpush]
    · cases hst : L.stack with
      | nil => rw [hst] at h0; simp at h0
      | cons a as => rw [hst] at h0; simpa using h0
    · rw [List.pairwise_append]
      refine ⟨hp, List.pairwise_singleton _ _, fun a ha b hb => ?_⟩
      rw [List.mem_singleton.mp hb]
      exact Nat.lt_of_le_of_lt (hle a ha) hgt
  · have hpos : 0 < L.indent_stack_top := by
      rcases hwhy with hw | hw
      · exact hw.1
      · exact top_pos_of_width_pos ⟨hlen, htop, h0, hp⟩ (by omega)
    have hpre : M.stack = L.stack.take L.indent_stack_top := by
      unfold Lexer.stack
      rw [hMlev, hMtop, List.take_take]
      congr 1
      omega
    refine ⟨⟨by rw [hMlev]; exact hlen, by omega, ?_, ?_⟩, fun _ => ⟨hpos, by omega⟩⟩
    · rw [hpre]
      cases hst : L.stack with
      | nil => rw [hst] at h0; simp at h0
      | cons a as =>
        rw [hst] at h0
        obtain ⟨k, hk⟩ : ∃ k, L.indent_stack_top = k + 1 := ⟨L.indent_stack_top - 1, by omega⟩
        rw [hk]
        simpa using h0
    · rw [hpre]
      exact hp.sublist (List.take_sublist _ _)
  · have hst : M.stack = L.stack := by
      unfold Lexer.stack
      rw [hq.2.2.1, hq.2.2.2]
    refine ⟨⟨by rw [hq.2.2.1]; exact hlen, by rw [hq.2.2.2]; exact htop, by rw [hst]; exact h0,
      by rw [hst]; exact hp⟩, fun hd => absurd hd hq.2.1⟩

/-- The invariant holds after any number of calls. -/
theorem stack_invariant_after_calls (n : Nat) : ∀ (L M : Lexer), stack_invariant L →
    after_calls n L = .ok M → stack_invariant M := by
  induction n with
  | zero =>
    intro L M h hM
    simp only [after_calls, Except.ok.injEq] at hM
    exact hM ▸ h
  | succ n ih =>
    intro L M h hM
    have hM2 : (get_next_token L >>= fun r => after_calls n r.2) = .ok M := hM
    cases hr : get_next_token L with
    | error e => rw [hr] at hM2; cases hM2
    | ok r =>
      rw [hr] at hM2
      exact ih r.2 M (stack_invariant_step h (get_next_token_step L r.1 r.2 hr)).1 hM2

/-- The invariant in terms of the entries of `indent_levels`. -/
theorem stack_invariant_entries {L : Lexer} (h : stack_invariant L) :
    L.indent_levels[0]? = some 0 ∧
    ∀ i j, i < j → j ≤ L.indent_stack_top →
      L.indent_levels.getD i 0 < L.indent_levels.getD j 0 := by
  obtain ⟨hlen, htop, h0, hp⟩ := h
  have hl : L.stack.length = L.indent_stack_top + 1 := by
    unfold Lexer.stack
    rw [List.length_take]
    omega
  have hget : ∀ i, i ≤ L.indent_stack_top → L.stack[i]? = some (L.indent_levels.getD i 0) := by
    intro i hi
    unfold Lexer.stack
    rw [List.getElem?_take, if_pos (by omega), List.getD_eq_getElem?_getD,
      List.getElem?_eq_getElem (by omega)]
    rfl
  refine ⟨?_, fun i j hij hj => ?_⟩
  · have h1 := hget 0 (Nat.zero_le _)
    rw [← List.head?_eq_getElem?, h0] at h1
    rw [List.getD_eq_getElem?_getD, List.getElem?_eq_getElem (by omega)] at h1
    rw [List.getElem?_eq_getElem (by omega)]
    simpa using h1.symm
  · have hi := hget i (by omega)
    have hj2 := hget j hj
    rw [List.getElem?_eq_getElem (by omega)] at hi hj2
    have := (List.pairwise_iff_getElem.mp hp) i j (by omega) (by omega) hij
    simp only [Option.some.injEq] at hi hj2
    rw [hi, hj2] at this
    exact this

/-- At the start of a deeper line with the last entry of `indent_levels` on top
of the stack, the call fails with the too-many-levels error. -/
theorem get_next_token_overflow (L : Lexer) (hstart : L.at_line_start = true)
    (hnb : starts_nonblank L.src) (hgt : leading_spaces L.src > L.top_width)
    (hfull : L.indent_stack_top + 1 ≥ MAX_INDENT_LEVELS) :
    get_next_token L = .error .too_many_indentation_levels := by
  rw [get_next_token_line_start L (peek_ne_NUL_of_nonblank hnb) hstart, line_start_eq,
    if_neg (peek_past_spaces_of_nonblank hnb), if_pos hgt, if_pos hfull]

/-- C12: the invariant of the indentation stack. Whatever the state of the
lexer before `init_lexer` (its array `indent_levels` has `MAX_INDENT_LEVELS`
entries) and whatever the source: after `init_lexer` the stack is `[0]`, and in
every state reached from there by calls of `get_next_token` the top index is
below `MAX_INDENT_LEVELS` (every read `indent_levels[indent_stack_top]` is in
bounds), `indent_levels[0]` is 0 and the entries up to the top are strictly
increasing. In such a state a call that returns DEDENT pops a level that is
open (the top index was positive: it never goes below 0) and writes nothing; a
call that returns INDENT writes the leading-space count of the line one above
the old top, inside the array, and that is a push; any other token leaves the
stack alone. An indent on top of the last entry fails with the
too-many-levels error instead. -/
theorem C12_indentation_stack_invariant (source_code : List Char) (L0 : Lexer)
    (hsize : L0.indent_levels.length = MAX_INDENT_LEVELS) :
    (init_lexer source_code L0).stack = [0] ∧
    (∀ n M, after_calls n (init_lexer source_code L0) = .ok M →
      stack_invariant M ∧
      M.indent_stack_top < M.indent_levels.length ∧
      M.indent_levels[0]? = some 0 ∧
      (∀ i j, i < j → j ≤ M.indent_stack_top →
        M.indent_levels.getD i 0 < M.indent_levels.getD j 0) ∧
      (∀ t M2, get_next_token M = .ok (t, M2) →
        (t.type = TOKEN_DEDENT → 0 < M.indent_stack_top ∧
          M2.indent_stack_top + 1 = M.indent_stack_top ∧
          M2.indent_levels = M.indent_levels) ∧
        (t.type = TOKEN_INDENT → M2.indent_stack_top = M.indent_stack_top + 1 ∧
          M.indent_stack_top + 1 < M.indent_levels.length ∧
          M2.indent_levels
            = M.indent_levels.set (M.indent_stack_top + 1) (leading_spaces M.src) ∧
          M2.stack = M.stack ++ [leading_spaces M.src]) ∧
        (t.type ≠ TOKEN_DEDENT → t.type ≠ TOKEN_INDENT → M2.stack = M.stack)) ∧
      (M.at_line_start = true → starts_nonblank M.src →
        leading_spaces M.src > M.top_width →
        M.indent_stack_top + 1 = MAX_INDENT_LEVELS →
        get_next_token M = .error .too_many_indentation_levels)) := by
  have hinit := stack_invariant_init source_code L0 hsize
  refine ⟨?_, fun n M hM => ?_⟩
  · have h0 := hinit.2.2.1
    have hl : (init_lexer source_code L0).stack.length = 1 := by
      show ((L0.indent_levels.set 0 0).take (0 + 1)).length = 1
      rw [List.length_take, List.length_set, hsize]
      rfl
    cases hst : (init_lexer source_code L0).stack with
    | nil => rw [hst] at h0; simp at h0
    | cons a as =>
      rw [hst] at h0 hl
      simp only [List.head?_cons, Option.some.injEq] at h0
      simp only [List.length_cons, Nat.add_left_eq_self, List.length_eq_zero] at hl
      rw [h0, hl]
  · have hinv := stack_invariant_after_calls n _ M hinit hM
    have hent := stack_invariant_entries hinv
    refine ⟨hinv, by rw [hinv.1]; exact hinv.2.1, hent.1, hent.2, fun t M2 h2 => ?_,
      fun h1 h2 h3 h4 => get_next_token_overflow M h1 h2 h3 (by omega)⟩
    have hs := get_next_token_step M t M2 h2
    have hd := (stack_invariant_step hinv hs).2
    rcases hs.2.2 with ⟨hi, _, _, hMtop, hMmax, hMlev⟩ | ⟨hdd, hMlev, _, _⟩ | hq
    · refine ⟨fun h => absurd h (by rw [hi]; decide), fun _ => ⟨hMtop, ?_, hMlev, ?_⟩,
        fun _ h => absurd hi h⟩
      · rw [hinv.1, ← hMtop]; exact hMmax
      · unfold Lexer.stack
        rw [hMlev, hMtop]
        exact stack_push _ _ _ (by rw [hinv.1, ← hMtop]; exact hMmax)
    · exact ⟨fun h => ⟨(hd h).1, (hd h).2, hMlev⟩, fun h => absurd h (by rw [hdd]; decide),
        fun h _ => absurd hdd h⟩
    · refine ⟨fun h => absurd h hq.2.1, fun h => absurd h hq.1, fun _ _ => ?_⟩
      unfold Lexer.stack
      rw [hq.2.2.1, hq.2.2.2]

/-- Witness of C12: after the seven tokens of `a\n  b\n    c` in
`a\n  b\n    c\nd` the stack is `[0, 2, 4]`, and a second `init_lexer` in that
state gives the stack `[0]` again. -/
theorem C12_witness :
    Lexer.fresh.indent_levels.length = MAX_INDENT_LEVELS ∧
    after_calls 7 (init_lexer "a\n  b\n    c\nd".data Lexer.fresh)
      = .ok (lexer_after "a\n  b\n    c\nd" 7) ∧
    stack_invariant (lexer_after "a\n  b\n    c\nd" 7) ∧
    (lexer_after "a\n  b\n    c\nd" 7).stack = [0, 2, 4] ∧
    (lexer_after "a\n  b\n    c\nd" 7).indent_levels.length = MAX_INDENT_LEVELS ∧
    (init_lexer "x".data (lexer_after "a\n  b\n    c\nd" 7)).stack = [0] :=
  ⟨by decide, by decide!,
    ((C12_indentation_stack_invariant "a\n  b\n    c\nd".data Lexer.fresh (by decide)).2 7
      (lexer_after "a\n  b\n    c\nd" 7) (by decide!)).1,
    by decide!, by decide!,
    (C12_indentation_stack_invariant "x".data (lexer_after "a\n  b\n    c\nd" 7)
      (by decide!)).1⟩

/-! ## The scanner does not read `indent_levels` -/

/-- `advance` does not read `indent_levels`. -/
theorem advance_with_levels (L : Lexer) (v : List Nat) :
    advance (L.with_levels v) = (advance L).with_levels v := by
  unfold advance
  by_cases h : peek L = '\n'
  · rw [if_pos h, if_pos (show peek (L.with_levels v) = '\n' from h)]
    rfl
  · rw [if_neg h, if_neg (show ¬ peek (L.with_levels v) = '\n' from h)]
    rfl

/-- The loops of the scanner do not read `indent_levels`. -/
theorem advance_while_aux_with_levels (p : Char → Bool) (v : List Nat) (n : Nat) :
    ∀ L : Lexer, advance_while_aux p n (L.with_levels v)
      = (advance_while_aux p n L).with_levels v := by
  induction n with
  | zero => intro L; rfl
  | succ n ih =>
    intro L
    rw [advance_while_aux, advance_while_aux]
    by_cases h : p (peek L) = true
    · rw [if_pos h, if_pos (show p (peek (L.with_levels v)) = true from h),
        advance_with_levels, ih]
    · rw [if_neg h, if_neg (show ¬ p (peek (L.with_levels v)) = true from h)]

/-- `advance_while` does not read `indent_levels`. -/
theorem advance_while_with_levels (p : Char → Bool) (L : Lexer) (v : List Nat) :
    advance_while p (L.with_levels v) = (advance_while p L).with_levels v :=
  advance_while_aux_with_levels p v _ L

/-- A conditional under `with_levels_result`. -/
theorem with_levels_ite (v : List Nat) (c : Prop) [Decidable c] {a b a2 b2 : LexResult}
    (ha : a2 = with_levels_result v a) (hb : b2 = with_levels_result v b) :
    (if c then a2 else b2) = with_levels_result v (if c then a else b) := by
  split
  · exact ha
  · exact hb

/-- `single_char` does not read `indent_levels`. -/
theorem single_char_with_levels (k : TokenType) (text : String) (L : Lexer) (v : List Nat) :
    single_char k text (L.with_levels v) = with_levels_result v (single_char k text L) := by
  unfold single_char
  rw [advance_with_levels]
  rfl

/-- `with_equals` does not read `indent_levels`. -/
theorem with_equals_with_levels (k : TokenType) (text : String) (f : Lexer → LexResult)
    (L : Lexer) (v : List Nat)
    (hf : f ((advance L).with_levels v) = with_levels_result v (f (advance L))) :
    with_equals k text f (L.with_levels v) = with_levels_result v (with_equals k text f L) := by
  unfold with_equals
  rw [advance_with_levels]
  refine with_levels_ite v _ ?_ hf
  rw [advance_with_levels]
  rfl

/-- `scan_operator` does not read `indent_levels`. -/
theorem scan_operator_with_levels (L : Lexer) (v : List Nat) :
    scan_operator (L.with_levels v) = with_levels_result v (scan_operator L) := by
  unfold scan_operator
  show (if peek L = '+' then _ else _) = _
  refine with_levels_ite v _ (single_char_with_levels _ _ L v) ?_
  refine with_levels_ite v _ (single_char_with_levels _ _ L v) ?_
  refine with_levels_ite v _ (single_char_with_levels _ _ L v) ?_
  refine with_levels_ite v _ (single_char_with_levels _ _ L v) ?_
  refine with_levels_ite v _ (single_char_with_levels _ _ L v) ?_
  refine with_levels_ite v _ (single_char_with_levels _ _ L v) ?_
  refine with_levels_ite v _ (single_char_with_levels _ _ L v) ?_
  refine with_levels_ite v _ (single_char_with_levels _ _ L v) ?_
  refine with_levels_ite v _ (with_equals_with_levels _ _ _ L v rfl) ?_
  refine with_levels_ite v _ (with_equals_with_levels _ _ _ L v rfl) ?_
  refine with_levels_ite v _ (with_equals_with_levels _ _ _ L v rfl) ?_
  exact with_levels_ite v _ (with_equals_with_levels _ _ _ L v rfl) rfl

/-- The state after a number does not depend on `indent_levels`. -/
theorem number_end_with_levels (L : Lexer) (v : List Nat) :
    number_end (L.with_levels v) = (number_end L).with_levels v := by
  unfold number_end
  rw [advance_while_with_levels]
  by_cases hc : peek (advance_while Char.isDigit L) = '.'
  · rw [if_pos hc, if_pos (show peek ((advance_while Char.isDigit L).with_levels v) = '.' from hc),
      advance_with_levels, advance_while_with_levels]
  · rw [if_neg hc,
      if_neg (show ¬ peek ((advance_while Char.isDigit L).with_levels v) = '.' from hc)]

/-- The scanner past the white space does not read `indent_levels`. -/
theorem scan_at_with_levels (f g : Lexer → LexResult) (L : Lexer) (v : List Nat)
    (hf : g ((skip_comment (advance L)).with_levels v)
      = with_levels_result v (f (skip_comment (advance L)))) :
    scan_at g (L.with_levels v) = with_levels_result v (scan_at f L) := by
  unfold scan_at
  show (if peek L = '\n' then _ else _) = _
  refine with_levels_ite v _ ?_ ?_
  · rw [advance_with_levels]
    rfl
  refine with_levels_ite v _ ?_ ?_
  · unfold skip_comment at hf ⊢
    rw [advance_with_levels, advance_while_with_levels]
    exact hf
  refine with_levels_ite v _ ?_ ?_
  · rw [advance_while_with_levels]
    rfl
  refine with_levels_ite v _ ?_ ?_
  · unfold number_token
    rw [number_end_with_levels]
    rfl
  refine with_levels_ite v _ ?_ (scan_operator_with_levels L v)
  show string_token (advance (L.with_levels v))
    (advance_while (in_string (peek L)) (advance (L.with_levels v))) = _
  rw [advance_with_levels, advance_while_with_levels]
  unfold string_token
  refine with_levels_ite v _ rfl ?_
  rw [advance_with_levels]
  rfl

/-- The scanner does not read `indent_levels`. -/
theorem scan_token_with_levels (f g : Lexer → LexResult) (L : Lexer) (v : List Nat)
    (hf : ∀ K, K.at_line_start = L.at_line_start →
      g (K.with_levels v) = with_levels_result v (f K)) :
    scan_token g (L.with_levels v) = with_levels_result v (scan_token f L) := by
  unfold scan_token skip_whitespace
  rw [advance_while_with_levels]
  refine scan_at_with_levels f g _ v (hf _ ?_)
  show (advance_while _ (advance (advance_while _ L))).at_line_start = _
  rw [advance_while_at_line_start, advance_at_line_start, advance_while_at_line_start]

/-- The end-of-input branch does not read `indent_levels`. -/
theorem end_of_input_with_levels (L : Lexer) (v : List Nat) :
    end_of_input (L.with_levels v) = with_levels_result v (end_of_input L) := by
  unfold end_of_input
  exact with_levels_ite v _ rfl rfl

/-- Away from a line start a call does not read `indent_levels`. -/
theorem get_next_token_aux_with_levels (v : List Nat) (n : Nat) : ∀ L : Lexer,
    L.at_line_start = false →
    get_next_token_aux n (L.with_levels v) = with_levels_result v (get_next_token_aux n L) := by
  induction n with
  | zero => intro L _; rfl
  | succ n ih =>
    intro L hs
    rw [get_next_token_aux, get_next_token_aux]
    show (if peek L = NUL then _ else _) = _
    refine with_levels_ite v _ (end_of_input_with_levels L v) ?_
    have hs2 : (L.with_levels v).at_line_start = false := hs
    simp only [hs, hs2, Bool.false_eq_true, if_false]
    exact scan_token_with_levels _ _ L v (fun K hK => ih K (hK.trans hs))

/-- Lists with the same first `n` entries have the same first `m` entries for
`m ≤ n`. -/
theorem take_eq_of_le {l1 l2 : List Nat} {n m : Nat} (h : l1.take n = l2.take n) (hm : m ≤ n) :
    l1.take m = l2.take m := by
  have h1 : l1.take m = (l1.take n).take m := by rw [List.take_take, Nat.min_eq_left hm]
  have h2 : l2.take m = (l2.take n).take m := by rw [List.take_take, Nat.min_eq_left hm]
  rw [h1, h2, h]

/-- States with the same stack have the same width on top. -/
theorem top_width_with_levels (L : Lexer) (v : List Nat) (hst : L.stack = (L.with_levels v).stack)
    (h1 : L.indent_stack_top < L.indent_levels.length) (h2 : L.indent_stack_top < v.length) :
    (L.with_levels v).top_width = L.top_width := by
  have e1 := stack_eq_take_append L h1
  have e2 := stack_eq_take_append (L.with_levels v) h2
  rw [e1, e2] at hst
  have hl : (L.indent_levels.take L.indent_stack_top).length
      = ((L.with_levels v).indent_levels.take (L.with_levels v).indent_stack_top).length := by
    rw [List.length_take, List.length_take]
    show min L.indent_stack_top _ = min L.indent_stack_top v.length
    omega
  have := (List.append_inj hst hl).2
  simp only [List.cons.injEq, and_true] at this
  exact this.symm

/-- An inner step gives the same token from a state with another array
`indent_levels` and the same stack, and leaves states with the same stack. -/
theorem same_stack_of_inner (K : Lexer) (v : List Nat) (r : LexResult)
    (hst : K.stack = (K.with_levels v).stack)
    (h1 : K.indent_levels.length = MAX_INDENT_LEVELS) (h2 : v.length = MAX_INDENT_LEVELS)
    (h3 : K.indent_stack_top < MAX_INDENT_LEVELS) (hin : holds (inner K) r) :
    same_stack_result r (with_levels_result v r) := by
  cases r with
  | error e => rfl
  | ok x =>
    have hi := hin x.1 x.2 rfl
    have hM : x.2.indent_levels = K.indent_levels ∧ x.2.indent_stack_top ≤ K.indent_stack_top := by
      rcases hi.2.2 with h | h
      · exact ⟨h.2.1, by rw [h.2.2.1]; omega⟩
      · exact ⟨h.2.2.1, by rw [h.2.2.2]⟩
    refine ⟨rfl, rfl, ?_, by rw [hM.1]; exact h1, h2, by omega⟩
    show x.2.indent_levels.take (x.2.indent_stack_top + 1) = v.take (x.2.indent_stack_top + 1)
    rw [hM.1]
    exact take_eq_of_le hst (by omega)

/-- One call from a state with another array `indent_levels` and the same
stack. -/
theorem same_stack_with_levels (L : Lexer) (v : List Nat)
    (hst : L.stack = (L.with_levels v).stack)
    (h1 : L.indent_levels.length = MAX_INDENT_LEVELS) (h2 : v.length = MAX_INDENT_LEVELS)
    (h3 : L.indent_stack_top < MAX_INDENT_LEVELS) :
    same_stack_result (get_next_token L) (get_next_token (L.with_levels v)) := by
  by_cases hs : L.at_line_start = true
  · by_cases h0 : peek L = NUL
    · rw [get_next_token_at_end L h0, get_next_token_at_end (L.with_levels v) h0,
        end_of_input_with_levels]
      exact same_stack_of_inner L v _ hst h1 h2 h3
        (holds_imp (end_of_input_inner L h0) (fun _ _ h => h.1))
    rw [get_next_token_line_start L h0 hs, get_next_token_line_start (L.with_levels v) h0 hs,
      line_start_eq, line_start_eq]
    have hw : (L.with_levels v).top_width = L.top_width :=
      top_width_with_levels L v hst (by rw [h1]; exact h3) (by rw [h2]; exact h3)
    rw [hw]
    show same_stack_result _
      (match (if peek L.past_spaces = '\n' ∨ peek L.past_spaces = NUL then
          LineStart.empty_line (L.past_spaces.with_levels v)
        else if leading_spaces L.src > L.top_width then
          if L.indent_stack_top + 1 ≥ MAX_INDENT_LEVELS then
            .returns (.error .too_many_indentation_levels)
          else
            .returns (.ok (⟨TOKEN_INDENT, "<INDENT>", L.line, L.column + leading_spaces L.src⟩,
              { L.past_spaces with
                  indent_stack_top := L.indent_stack_top + 1,
                  indent_levels := v.set (L.indent_stack_top + 1) (leading_spaces L.src) }))
        else if leading_spaces L.src < L.top_width then
          .returns (.ok (⟨TOKEN_DEDENT, "<DEDENT>", L.line, L.column + leading_spaces L.src⟩,
            { L.past_spaces.with_levels v with indent_stack_top := L.indent_stack_top - 1 }))
        else .scans (L.past_spaces.with_levels v)) with
      | .returns r => r
      | .empty_line L1 => get_next_token_aux 1 L1
      | .scans L1 => scan_token (get_next_token_aux 1) L1)
    by_cases hb : peek L.past_spaces = '\n' ∨ peek L.past_spaces = NUL
    · rw [if_pos hb, if_pos hb]
      show same_stack_result (get_next_token_aux 1 L.past_spaces)
        (get_next_token_aux 1 (L.past_spaces.with_levels v))
      rw [get_next_token_aux_with_levels v 1 L.past_spaces rfl]
      exact same_stack_of_inner L.past_spaces v _ hst h1 h2 h3
        (get_next_token_aux_one_inner L.past_spaces rfl)
    rw [if_neg hb, if_neg hb]
    by_cases hgt : leading_spaces L.src > L.top_width
    · rw [if_pos hgt, if_pos hgt]
      by_cases hmax : L.indent_stack_top + 1 ≥ MAX_INDENT_LEVELS
      · rw [if_pos hmax, if_pos hmax]
        rfl
      · rw [if_neg hmax, if_neg hmax]
        have hlt : L.indent_stack_top + 1 < MAX_INDENT_LEVELS := by omega
        refine ⟨rfl, rfl, ?_, ?_, ?_, hlt⟩
        · show (L.indent_levels.set _ _).take (L.indent_stack_top + 1 + 1)
            = (v.set _ _).take (L.indent_stack_top + 1 + 1)
          rw [stack_push _ _ _ (by rw [h1]; exact hlt), stack_push _ _ _ (by rw [h2]; exact hlt)]
          congr 1
        · show (L.indent_levels.set _ _).length = _
          rw [List.length_set]; exact h1
        · show (v.set _ _).length = _
          rw [List.length_set]; exact h2
    rw [if_neg hgt, if_neg hgt]
    by_cases hlt : leading_spaces L.src < L.top_width
    · rw [if_pos hlt, if_pos hlt]
      refine ⟨rfl, rfl, ?_, h1, h2, ?_⟩
      · show L.indent_levels.take (L.indent_stack_top - 1 + 1)
          = v.take (L.indent_stack_top - 1 + 1)
        exact take_eq_of_le hst (by omega)
      · show L.indent_stack_top - 1 < _
        omega
    · rw [if_neg hlt, if_neg hlt]
      show same_stack_result (scan_token (get_next_token_aux 1) L.past_spaces)
        (scan_token (get_next_token_aux 1) (L.past_spaces.with_levels v))
      rw [scan_token_with_levels (get_next_token_aux 1) (get_next_token_aux 1) L.past_spaces v
        (fun K hK => get_next_token_aux_with_levels v 1 K hK)]
      exact same_stack_of_inner L.past_spaces v _ hst h1 h2 h3
        (scan_token_inner _ L.past_spaces (fun K hK => get_next_token_aux_one_inner K hK))
  · have hs2 : L.at_line_start = false := by simpa using hs
    show same_stack_result (get_next_token_aux 2 L) (get_next_token_aux 2 (L.with_levels v))
    rw [get_next_token_aux_with_levels v 2 L hs2]
    exact same_stack_of_inner L v _ hst h1 h2 h3 (get_next_token_inner L hs2)

/-- States with the same stack give the same tokens, call after call. -/
theorem token_run_same_stack (n : Nat) : ∀ L1 L2 : Lexer, same_stack L1 L2 →
    token_run n L1 = token_run n L2 := by
  induction n with
  | zero => intro _ _ _; rfl
  | succ n ih =>
    intro L1 L2 h
    obtain ⟨he, hst, h1, h2, h3⟩ := h
    have hsim := same_stack_with_levels L1 L2.indent_levels (by rw [← he]; exact hst) h1 h2 h3
    rw [← he] at hsim
    rw [token_run, token_run]
    cases hr1 : get_next_token L1 with
    | error e1 =>
      cases hr2 : get_next_token L2 with
      | error e2 =>
        rw [hr1, hr2] at hsim
        have : e1 = e2 := hsim
        rw [this]
      | ok r2 => rw [hr1, hr2] at hsim; exact absurd hsim (by simp [same_stack_result])
    | ok r1 =>
      cases hr2 : get_next_token L2 with
      | error e2 => rw [hr1, hr2] at hsim; exact absurd hsim (by simp [same_stack_result])
      | ok r2 =>
        rw [hr1, hr2] at hsim
        obtain ⟨ht, hM⟩ : r1.1 = r2.1 ∧ same_stack r1.2 r2.2 := hsim
        simp only
        rw [ht, ih _ _ hM]

/-! ## C11: `init_lexer` -/

/-- After `init_lexer`, a state in which `at_line_start` is set differs from
the state of a lexer that has just started at most above the top of the
stack. -/
theorem same_stack_init (source_code : List Char) (L : Lexer)
    (hsize : L.indent_levels.length = MAX_INDENT_LEVELS) (hs : L.at_line_start = true) :
    same_stack (init_lexer source_code Lexer.fresh) (init_lexer source_code L) := by
  have hst : ∀ K : Lexer, K.indent_levels.length = MAX_INDENT_LEVELS →
      (init_lexer source_code K).stack = [0] := by
    intro K hK
    show (K.indent_levels.set 0 0).take (0 + 1) = [0]
    cases hl : K.indent_levels with
    | nil => rw [hl] at hK; exact absurd hK (by decide)
    | cons a as => rfl
  refine ⟨?_, ?_, ?_, ?_, (by decide : 0 < MAX_INDENT_LEVELS)⟩
  · unfold init_lexer Lexer.with_levels Lexer.fresh
    simp only [hs]
  · rw [hst _ (by decide), hst _ hsize]
  · show (Lexer.fresh.indent_levels.set 0 0).length = _
    rw [List.length_set]
    decide
  · show (L.indent_levels.set 0 0).length = _
    rw [List.length_set]
    exact hsize

/-- C11 (defect of the code): `init_lexer` does not reset `at_line_start`, the
static local of `get_next_token`. It resets the cursor to 0, the line and the
column to 1 and the stack to `[0]`, whatever the state before, and where
`at_line_start` is set (nothing was lexed before, or the last token was a
NEWLINE) the calls after it return the tokens that a lexer that has just
started returns. But once the source `x` has been lexed, to its end
(IDENTIFIER, EOF) or only to its first token, `at_line_start` is 0, and after
`init_lexer` on `  y` the first line is not treated as the start of a line:
the calls return IDENTIFIER, EOF, where a lexer that has just started returns
INDENT, IDENTIFIER, DEDENT, EOF on the same source. -/
theorem C11_init_lexer_keeps_at_line_start :
    (∀ (source_code : List Char) (L : Lexer),
      (init_lexer source_code L).src = source_code ∧ (init_lexer source_code L).pos = 0 ∧
      (init_lexer source_code L).line = 1 ∧ (init_lexer source_code L).column = 1 ∧
      (init_lexer source_code L).indent_stack_top = 0 ∧
      (init_lexer source_code L).top_width = 0 ∧
      (L.indent_levels.length = MAX_INDENT_LEVELS → (init_lexer source_code L).stack = [0]) ∧
      (init_lexer source_code L).at_line_start = L.at_line_start) ∧
    (∀ (source_code : List Char) (L : Lexer), L.indent_levels.length = MAX_INDENT_LEVELS →
      L.at_line_start = true →
      ∀ n, token_run n (init_lexer source_code L)
        = token_run n (init_lexer source_code Lexer.fresh)) ∧
    call_kinds 2 (start "x") = [TOKEN_IDENTIFIER, TOKEN_EOF] ∧
    (lexer_after "x" 2).at_line_start = false ∧
    (lexer_after "x" 2).src = [] ∧
    observe 4 (init_lexer "  y".data (lexer_after "x" 2))
      = [.ok (TOKEN_IDENTIFIER, "y", [0]), .ok (TOKEN_EOF, "<EOF>", [0]),
         .ok (TOKEN_EOF, "<EOF>", [0]), .ok (TOKEN_EOF, "<EOF>", [0])] ∧
    observe 4 (init_lexer "  y".data Lexer.fresh)
      = [.ok (TOKEN_INDENT, "<INDENT>", [0, 2]), .ok (TOKEN_IDENTIFIER, "y", [0, 2]),
         .ok (TOKEN_DEDENT, "<DEDENT>", [0]), .ok (TOKEN_EOF, "<EOF>", [0])] ∧
    (lexer_after "x" 1).at_line_start = false ∧
    observe 2 (init_lexer "  y".data (lexer_after "x" 1))
      = [.ok (TOKEN_IDENTIFIER, "y", [0]), .ok (TOKEN_EOF, "<EOF>", [0])] := by
  refine ⟨fun source_code L => ⟨rfl, rfl, rfl, rfl, rfl, ?_, fun h => ?_, rfl⟩,
    fun source_code L hsize hs n =>
      (token_run_same_stack n _ _ (same_stack_init source_code L hsize hs)).symm,
    by decide!, by decide!, by decide!, by decide!, by decide!, by decide!, by decide!⟩
  · show (L.indent_levels.set 0 0).getD 0 0 = 0
    cases L.indent_levels <;> rfl
  · show (L.indent_levels.set 0 0).take (0 + 1) = [0]
    cases hl : L.indent_levels with
    | nil => rw [hl] at h; exact absurd h (by decide)
    | cons a as => rfl

/-! ## The texts of numbers and identifiers -/

/-- A text made of letters, digits, underscores and dots holds no
parenthesis. -/
theorem no_parenthesis_of_chars (s : String)
    (h : ∀ c ∈ s.data, is_identifier_char c = true ∨ c = '.') : no_parenthesis s := by
  constructor
  · intro hc
    rcases h _ hc with h1 | h1
    · exact absurd h1 (by decide)
    · exact absurd h1 (by decide)
  · intro hc
    rcases h _ hc with h1 | h1
    · exact absurd h1 (by decide)
    · exact absurd h1 (by decide)

/-- The text of a word is made of letters, digits and underscores. -/
theorem identifier_text_chars (L : Lexer) :
    ∀ c ∈ (token_text L (advance_while is_identifier_char L) 0).data,
      is_identifier_char c = true ∨ c = '.' := by
  rw [token_text_advance_while]
  intro c hc
  exact Or.inl (List.mem_takeWhile_imp hc)

/-- A digit continues a word. -/
theorem is_identifier_char_of_digit {c : Char} (h : c.isDigit = true) :
    is_identifier_char c = true :=
  (is_identifier_char_iff c).mpr (Or.inr (Or.inl h))

/-- The text of a number is made of digits and dots. -/
theorem number_text_chars (L : Lexer) :
    ∀ c ∈ (token_text L (number_end L) 0).data, is_identifier_char c = true ∨ c = '.' := by
  unfold number_end
  by_cases hc : peek (advance_while Char.isDigit L) = '.'
  · rw [if_pos hc]
    unfold token_text
    rw [advance_while_pos, advance_pos, advance_while_pos, advance_src, advance_while_src]
    have hsplit := List.takeWhile_append_dropWhile Char.isDigit L.src
    have hdot : L.src.dropWhile Char.isDigit = '.' :: (L.src.dropWhile Char.isDigit).tail := by
      unfold peek at hc
      rw [advance_while_src] at hc
      cases hd : L.src.dropWhile Char.isDigit with
      | nil => rw [hd] at hc; exact absurd hc (by decide)
      | cons d ds =>
        rw [hd] at hc
        simp only [List.headD_cons] at hc
        rw [hc]
        rfl
    have hsplit2 := List.takeWhile_append_dropWhile Char.isDigit
      (L.src.dropWhile Char.isDigit).tail
    have hk : L.pos + (L.src.takeWhile Char.isDigit).length + 1
        + ((L.src.dropWhile Char.isDigit).tail.takeWhile Char.isDigit).length - L.pos - 0
        = (L.src.takeWhile Char.isDigit ++ '.' ::
            (L.src.dropWhile Char.isDigit).tail.takeWhile Char.isDigit).length := by
      simp only [List.length_append, List.length_cons]
      omega
    have hsrc : L.src = (L.src.takeWhile Char.isDigit ++ '.' ::
        (L.src.dropWhile Char.isDigit).tail.takeWhile Char.isDigit)
        ++ (L.src.dropWhile Char.isDigit).tail.dropWhile Char.isDigit := by
      rw [List.append_assoc, List.cons_append, hsplit2, ← hdot, hsplit]
    rw [hk]
    intro c hcm
    have hcm2 : c ∈ (L.src.takeWhile Char.isDigit ++ '.' ::
        (L.src.dropWhile Char.isDigit).tail.takeWhile Char.isDigit) := by
      have ht := List.take_left (L.src.takeWhile Char.isDigit ++ '.' ::
        (L.src.dropWhile Char.isDigit).tail.takeWhile Char.isDigit)
        ((L.src.dropWhile Char.isDigit).tail.dropWhile Char.isDigit)
      rw [← hsrc] at ht
      rw [← ht]
      exact hcm
    rcases List.mem_append.mp hcm2 with h1 | h1
    · exact Or.inl (is_identifier_char_of_digit (List.mem_takeWhile_imp h1))
    · rcases List.mem_cons.mp h1 with h2 | h2
      · exact Or.inr h2
      · exact Or.inl (is_identifier_char_of_digit (List.mem_takeWhile_imp h2))
  · rw [if_neg hc, token_text_advance_while]
    intro c hcm
    exact Or.inl (is_identifier_char_of_digit (List.mem_takeWhile_imp hcm))

/-- A token that is neither a number nor an identifier is plain. -/
theorem Token.plain_of_kind {t : Token} (h1 : t.type ≠ TOKEN_NUMBER)
    (h2 : t.type ≠ TOKEN_IDENTIFIER) : t.plain := by
  intro h
  rcases h with h | h
  · exact absurd h h1
  · exact absurd h h2

/-- The tokens of `single_char` are plain when the kind is neither number nor
identifier. -/
theorem single_char_token_plain (k : TokenType) (text : String) (L : Lexer)
    (h1 : k ≠ TOKEN_NUMBER) (h2 : k ≠ TOKEN_IDENTIFIER) :
    holds (fun t _ => t.plain) (single_char k text L) :=
  holds_ok (Token.plain_of_kind h1 h2)

/-- The tokens of `with_equals` are plain when those of its one-character
alternative are. -/
theorem with_equals_token_plain (k : TokenType) (text : String) (f : Lexer → LexResult)
    (L : Lexer) (h1 : k ≠ TOKEN_NUMBER) (h2 : k ≠ TOKEN_IDENTIFIER)
    (hf : holds (fun t _ => t.plain) (f (advance L))) :
    holds (fun t _ => t.plain) (with_equals k text f L) := by
  unfold with_equals
  exact holds_ite _ (holds_ok (Token.plain_of_kind h1 h2)) hf

/-- The operator tokens are plain. -/
theorem scan_operator_token_plain (L : Lexer) :
    holds (fun t _ => t.plain) (scan_operator L) := by
  unfold scan_operator
  refine holds_ite _ (single_char_token_plain _ _ _ (by decide) (by decide)) ?_
  refine holds_ite _ (single_char_token_plain _ _ _ (by decide) (by decide)) ?_
  refine holds_ite _ (single_char_token_plain _ _ _ (by decide) (by decide)) ?_
  refine holds_ite _ (single_char_token_plain _ _ _ (by decide) (by decide)) ?_
  refine holds_ite _ (single_char_token_plain _ _ _ (by decide) (by decide)) ?_
  refine holds_ite _ (single_char_token_plain _ _ _ (by decide) (by decide)) ?_
  refine holds_ite _ (single_char_token_plain _ _ _ (by decide) (by decide)) ?_
  refine holds_ite _ (single_char_token_plain _ _ _ (by decide) (by decide)) ?_
  refine holds_ite _ (with_equals_token_plain _ _ _ _ (by decide) (by decide)
    (holds_ok (Token.plain_of_kind (by simp) (by simp)))) ?_
  refine holds_ite _ (with_equals_token_plain _ _ _ _ (by decide) (by decide)
    (holds_error _)) ?_
  refine holds_ite _ (with_equals_token_plain _ _ _ _ (by decide) (by decide)
    (holds_ok (Token.plain_of_kind (by simp) (by simp)))) ?_
  exact holds_ite _ (with_equals_token_plain _ _ _ _ (by decide) (by decide)
    (holds_ok (Token.plain_of_kind (by simp) (by simp)))) (holds_error _)

/-- The tokens of the scanner past the white space are plain when those of the
call made after a comment are. -/
theorem scan_at_token_plain (again : Lexer → LexResult) (L : Lexer)
    (hag : holds (fun t _ => t.plain) (again (skip_comment (advance L)))) :
    holds (fun t _ => t.plain) (scan_at again L) := by
  unfold scan_at
  refine holds_ite _ (holds_ok (Token.plain_of_kind (by simp) (by simp))) ?_
  refine holds_ite _ hag ?_
  refine holds_ite _ ?_ ?_
  · unfold identifier_token
    exact holds_ok (fun _ => no_parenthesis_of_chars _ (identifier_text_chars L))
  refine holds_ite _ ?_ ?_
  · unfold number_token
    exact holds_ok (fun _ => no_parenthesis_of_chars _ (number_text_chars L))
  refine holds_ite _ ?_ (scan_operator_token_plain L)
  unfold string_token
  exact holds_ite _ (holds_error _) (holds_ok (Token.plain_of_kind (by simp) (by simp)))

/-- The tokens of a call with any budget are plain. -/
theorem get_next_token_aux_token_plain (n : Nat) : ∀ L : Lexer,
    holds (fun t _ => t.plain) (get_next_token_aux n L) := by
  induction n with
  | zero => intro L; exact holds_error _
  | succ n ih =>
    intro L
    rw [get_next_token_aux]
    refine holds_ite _ ?_ ?_
    · unfold end_of_input
      exact holds_ite _ (holds_ok (Token.plain_of_kind (by simp) (by simp)))
        (holds_ok (Token.plain_of_kind (by simp) (by simp)))
    have hscan : ∀ K : Lexer, holds (fun t _ => t.plain) (scan_token (get_next_token_aux n) K) :=
      fun K => scan_at_token_plain _ _ (ih _)
    by_cases hs : L.at_line_start = true
    · simp only [hs, if_true]
      rw [line_start_eq]
      by_cases hb : peek L.past_spaces = '\n' ∨ peek L.past_spaces = NUL
      · rw [if_pos hb]
        exact ih _
      rw [if_neg hb]
      by_cases hgt : leading_spaces L.src > L.top_width
      · rw [if_pos hgt]
        by_cases hmax : L.indent_stack_top + 1 ≥ MAX_INDENT_LEVELS
        · rw [if_pos hmax]
          exact holds_error _
        · rw [if_neg hmax]
          exact holds_ok (Token.plain_of_kind (by simp) (by simp))
      rw [if_neg hgt]
      by_cases hlt : leading_spaces L.src < L.top_width
      · rw [if_pos hlt]
        exact holds_ok (Token.plain_of_kind (by simp) (by simp))
      · rw [if_neg hlt]
        exact hscan _
    · have hs2 : L.at_line_start = false := by simpa using hs
      simp only [hs2, Bool.false_eq_true, if_false]
      exact hscan _

/-- Every number and identifier token that `get_next_token` returns has a text
without parenthesis. -/
theorem get_next_token_token_plain (L : Lexer) (t : Token) (M : Lexer)
    (h : get_next_token L = .ok (t, M)) : t.plain :=
  get_next_token_aux_token_plain 2 L t M h

/-- The trees that `parse_expression` returns from a parser state fed by the
lexer are expression trees whose numbers and identifiers hold no
parenthesis. -/
theorem parse_expression_leaves (n : Nat) (c : Option Token) (L : Lexer) (P Q : Parser)
    (e : ASTNode) (hP : advance_token c L = .ok P) (h : parse_expression n P = .ok (e, Q)) :
    e.is_expression = true ∧ ∀ v ∈ e.leaf_texts, no_parenthesis v := by
  have hgood : P.current_token.plain :=
    advance_token_ensures Token.plain get_next_token_token_plain c L P hP
  have := (expression_invariant Token.plain
    (fun e => e.is_expression = true ∧ ∀ v ∈ e.leaf_texts, no_parenthesis v)
    get_next_token_token_plain
    (fun t ht hk => ⟨rfl, by
      intro v hv
      simp only [ASTNode.leaf_texts, List.mem_singleton] at hv
      rw [hv]
      exact ht (Or.inl hk)⟩)
    (fun t ht hk => ⟨rfl, by
      intro v hv
      simp only [ASTNode.leaf_texts, List.mem_singleton] at hv
      rw [hv]
      exact ht (Or.inr hk)⟩)
    (fun op l r _ hl hr => ⟨by simp [ASTNode.is_expression, hl.1, hr.1], by
      intro v hv
      simp only [ASTNode.leaf_texts, List.mem_append] at hv
      rcases hv with hv | hv
      · exact hl.2 v hv
      · exact hr.2 v hv⟩) n).1 P hgood (e, Q) h
  exact this.1

/-! ## C18: the text of expressions -/

/-- C18: a binary operation is generated fully parenthesized. For every
operator kind with a target symbol (`+`, `-`, `*`, `/`, `==`, `!=`, `<`, `>`,
`<=`, `>=`) and all children, `generate_expression` prints exactly `(`, the
text of the left child, the symbol between two spaces, the text of the right
child and `)`; for a kind without target symbol it prints the parentheses and
the children only. Consequently, for every expression tree whose numbers and
identifiers hold no parenthesis themselves, the text has balanced parentheses
and holds exactly one `(` and one `)` per binary-operation node; and every
tree that `parse_expression` returns from a parser state fed by the lexer is
such a tree. -/
theorem C18_binary_operation_text :
    (∀ (op : TokenType) (sym : String) (l r : ASTNode), target_symbol op = some sym →
      generate_expression (.bin_op op l r)
        = "(" ++ generate_expression l ++ " " ++ sym ++ " " ++ generate_expression r ++ ")") ∧
    (∀ (op : TokenType) (l r : ASTNode), target_symbol op = none →
      generate_expression (.bin_op op l r)
        = "(" ++ generate_expression l ++ generate_expression r ++ ")") ∧
    (∀ e : ASTNode, e.is_expression = true → (∀ v ∈ e.leaf_texts, no_parenthesis v) →
      balanced (generate_expression e) = true ∧
      (generate_expression e).data.count '(' = e.bin_ops ∧
      (generate_expression e).data.count ')' = e.bin_ops) ∧
    (∀ (n : Nat) (c : Option Token) (L : Lexer) (P Q : Parser) (e : ASTNode),
      advance_token c L = .ok P →
      parse_expression n P = .ok (e, Q) →
      e.is_expression = true ∧ (∀ v ∈ e.leaf_texts, no_parenthesis v) ∧
      balanced (generate_expression e) = true ∧
      (generate_expression e).data.count '(' = e.bin_ops ∧
      (generate_expression e).data.count ')' = e.bin_ops) := by
  have hb : ∀ e : ASTNode, e.is_expression = true → (∀ v ∈ e.leaf_texts, no_parenthesis v) →
      balanced (generate_expression e) = true ∧
      (generate_expression e).data.count '(' = e.bin_ops ∧
      (generate_expression e).data.count ')' = e.bin_ops := by
    intro e he hl
    obtain ⟨h1, h2, h3⟩ := generate_expression_parentheses e he hl
    refine ⟨?_, h2, h3⟩
    have := h1 0 []
    rw [List.append_nil] at this
    exact this
  refine ⟨fun op sym l r h => ?_, fun op l r h => ?_, hb, fun n c L P Q e hP h => ?_⟩
  · rw [generate_expression, operator_text_eq, h]
    simp only [String.append_assoc]
  · rw [generate_expression, operator_text_eq, h]
    simp only [String.append_assoc, String.empty_append]
  · obtain ⟨h1, h2⟩ := parse_expression_leaves n c L P Q e hP h
    exact ⟨h1, h2, hb e h1 h2⟩

/-- Witness of C18: the text of `(1 + 2) * x` and of a comparison. -/
theorem C18_witness :
    generate_expression (.bin_op TOKEN_ASTERISK (.bin_op TOKEN_PLUS (.number "1") (.number "2"))
        (.identifier "x"))
      = "(" ++ generate_expression (.bin_op TOKEN_PLUS (.number "1") (.number "2")) ++ " " ++ "*"
          ++ " " ++ generate_expression (.identifier "x") ++ ")" ∧
    generate_expression (.bin_op TOKEN_ASTERISK (.bin_op TOKEN_PLUS (.number "1") (.number "2"))
      (.identifier "x")) = "((1 + 2) * x)" ∧
    generate_expression (.bin_op TOKEN_LESS_EQUAL (.identifier "a") (.identifier "b"))
      = "(a <= b)" ∧
    balanced "((1 + 2) * x)" = true ∧
    "((1 + 2) * x)".data.count '(' = 2 ∧
    "((1 + 2) * x)".data.count ')' = 2 ∧
    balanced ")(" = false ∧
    balanced "(()" = false ∧
    parse_expression 3 (state_at "x" 0) = .ok (.identifier "x", state_at "x" 1) :=
  ⟨C18_binary_operation_text.1 TOKEN_ASTERISK "*" _ _ rfl, by decide!⟩

/-! ## What the kind of a token tells -/

/-- Away from the end of the input the text is not empty. -/
theorem src_ne_nil_of_peek {L : Lexer} (h : peek L ≠ NUL) : L.src ≠ [] := by
  intro hs
  exact h (by simp [peek, hs])

/-- `advance` never makes the text longer. -/
theorem advance_length_le (L : Lexer) : (advance L).src.length ≤ L.src.length :=
  (advance_suffix L).length_le

/-- Away from the end of the input `advance` consumes a character. -/
theorem advance_length_lt {L : Lexer} (h : peek L ≠ NUL) :
    (advance L).src.length < L.src.length := by
  rw [advance_src]
  cases hs : L.src with
  | nil => exact absurd hs (src_ne_nil_of_peek h)
  | cons c cs => simp

/-- `advance_while` never makes the text longer. -/
theorem advance_while_length_le (p : Char → Bool) (L : Lexer) :
    (advance_while p L).src.length ≤ L.src.length :=
  (advance_while_suffix p L).length_le

/-- `advance_while p` consumes a character where `p` accepts the character
under the cursor, `p` being false at the end of the input. -/
theorem advance_while_length_lt (p : Char → Bool) {L : Lexer} (h : p (peek L) = true)
    (hN : p NUL = false) : (advance_while p L).src.length < L.src.length := by
  rw [advance_while_src]
  cases hs : L.src with
  | nil =>
    have : peek L = NUL := by simp [peek, hs]
    rw [this, hN] at h
    exact absurd h (by simp)
  | cons c cs =>
    have hc : p c = true := by simpa [peek, hs] using h
    rw [List.dropWhile_cons_of_pos hc]
    exact Nat.lt_succ_of_le (List.dropWhile_suffix p).length_le

/-- Two properties of an outcome hold together. -/
theorem holds_and {P Q : Token → Lexer → Prop} {r : LexResult} (h1 : holds P r)
    (h2 : holds Q r) : holds (fun t M => P t M ∧ Q t M) r :=
  fun t M h => ⟨h1 t M h, h2 t M h⟩

/-- A plain step that consumes a character is a scanned step. -/
theorem scanned_of_plain {L M : Lexer} {t : Token} (h : plain L t M ∧ consumed L t M) :
    scanned L t M :=
  ⟨fun he => absurd he h.2.1, fun hM => Or.inr (h.1.2.2 ▸ hM), fun _ _ => h.2.2⟩

/-- A scanned step from a state reached by skipping text is a scanned step
from the state before the skipping. -/
theorem scanned_of_skipped {L K M : Lexer} {t : Token} (h : scanned K t M)
    (hlen : K.src.length ≤ L.src.length)
    (hf : K.at_line_start = true → L.at_line_start = true) : scanned L t M := by
  obtain ⟨h1, h2, h3⟩ := h
  refine ⟨h1, fun hM => ?_, fun a b => Nat.lt_of_lt_of_le (h3 a b) hlen⟩
  rcases h2 hM with h | h
  · exact Or.inl h
  · exact Or.inr (hf h)

/-- `single_char` consumes a character. -/
theorem single_char_consumed (k : TokenType) (text : String) (L : Lexer)
    (hk : k ≠ TOKEN_EOF) (h0 : peek L ≠ NUL) : holds (consumed L) (single_char k text L) :=
  holds_ok ⟨hk, advance_length_lt h0⟩

/-- `with_equals` consumes a character when its one-character alternative
does. -/
theorem with_equals_consumed (k : TokenType) (text : String) (alone : Lexer → LexResult)
    (L : Lexer) (hk : k ≠ TOKEN_EOF) (h0 : peek L ≠ NUL)
    (ha : holds (consumed L) (alone (advance L))) :
    holds (consumed L) (with_equals k text alone L) := by
  unfold with_equals
  exact holds_ite _ (holds_ok ⟨hk, Nat.lt_of_le_of_lt (advance_length_le _)
    (advance_length_lt h0)⟩) ha

/-- `scan_operator` consumes a character. -/
theorem scan_operator_consumed (L : Lexer) : holds (consumed L) (scan_operator L) := by
  unfold scan_operator
  refine holds_ite_of _
    (fun h => single_char_consumed _ _ _ (by decide) (by rw [h]; decide)) (fun _ => ?_)
  refine holds_ite_of _
    (fun h => single_char_consumed _ _ _ (by decide) (by rw [h]; decide)) (fun _ => ?_)
  refine holds_ite_of _
    (fun h => single_char_consumed _ _ _ (by decide) (by rw [h]; decide)) (fun _ => ?_)
  refine holds_ite_of _
    (fun h => single_char_consumed _ _ _ (by decide) (by rw [h]; decide)) (fun _ => ?_)
  refine holds_ite_of _
    (fun h => single_char_consumed _ _ _ (by decide) (by rw [h]; decide)) (fun _ => ?_)
  refine holds_ite_of _
    (fun h => single_char_consumed _ _ _ (by decide) (by rw [h]; decide)) (fun _ => ?_)
  refine holds_ite_of _
    (fun h => single_char_consumed _ _ _ (by decide) (by rw [h]; decide)) (fun _ => ?_)
  refine holds_ite_of _
    (fun h => single_char_consumed _ _ _ (by decide) (by rw [h]; decide)) (fun _ => ?_)
  refine holds_ite_of _ (fun h => with_equals_consumed _ _ _ _ (by decide) (by rw [h]; decide)
    (holds_ok ⟨by simp, advance_length_lt (by rw [h]; decide)⟩)) (fun _ => ?_)
  refine holds_ite_of _ (fun h => with_equals_consumed _ _ _ _ (by decide) (by rw [h]; decide)
    (holds_error _)) (fun _ => ?_)
  refine holds_ite_of _ (fun h => with_equals_consumed _ _ _ _ (by decide) (by rw [h]; decide)
    (holds_ok ⟨by simp, advance_length_lt (by rw [h]; decide)⟩)) (fun _ => ?_)
  exact holds_ite_of _ (fun h => with_equals_consumed _ _ _ _ (by decide) (by rw [h]; decide)
    (holds_ok ⟨by simp, advance_length_lt (by rw [h]; decide)⟩)) (fun _ => holds_error _)

/-- The keyword lookup never gives EOF. -/
theorem keyword_type_ne_eof (text : String) : keyword_type text ≠ TOKEN_EOF := by
  unfold keyword_type
  split_ifs <;> decide

/-- The first character of a word is a character of identifiers. -/
theorem is_identifier_char_of_first {c : Char} (h : (c.isAlpha || decide (c = '_')) = true) :
    is_identifier_char c = true := by
  unfold is_identifier_char
  simp only [Bool.or_eq_true, decide_eq_true_eq] at h ⊢
  rcases h with h | h
  · left
    unfold Char.isAlphanum
    simp [h]
  · exact Or.inr h

/-- The identifier branch consumes a character. -/
theorem identifier_token_consumed (L : Lexer)
    (h : ((peek L).isAlpha || decide (peek L = '_')) = true) :
    holds (consumed L) (identifier_token L (advance_while is_identifier_char L)) := by
  unfold identifier_token
  exact holds_ok ⟨keyword_type_ne_eof _,
    advance_while_length_lt _ (is_identifier_char_of_first h) (by decide)⟩

/-- The number branch consumes a character. -/
theorem number_token_consumed (L : Lexer) (h : (peek L).isDigit = true) :
    holds (consumed L) (number_token L) := by
  unfold number_token
  refine holds_ok ⟨by simp, ?_⟩
  have h1 := advance_while_length_lt Char.isDigit h (by decide)
  unfold number_end
  split
  · exact Nat.lt_of_le_of_lt ((advance_while_length_le _ _).trans (advance_length_le _)) h1
  · exact h1

/-- The string branch consumes a character. -/
theorem string_token_consumed (L : Lexer) (q : Char) (h0 : peek L ≠ NUL) :
    holds (consumed L)
      (string_token (advance L) (advance_while (in_string q) (advance L))) := by
  unfold string_token
  refine holds_ite _ (holds_error _) (holds_ok ⟨by simp, ?_⟩)
  exact Nat.lt_of_le_of_lt ((advance_length_le _).trans (advance_while_length_le _ _))
    (advance_length_lt h0)

/-- The end-of-input branch is a scanned step that stays at the end of the
input. -/
theorem end_of_input_scanned (L : Lexer) (h0 : peek L = NUL) :
    holds (fun t M => scanned L t M ∧ peek M = NUL) (end_of_input L) := by
  unfold end_of_input
  refine holds_ite_of _ (fun h => holds_ok ?_) (fun h => holds_ok ?_)
  · exact ⟨⟨fun he => absurd he (by simp), fun hM => Or.inr hM,
      fun hd => absurd rfl hd⟩, h0⟩
  · exact ⟨⟨fun _ => ⟨by simpa using h, h0⟩, fun hM => Or.inr hM,
      fun _ he => absurd rfl he⟩, h0⟩

/-- The scanner past the white space is a scanned step when the call made
after a comment is. -/
theorem scan_at_scanned (again : Lexer → LexResult) (L : Lexer)
    (hag : holds (scanned (skip_comment (advance L))) (again (skip_comment (advance L)))) :
    holds (scanned L) (scan_at again L) := by
  unfold scan_at
  refine holds_ite_of _ (fun hnl => holds_ok ?_) (fun _ => ?_)
  · exact ⟨fun he => absurd he (by simp), fun _ => Or.inl rfl,
      fun _ _ => advance_length_lt (by rw [hnl]; decide)⟩
  refine holds_ite _ ?_ ?_
  · refine holds_imp hag (fun t M h => scanned_of_skipped h ?_ ?_)
    · exact (advance_while_length_le _ _).trans (advance_length_le L)
    · intro h
      rw [← advance_at_line_start L]
      exact (advance_while_at_line_start _ _ ▸ h)
  refine holds_ite_of _ (fun h => holds_imp
    (holds_and (identifier_token_plain L) (identifier_token_consumed L h))
    (fun _ _ => scanned_of_plain)) (fun _ => ?_)
  refine holds_ite_of _ (fun h => holds_imp
    (holds_and (number_token_plain L) (number_token_consumed L h))
    (fun _ _ => scanned_of_plain)) (fun _ => ?_)
  refine holds_ite_of _ (fun h => holds_imp
    (holds_and (string_token_plain L _) (string_token_consumed L _ ?_))
    (fun _ _ => scanned_of_plain)) (fun _ => ?_)
  · rcases h with h | h <;> rw [h] <;> decide
  exact holds_imp (holds_and (scan_operator_plain L) (scan_operator_consumed L))
    (fun _ _ => scanned_of_plain)

/-- The scanner is a scanned step when the call made after a comment is. -/
theorem scan_token_scanned (again : Lexer → LexResult) (L : Lexer)
    (hag : ∀ K, K.at_line_start = L.at_line_start → holds (scanned K) (again K)) :
    holds (scanned L) (scan_token again L) := by
  unfold scan_token
  have hflag : (skip_whitespace L).at_line_start = L.at_line_start :=
    advance_while_at_line_start _ L
  refine holds_imp (scan_at_scanned again (skip_whitespace L) (hag _ ?_))
    (fun t M h => scanned_of_skipped h (advance_while_length_le _ L) (fun hK => hflag ▸ hK))
  show (advance_while _ (advance (skip_whitespace L))).at_line_start = _
  rw [advance_while_at_line_start, advance_at_line_start, hflag]

/-- A call with a budget of one is a scanned step. -/
theorem get_next_token_aux_one_scanned (L : Lexer) (hs : L.at_line_start = false) :
    holds (scanned L) (get_next_token_aux 1 L) := by
  rw [get_next_token_aux]
  refine holds_ite_of _ (fun h0 => holds_imp (end_of_input_scanned L h0) (fun _ _ h => h.1))
    (fun _ => ?_)
  simp only [hs, Bool.false_eq_true, if_false]
  exact scan_token_scanned _ L (fun K _ => holds_error _)

/-- Away from a line start, a call is a scanned step. -/
theorem get_next_token_scanned (L : Lexer) (hs : L.at_line_start = false) :
    holds (scanned L) (get_next_token L) := by
  unfold get_next_token
  rw [get_next_token_aux]
  refine holds_ite_of _ (fun h0 => holds_imp (end_of_input_scanned L h0) (fun _ _ h => h.1))
    (fun _ => ?_)
  simp only [hs, Bool.false_eq_true, if_false]
  exact scan_token_scanned _ L (fun K hK => get_next_token_aux_one_scanned K (hK.trans hs))

/-- A text is its leading spaces and what follows them. -/
theorem leading_spaces_add_length (s : List Char) :
    leading_spaces s + (after_spaces s).length = s.length := by
  unfold leading_spaces after_spaces
  rw [← List.length_append, List.takeWhile_append_dropWhile]

/-- A scanned step from the state past the leading spaces of a line tells what
`told` says of the call from the start of the line. -/
theorem told_of_scanned_past_spaces {L M : Lexer} {t : Token}
    (h : scanned L.past_spaces t M) : told L t M := by
  obtain ⟨h1, h2, h3⟩ := h
  refine ⟨h1, fun hM => ?_, fun a b => Nat.lt_of_lt_of_le (h3 a b) ?_⟩
  · rcases h2 hM with h | h
    · exact Or.inl h
    · exact absurd h (by simp [Lexer.past_spaces])
  · exact (List.dropWhile_suffix _).length_le

/-- One call of `get_next_token`, whatever the state: see `told`. -/
theorem get_next_token_told (L : Lexer) : holds (told L) (get_next_token L) := by
  by_cases h0 : peek L = NUL
  · rw [get_next_token_at_end L h0]
    refine holds_imp (end_of_input_scanned L h0) (fun t M h => ?_)
    exact ⟨h.1.1, fun _ => Or.inr h.2, h.1.2.2⟩
  by_cases hs : L.at_line_start = true
  · rw [get_next_token_line_start L h0 hs, line_start_eq]
    by_cases hb : peek L.past_spaces = '\n' ∨ peek L.past_spaces = NUL
    · rw [if_pos hb]
      exact holds_imp (get_next_token_aux_one_scanned L.past_spaces rfl)
        (fun _ _ => told_of_scanned_past_spaces)
    rw [if_neg hb]
    by_cases hgt : leading_spaces L.src > L.top_width
    · rw [if_pos hgt]
      by_cases hmax : L.indent_stack_top + 1 ≥ MAX_INDENT_LEVELS
      · rw [if_pos hmax]
        exact holds_error _
      · rw [if_neg hmax]
        refine holds_ok ⟨fun he => absurd he (by simp),
          fun hM => absurd hM (by simp [Lexer.past_spaces]), fun _ _ => ?_⟩
        show (after_spaces L.src).length < L.src.length
        have := leading_spaces_add_length L.src
        omega
    rw [if_neg hgt]
    by_cases hlt : leading_spaces L.src < L.top_width
    · rw [if_pos hlt]
      exact holds_ok ⟨fun he => absurd he (by simp),
        fun hM => absurd hM (by simp [Lexer.past_spaces]), fun hd => absurd rfl hd⟩
    · rw [if_neg hlt]
      exact holds_imp (scan_token_scanned _ L.past_spaces
        (fun K hK => get_next_token_aux_one_scanned K hK))
        (fun _ _ => told_of_scanned_past_spaces)
  · have hs2 : L.at_line_start = false := by simpa using hs
    refine holds_imp (get_next_token_scanned L hs2) (fun t M h => ?_)
    refine ⟨h.1, fun hM => ?_, h.2.2⟩
    rcases h.2.1 hM with h | h
    · exact Or.inl h
    · rw [hs2] at h; exact absurd h (by simp)

/-! ## C24: INDENT and DEDENT are balanced -/

/-- The list of kinds of zero calls. -/
theorem call_kinds_zero (L : Lexer) : call_kinds 0 L = [] := rfl

/-- The kinds of `n + 1` calls, the first of which returns `t` and leaves the
lexer in `M`. -/
theorem call_kinds_succ {L M : Lexer} {t : Token} (n : Nat)
    (h : get_next_token L = .ok (t, M)) : call_kinds (n + 1) L = t.type :: call_kinds n M := by
  rw [call_kinds, h]

/-- The kinds up to EOF of `n + 1` calls, the first of which returns `t` and
leaves the lexer in `M`. -/
theorem token_kinds_succ {L M : Lexer} {t : Token} (n : Nat)
    (h : get_next_token L = .ok (t, M)) :
    token_kinds (n + 1) L
      = if t.type = TOKEN_EOF then [TOKEN_EOF] else t.type :: token_kinds n M := by
  rw [token_kinds, h]

/-- From a state that satisfies the invariant of the stack, the INDENT tokens
of any number of calls and the levels open before them are the DEDENT tokens
and the levels open after them. -/
theorem indent_balance (n : Nat) : ∀ (L M : Lexer), stack_invariant L →
    after_calls n L = .ok M →
    (call_kinds n L).count TOKEN_INDENT + L.indent_stack_top
      = (call_kinds n L).count TOKEN_DEDENT + M.indent_stack_top := by
  induction n with
  | zero =>
    intro L M _ hM
    simp only [after_calls, Except.ok.injEq] at hM
    rw [call_kinds_zero, hM]
    simp
  | succ n ih =>
    intro L M h hM
    have hM2 : (get_next_token L >>= fun r => after_calls n r.2) = .ok M := hM
    cases hr : get_next_token L with
    | error e => rw [hr] at hM2; cases hM2
    | ok r =>
      rw [hr] at hM2
      have hs := get_next_token_step L r.1 r.2 hr
      have hinv := stack_invariant_step h hs
      have hrec := ih r.2 M hinv.1 hM2
      rw [call_kinds_succ n (t := r.1) (M := r.2) hr, List.count_cons, List.count_cons]
      rcases hs.2.2 with ⟨hi, _, _, htop, _, _⟩ | ⟨hd, _, _, _⟩ | hq
      · rw [hi]
        simp only [beq_self_eq_true, if_true]
        rw [if_neg (by decide)]
        omega
      · have := (hinv.2 hd).2
        rw [hd]
        simp only [beq_self_eq_true, if_true]
        rw [if_neg (by decide)]
        omega
      · rw [if_neg (by simpa using hq.1), if_neg (by simpa using hq.2.1)]
        have := hq.2.2.2
        omega

/-- The stack is empty after `init_lexer`. -/
theorem start_indent_stack_top (source_code : String) :
    (start source_code).indent_stack_top = 0 := rfl

/-- The invariant of the stack holds after `init_lexer` in a program that has
just started. -/
theorem stack_invariant_start (source_code : String) : stack_invariant (start source_code) :=
  stack_invariant_init _ _ (by decide)

/-- The kinds up to the first EOF are the kinds of the calls, when the last
of them is EOF. -/
theorem token_kinds_balance (n : Nat) : ∀ (L : Lexer), stack_invariant L →
    (token_kinds n L).getLast? = some TOKEN_EOF →
    (token_kinds n L).count TOKEN_INDENT + L.indent_stack_top
      = (token_kinds n L).count TOKEN_DEDENT := by
  induction n with
  | zero =>
    intro L _ h
    simp [token_kinds] at h
  | succ n ih =>
    intro L hinv h
    cases hr : get_next_token L with
    | error e =>
      rw [token_kinds, hr] at h
      simp at h
    | ok r =>
      obtain ⟨t, M⟩ := r
      rw [token_kinds_succ n hr] at h ⊢
      have hs := get_next_token_step L t M hr
      have ht := get_next_token_told L t M hr
      have hinv2 := stack_invariant_step hinv hs
      by_cases he : t.type = TOKEN_EOF
      · simp only [he, if_true] at h ⊢
        rcases hs.2.2 with ⟨hi, _⟩ | ⟨hd, _⟩ | hq
        · rw [he] at hi; exact absurd hi (by decide)
        · rw [he] at hd; exact absurd hd (by decide)
        · have h0 := (ht.1 he).1
          rw [hq.2.2.2] at h0
          rw [h0]
          decide
      · simp only [he, if_false] at h ⊢
        have hne : token_kinds n M ≠ [] := by
          intro hnil
          rw [hnil] at h
          simp only [List.getLast?_singleton, Option.some.injEq] at h
          exact he h
        have hlast : (t.type :: token_kinds n M).getLast? = (token_kinds n M).getLast? := by
          cases hk : token_kinds n M with
          | nil => exact absurd hk hne
          | cons a as => exact List.getLast?_cons_cons
        rw [hlast] at h
        have hrec := ih M hinv2.1 h
        rw [List.count_cons, List.count_cons]
        rcases hs.2.2 with ⟨hi, _, _, htop, _, _⟩ | ⟨hd, _, _, _⟩ | hq
        · rw [hi]
          simp only [beq_self_eq_true, if_true]
          rw [if_neg (by decide)]
          omega
        · have := (hinv2.2 hd).2
          rw [hd]
          simp only [beq_self_eq_true, if_true]
          rw [if_neg (by decide)]
          omega
        · rw [if_neg (by simpa using hq.1), if_neg (by simpa using hq.2.1)]
          have := hq.2.2.2
          omega

/-- C24: INDENT and DEDENT tokens are balanced. Whatever the source, in a
program that has just started: after any number `n` of calls of
`get_next_token` that have succeeded, the number of INDENT tokens among the `n`
tokens is the number of DEDENT tokens plus `indent_stack_top`, so there are at
most as many DEDENT as INDENT tokens in every prefix of the token stream; a
call that returns EOF is made with `indent_stack_top = 0`; and in a token
stream that ends with its first EOF the two numbers are equal. -/
theorem C24_indent_dedent_balance (source_code : String) :
    (∀ n M, after_calls n (start source_code) = .ok M →
      (call_kinds n (start source_code)).count TOKEN_INDENT
        = (call_kinds n (start source_code)).count TOKEN_DEDENT + M.indent_stack_top ∧
      (call_kinds n (start source_code)).count TOKEN_DEDENT
        ≤ (call_kinds n (start source_code)).count TOKEN_INDENT ∧
      ∀ t M2, get_next_token M = .ok (t, M2) → t.type = TOKEN_EOF →
        M.indent_stack_top = 0 ∧
        (call_kinds n (start source_code)).count TOKEN_INDENT
          = (call_kinds n (start source_code)).count TOKEN_DEDENT) ∧
    (∀ n, (token_kinds n (start source_code)).getLast? = some TOKEN_EOF →
      (token_kinds n (start source_code)).count TOKEN_INDENT
        = (token_kinds n (start source_code)).count TOKEN_DEDENT) := by
  refine ⟨fun n M hM => ?_, fun n h => ?_⟩
  · have hb := indent_balance n _ M (stack_invariant_start source_code) hM
    rw [start_indent_stack_top, Nat.add_zero] at hb
    refine ⟨hb, by omega, fun t M2 h2 he => ?_⟩
    have hs := get_next_token_step M t M2 h2
    have h0 := ((get_next_token_told M t M2 h2).1 he).1
    rcases hs.2.2 with ⟨hi, _⟩ | ⟨hd, _⟩ | hq
    · rw [he] at hi; exact absurd hi (by decide)
    · rw [he] at hd; exact absurd hd (by decide)
    · rw [hq.2.2.2] at h0
      exact ⟨h0, by omega⟩
  · have := token_kinds_balance n _ (stack_invariant_start source_code) h
    rw [start_indent_stack_top, Nat.add_zero] at this
    exact this

/-- Witness of C24: the source `a\n  b\n    c\nd` gives two INDENT tokens and
two DEDENT tokens, one at the line of `d` and one at the end of the input
before EOF; after seven calls two levels are open and no DEDENT has been
returned. -/
theorem C24_witness :
    token_kinds 12 (start "a\n  b\n    c\nd")
      = [TOKEN_IDENTIFIER, TOKEN_NEWLINE, TOKEN_INDENT, TOKEN_IDENTIFIER, TOKEN_NEWLINE,
         TOKEN_INDENT, TOKEN_IDENTIFIER, TOKEN_NEWLINE, TOKEN_DEDENT, TOKEN_IDENTIFIER,
         TOKEN_DEDENT, TOKEN_EOF] ∧
    (token_kinds 12 (start "a\n  b\n    c\nd")).count TOKEN_INDENT
      = (token_kinds 12 (start "a\n  b\n    c\nd")).count TOKEN_DEDENT ∧
    (call_kinds 7 (start "a\n  b\n    c\nd")).count TOKEN_INDENT
      = (call_kinds 7 (start "a\n  b\n    c\nd")).count TOKEN_DEDENT
        + (lexer_after "a\n  b\n    c\nd" 7).indent_stack_top ∧
    (lexer_after "a\n  b\n    c\nd" 7).indent_stack_top = 2 :=
  ⟨by decide!,
   (C24_indent_dedent_balance "a\n  b\n    c\nd").2 12 (by decide!),
   ((C24_indent_dedent_balance "a\n  b\n    c\nd").1 7 (lexer_after "a\n  b\n    c\nd" 7)
      (by decide!)).1,
   by decide!⟩

/-! ## INDENT comes first or after NEWLINE -/

/-- A call that returns INDENT is made at a line start, away from the end of
the input. -/
theorem indent_at_line_start {L M : Lexer} {t : Token} (h : get_next_token L = .ok (t, M))
    (ht : t.type = TOKEN_INDENT) : L.at_line_start = true ∧ peek L ≠ NUL := by
  rcases (get_next_token_step L t M h).2.2 with ⟨_, hs, hgt, _⟩ | ⟨hd, _⟩ | hq
  · refine ⟨hs, fun h0 => ?_⟩
    unfold leading_spaces at hgt
    unfold peek at h0
    cases hsrc : L.src with
    | nil => rw [hsrc] at hgt; simp at hgt
    | cons c cs =>
      rw [hsrc] at hgt h0
      simp only [List.headD_cons] at h0
      rw [h0] at hgt
      have hn : ¬ (NUL = ' ') := by decide
      simp [List.takeWhile_cons, hn] at hgt
  · rw [ht] at hd; exact absurd hd (by decide)
  · exact absurd ht hq.1

/-- The token before an INDENT is NEWLINE. -/
theorem indent_after_newline {L M1 M2 : Lexer} {t1 t2 : Token}
    (h1 : get_next_token L = .ok (t1, M1)) (h2 : get_next_token M1 = .ok (t2, M2))
    (ht : t2.type = TOKEN_INDENT) : t1.type = TOKEN_NEWLINE := by
  obtain ⟨hs, h0⟩ := indent_at_line_start h2 ht
  rcases (get_next_token_told L t1 M1 h1).2.1 hs with h | h
  · exact h
  · exact absurd h h0

/-- In the kinds of the tokens of any number of calls, an INDENT that is not
the first token comes right after a NEWLINE. -/
theorem call_kinds_indent (n : Nat) : ∀ (L : Lexer) (i : Nat),
    (call_kinds n L)[i + 1]? = some TOKEN_INDENT →
    (call_kinds n L)[i]? = some TOKEN_NEWLINE := by
  induction n with
  | zero =>
    intro L i h
    simp [call_kinds] at h
  | succ n ih =>
    intro L i h
    cases hr : get_next_token L with
    | error e => rw [call_kinds, hr] at h; simp at h
    | ok r =>
      obtain ⟨t, M⟩ := r
      rw [call_kinds_succ n hr] at h ⊢
      rw [List.getElem?_cons_succ] at h
      cases i with
      | succ j =>
        rw [List.getElem?_cons_succ]
        exact ih M j h
      | zero =>
        rw [List.getElem?_cons_zero]
        cases n with
        | zero => simp [call_kinds] at h
        | succ k =>
          cases hr2 : get_next_token M with
          | error e => rw [call_kinds, hr2] at h; simp at h
          | ok r2 =>
            obtain ⟨t2, M2⟩ := r2
            rw [call_kinds_succ k hr2, List.getElem?_cons_zero] at h
            simp only [Option.some.injEq] at h
            rw [indent_after_newline hr hr2 h]

/-! ## The tokens of a text under the cursor -/

/-- The longest prefix accepted by `p` of a text that starts with accepted
characters and goes on with a rejected one, and what is left of it. -/
theorem takeWhile_append_stop (p : Char → Bool) : ∀ (a b : List Char),
    (∀ x ∈ a, p x = true) → (∀ x, b.head? = some x → p x = false) →
    (a ++ b).takeWhile p = a ∧ (a ++ b).dropWhile p = b
  | [], b, _, hb => by
    cases b with
    | nil => exact ⟨rfl, rfl⟩
    | cons x xs =>
      have hx := hb x rfl
      simp [List.takeWhile_cons, List.dropWhile_cons, hx]
  | y :: ys, b, ha, hb => by
    have hy : p y = true := ha y (List.mem_cons_self _ _)
    obtain ⟨h1, h2⟩ := takeWhile_append_stop p ys b
      (fun x hx => ha x (List.mem_cons_of_mem _ hx)) hb
    simp [List.takeWhile_cons, List.dropWhile_cons, hy, h1, h2]

/-- Away from a line start and in front of a token, after any number of spaces,
`get_next_token` is the scanner at the first character of the token. -/
theorem get_next_token_mid (L : Lexer) (hf : L.at_line_start = false) (sp : List Char)
    (c : Char) (cs : List Char) (hsp : ∀ x ∈ sp, x = ' ') (hsrc : L.src = sp ++ c :: cs)
    (h1 : c ≠ ' ') (h2 : c ≠ '\t') (h3 : c ≠ NUL) :
    get_next_token L = scan_at (get_next_token_aux 1) (skip_whitespace L) ∧
    (skip_whitespace L).src = c :: cs ∧ (skip_whitespace L).at_line_start = false ∧
    (skip_whitespace L).indent_stack_top = L.indent_stack_top ∧
    peek (skip_whitespace L) = c := by
  have h0 : peek L ≠ NUL := by
    unfold peek
    rw [hsrc]
    cases sp with
    | nil => simpa using h3
    | cons x xs =>
      rw [hsp x (List.mem_cons_self _ _)]
      simp only [List.cons_append, List.headD_cons]
      decide
  have hs : (skip_whitespace L).src = c :: cs := by
    unfold skip_whitespace
    rw [advance_while_src, hsrc]
    exact (takeWhile_append_stop _ sp (c :: cs) (fun x hx => by rw [hsp x hx]; rfl)
      (fun x hx => by
        simp only [List.head?_cons, Option.some.injEq] at hx
        subst hx
        simp [h1, h2])).2
  refine ⟨?_, hs, ?_, advance_while_indent_stack_top _ L, by simp [peek, hs]⟩
  · rw [get_next_token_scans L h0 hf]
    rfl
  · exact (advance_while_at_line_start _ L).trans hf

/-- The scanner at a character that starts neither a line end, a comment, a
word, a number nor a string is the operator `switch`. -/
theorem scan_at_operator (again : Lexer → LexResult) (K : Lexer) (h1 : peek K ≠ '\n')
    (h2 : peek K ≠ '#') (h3 : ((peek K).isAlpha || decide (peek K = '_')) = false)
    (h4 : (peek K).isDigit = false) (h5 : peek K ≠ DQUOTE) (h6 : peek K ≠ SQUOTE) :
    scan_at again K = scan_operator K := by
  unfold scan_at
  rw [if_neg h1, if_neg h2, if_neg (by simp only [h3]; decide),
    if_neg (by simp only [h4]; decide), if_neg (by simp [h5, h6])]

/-- The scanner at `=` that is not followed by `=`: ASSIGN, and the cursor after
it. -/
theorem scan_at_assign (again : Lexer → LexResult) (K : Lexer) (rest : List Char)
    (hsrc : K.src = '=' :: rest) (hrest : rest.head? ≠ some '=') :
    ∃ t, scan_at again K = .ok (t, advance K) ∧ t.type = TOKEN_ASSIGN := by
  have hp : peek K = '=' := by simp [peek, hsrc]
  have hq : peek (advance K) ≠ '=' := by
    unfold peek
    rw [advance_src, hsrc]
    cases rest with
    | nil => simp only [List.tail_cons, List.headD_nil]; decide
    | cons x xs =>
      simp only [List.tail_cons, List.headD_cons]
      intro hx
      exact hrest (by rw [hx]; rfl)
  rw [scan_at_operator again K (by rw [hp]; decide) (by rw [hp]; decide)
    (by rw [hp]; decide) (by rw [hp]; decide) (by rw [hp]; decide) (by rw [hp]; decide)]
  unfold scan_operator
  rw [if_neg (by rw [hp]; decide), if_neg (by rw [hp]; decide), if_neg (by rw [hp]; decide),
    if_neg (by rw [hp]; decide), if_neg (by rw [hp]; decide), if_neg (by rw [hp]; decide),
    if_neg (by rw [hp]; decide), if_neg (by rw [hp]; decide), if_pos hp]
  unfold with_equals
  rw [if_neg hq]
  exact ⟨_, rfl, rfl⟩

/-- What `advance_token` returns when `get_next_token` returns a token. -/
theorem advance_token_of {L M : Lexer} {t : Token} (h : get_next_token L = .ok (t, M)) :
    advance_token none L = .ok ⟨M, t⟩ := by
  show (match get_next_token L with
    | .error e => (.error e : Except Error Parser)
    | .ok r => .ok ⟨r.2, r.1⟩) = _
  rw [h]

/-- `advance_token` over `=` that is not followed by `=`, after any number of
spaces. -/
theorem advance_token_assign (L : Lexer) (hf : L.at_line_start = false)
    (sp rest : List Char) (hsp : ∀ x ∈ sp, x = ' ') (hsrc : L.src = sp ++ '=' :: rest)
    (hrest : rest.head? ≠ some '=') :
    ∃ P, advance_token none L = .ok P ∧ P.kind = TOKEN_ASSIGN ∧ P.after L rest := by
  obtain ⟨hg, hs, hflag, htop, hp⟩ := get_next_token_mid L hf sp '=' rest hsp hsrc
    (by decide) (by decide) (by decide)
  obtain ⟨t, ht, hk⟩ := scan_at_assign (get_next_token_aux 1) (skip_whitespace L) rest hs hrest
  refine ⟨⟨advance (skip_whitespace L), t⟩, advance_token_of (hg.trans ht), hk, ?_, ?_, ?_⟩
  · show (advance (skip_whitespace L)).src = rest
    rw [advance_src, hs]
    rfl
  · exact (advance_at_line_start _).trans hflag
  · exact (advance_indent_stack_top _).trans htop

/-- A text that ends a token starts with no character of a word, no digit and
no decimal point. -/
theorem ends_token_head {rest : List Char} (h : ends_token rest) (x : Char)
    (hx : rest.head? = some x) :
    is_identifier_char x = false ∧ x.isDigit = false ∧ x ≠ '.' := by
  rcases h with h | h | h
  · rw [h] at hx
    simp at hx
  · rw [h] at hx
    simp only [Option.some.injEq] at hx
    subst hx
    decide
  · rw [h] at hx
    simp only [Option.some.injEq] at hx
    subst hx
    decide

/-- `advance_token` over a word, after any number of spaces: the token has the
text of the word and the kind that the keyword set gives it. -/
theorem advance_token_word (L : Lexer) (hf : L.at_line_start = false) (sp rest : List Char)
    (name : String) (hsp : ∀ x ∈ sp, x = ' ')
    (h1 : ((name.data.headD NUL).isAlpha || decide (name.data.headD NUL = '_')) = true)
    (h2 : name.data.all is_identifier_char = true) (hrest : ends_token rest)
    (hsrc : L.src = sp ++ name.data ++ rest) :
    ∃ P, advance_token none L = .ok P ∧ P.kind = keyword_kind name ∧
      P.current_token.value = name ∧ P.after L rest := by
  cases hn : name.data with
  | nil =>
    rw [hn] at h1
    exact absurd h1 (by decide)
  | cons c cs =>
    rw [hn] at h1
    simp only [List.headD_cons] at h1
    have hc : c.isAlpha = true ∨ c = '_' := by simpa using h1
    have hc1 : c ≠ ' ' := by
      rcases hc with h | h
      · intro hx; rw [hx] at h; exact absurd h (by decide)
      · rw [h]; decide
    have hc2 : c ≠ '\t' := by
      rcases hc with h | h
      · intro hx; rw [hx] at h; exact absurd h (by decide)
      · rw [h]; decide
    have hc3 : c ≠ NUL := by
      rcases hc with h | h
      · intro hx; rw [hx] at h; exact absurd h (by decide)
      · rw [h]; decide
    have hsrc2 : L.src = sp ++ c :: (cs ++ rest) := by
      rw [hsrc, hn, List.append_assoc]
      rfl
    obtain ⟨hg, hs, hflag, htop, hp⟩ :=
      get_next_token_mid L hf sp c (cs ++ rest) hsp hsrc2 hc1 hc2 hc3
    have hw := scan_at_word (get_next_token_aux 1) (skip_whitespace L) (by rw [hp]; exact hc)
    have hcut := takeWhile_append_stop is_identifier_char name.data rest
      (fun x hx => List.all_eq_true.mp h2 x hx) (fun x hx => (ends_token_head hrest x hx).1)
    have hs2 : (skip_whitespace L).src = name.data ++ rest := by
      rw [hs, hn]
      rfl
    have hword : word_at (skip_whitespace L).src = name := by
      unfold word_at
      rw [hs2, hcut.1]
    rw [hword] at hw
    refine ⟨_, advance_token_of (hg.trans hw), rfl, rfl, ?_, ?_, ?_⟩
    · show (advance_while is_identifier_char (skip_whitespace L)).src = rest
      rw [advance_while_src, hs2, hcut.2]
    · exact (advance_while_at_line_start _ _).trans hflag
    · exact (advance_while_indent_stack_top _ _).trans htop

/-! ## Where the tokens are stored -/

/-- The kind that the keyword lookup gives a word is one of those of
`Token.on_heap`. -/
theorem keyword_type_on_heap (text v : String) (l c : Nat) :
    (⟨keyword_type text, v, l, c⟩ : Token).on_heap = true := by
  unfold keyword_type
  split_ifs <;> rfl

/-- `Token.on_heap` tells the storage of the branch of `get_next_token` that
returned the token. The branches for words, numbers and strings, which
`malloc` the token, return tokens of which it holds; the operator `switch`,
the end-of-input branch, the line-start block and the NEWLINE branch, which
return the address of a compound literal, return tokens of which it does
not. -/
theorem storage_of_branches :
    (∀ L stop, holds (fun t _ => t.on_heap = true) (identifier_token L stop)) ∧
    (∀ L, holds (fun t _ => t.on_heap = true) (number_token L)) ∧
    (∀ body stop, holds (fun t _ => t.on_heap = true) (string_token body stop)) ∧
    (∀ L, holds (fun t _ => t.on_heap = false) (scan_operator L)) ∧
    (∀ L, holds (fun t _ => t.on_heap = false) (end_of_input L)) ∧
    (∀ L r, line_start L = .returns r → holds (fun t _ => t.on_heap = false) r) ∧
    (∀ again L, peek L = '\n' → holds (fun t _ => t.on_heap = false) (scan_at again L)) := by
  refine ⟨fun L stop => holds_ok (keyword_type_on_heap _ _ _ _), fun L => holds_ok rfl,
    fun body stop => ?_, fun L => ?_, fun L => ?_, fun L r h => ?_, fun again L h => ?_⟩
  · unfold string_token
    exact holds_ite _ (holds_error _) (holds_ok rfl)
  · unfold scan_operator
    refine holds_ite _ (holds_ok rfl) ?_
    refine holds_ite _ (holds_ok rfl) ?_
    refine holds_ite _ (holds_ok rfl) ?_
    refine holds_ite _ (holds_ok rfl) ?_
    refine holds_ite _ (holds_ok rfl) ?_
    refine holds_ite _ (holds_ok rfl) ?_
    refine holds_ite _ (holds_ok rfl) ?_
    refine holds_ite _ (holds_ok rfl) ?_
    refine holds_ite _ (holds_ite _ (holds_ok rfl) (holds_ok rfl)) ?_
    refine holds_ite _ (holds_ite _ (holds_ok rfl) (holds_error _)) ?_
    refine holds_ite _ (holds_ite _ (holds_ok rfl) (holds_ok rfl)) ?_
    exact holds_ite _ (holds_ite _ (holds_ok rfl) (holds_ok rfl)) (holds_error _)
  · unfold end_of_input
    exact holds_ite _ (holds_ok rfl) (holds_ok rfl)
  · rw [line_start_eq] at h
    split at h
    · exact absurd h (by simp)
    split at h
    · split at h
      · simp only [LineStart.returns.injEq] at h
        rw [← h]
        exact holds_error _
      · simp only [LineStart.returns.injEq] at h
        rw [← h]
        exact holds_ok rfl
    split at h
    · simp only [LineStart.returns.injEq] at h
      rw [← h]
      exact holds_ok rfl
    · exact absurd h (by simp)
  · unfold scan_at
    rw [if_pos h]
    exact holds_ok rfl

/-! ## What `advance_token` releases -/

/-- `advance_token` at a current token whose kind is one of those returned as
compound literals ends the run in `free`. -/
theorem Parser.advance_at {P : Parser} {k : TokenType} (hk : P.kind = k)
    (h : (⟨k, "", 0, 0⟩ : Token).on_heap = false) : P.advance = .error .invalid_free := by
  apply Parser.advance_literal
  unfold Token.on_heap at h ⊢
  rw [show P.current_token.type = k from hk]
  exact h

/-- `advance_token` at a word or a number is the call of `get_next_token`. -/
theorem Parser.advance_over {P : Parser} {k : TokenType} (hk : P.kind = k)
    (h : (⟨k, "", 0, 0⟩ : Token).on_heap = true) :
    P.advance = advance_token Option.none P.lexer := by
  apply Parser.advance_heap
  unfold Token.on_heap at h ⊢
  rw [show P.current_token.type = k from hk]
  exact h

/-- `parse_factor` at `(` ends the run in `free`: the token `(` is released by
the call of `advance_token` that consumes it. -/
theorem parse_factor_at_lparen (n : Nat) {P : Parser} (hk : P.kind = TOKEN_LPAREN) :
    parse_factor (n + 1) P = .error .invalid_free := by
  rw [parse_factor, if_neg (by simp [hk]), if_neg (by simp [hk]), if_pos hk,
    Parser.advance_at hk rfl]
  rfl

/-- The loop of `parse_term` at `*` or `/` ends the run in `free`. -/
theorem parse_term_loop_at_operator (n : Nat) (node : ASTNode) {P : Parser}
    (hk : P.kind = TOKEN_ASTERISK ∨ P.kind = TOKEN_SLASH) :
    parse_term_loop (n + 1) node P = .error .invalid_free := by
  rw [parse_term_loop, if_pos hk]
  rcases hk with h | h <;> rw [Parser.advance_at h rfl] <;> rfl

/-- The loop of `parse_expression` at `+` or `-` ends the run in `free`. -/
theorem parse_expression_loop_at_operator (n : Nat) (node : ASTNode) {P : Parser}
    (hk : P.kind = TOKEN_PLUS ∨ P.kind = TOKEN_MINUS) :
    parse_expression_loop (n + 1) node P = .error .invalid_free := by
  rw [parse_expression_loop, if_pos hk]
  rcases hk with h | h <;> rw [Parser.advance_at h rfl] <;> rfl

/-! ## The expression parsers as the program runs them -/

/-- A kind among the four operators of the expression grammar. -/
theorem operator_cases {k : TokenType} :
    k ∈ binary_operators ↔
      (k = TOKEN_ASTERISK ∨ k = TOKEN_SLASH) ∨ (k = TOKEN_PLUS ∨ k = TOKEN_MINUS) := by
  simp only [binary_operators, List.mem_cons, List.mem_singleton, List.not_mem_nil, or_false]
  constructor
  · rintro (h | h | h | h)
    · exact Or.inr (Or.inl h)
    · exact Or.inr (Or.inr h)
    · exact Or.inl (Or.inl h)
    · exact Or.inl (Or.inr h)
  · rintro ((h | h) | (h | h))
    · exact Or.inr (Or.inr (Or.inl h))
    · exact Or.inr (Or.inr (Or.inr h))
    · exact Or.inl h
    · exact Or.inr (Or.inl h)

/-- What `parse_expression` does after a factor `node` that left the parser in
`Q`: it ends the run in `free` when the current token is one of the four
operators, and it returns the factor otherwise. -/
theorem loops_after_factor (n : Nat) (node : ASTNode) (Q : Parser) :
    (parse_term_loop (n + 1) node Q >>= fun r => parse_expression_loop (n + 2) r.1 r.2) =
      if Q.kind ∈ binary_operators then .error .invalid_free else .ok (node, Q) := by
  by_cases h1 : Q.kind = TOKEN_ASTERISK ∨ Q.kind = TOKEN_SLASH
  · rw [parse_term_loop_at_operator n node h1, if_pos (operator_cases.mpr (Or.inl h1))]
    rfl
  · rw [parse_term_loop, if_neg h1]
    show parse_expression_loop (n + 2) node Q = _
    by_cases h2 : Q.kind = TOKEN_PLUS ∨ Q.kind = TOKEN_MINUS
    · rw [parse_expression_loop_at_operator (n + 1) node h2,
        if_pos (operator_cases.mpr (Or.inr h2))]
    · rw [parse_expression_loop, if_neg h2, if_neg]
      intro h
      rcases operator_cases.mp h with h | h
      · exact h1 h
      · exact h2 h

/-- `parse_expression` as the program runs it. At a NUMBER or IDENTIFIER token
it makes the leaf of the token and consumes it; when the next token is one of
`+`, `-`, `*`, `/`, the loop that would build a binary operation calls
`advance_token`, which releases the operator token and ends the run in `free`;
otherwise the leaf is returned. At `(` the run ends in `free` as well, and at
any other token with the diagnostic of `parse_factor`. -/
theorem parse_expression_eq (n : Nat) (P : Parser) :
    parse_expression (n + 3) P =
      if P.kind = TOKEN_NUMBER then
        P.advance >>= fun Q =>
          if Q.kind ∈ binary_operators then .error .invalid_free
          else .ok (.number P.current_token.value, Q)
      else if P.kind = TOKEN_IDENTIFIER then
        P.advance >>= fun Q =>
          if Q.kind ∈ binary_operators then .error .invalid_free
          else .ok (.identifier P.current_token.value, Q)
      else if P.kind = TOKEN_LPAREN then .error .invalid_free
      else .error .unexpected_token_in_factor := by
  rw [parse_expression, parse_term]
  by_cases h1 : P.kind = TOKEN_NUMBER
  · rw [parse_factor, if_pos h1, if_pos h1]
    cases P.advance with
    | error e => rfl
    | ok Q => exact loops_after_factor n _ Q
  rw [if_neg h1]
  by_cases h2 : P.kind = TOKEN_IDENTIFIER
  · rw [parse_factor, if_neg h1, if_pos h2, if_pos h2]
    cases P.advance with
    | error e => rfl
    | ok Q => exact loops_after_factor n _ Q
  rw [if_neg h2]
  by_cases h3 : P.kind = TOKEN_LPAREN
  · rw [parse_factor_at_lparen n h3, if_pos h3]
    rfl
  · rw [parse_factor, if_neg h1, if_neg h2, if_neg h3, if_neg h3]
    rfl

/-- With a budget below three `parse_expression` does not reach
`parse_factor`. -/
theorem parse_expression_short (n : Nat) (hn : n < 3) (P : Parser) :
    parse_expression n P = .error .out_of_fuel := by
  obtain rfl | rfl | rfl : n = 0 ∨ n = 1 ∨ n = 2 := by omega
  · rfl
  · rfl
  · rfl

/-- Every tree that `parse_expression` returns is the leaf of the token it
started at, a NUMBER or an IDENTIFIER; that token is the only one consumed, and
the token after it is none of the four operators. -/
theorem parse_expression_returns {n : Nat} {P Q : Parser} {e : ASTNode}
    (h : parse_expression n P = .ok (e, Q)) :
    ((P.kind = TOKEN_NUMBER ∧ e = .number P.current_token.value) ∨
      (P.kind = TOKEN_IDENTIFIER ∧ e = .identifier P.current_token.value)) ∧
    P.advance = .ok Q ∧ Q.kind ∉ binary_operators := by
  by_cases hn : n < 3
  · rw [parse_expression_short n hn] at h
    exact absurd h (by simp)
  obtain ⟨k, rfl⟩ : ∃ k, n = k + 3 := ⟨n - 3, by omega⟩
  rw [parse_expression_eq] at h
  by_cases h1 : P.kind = TOKEN_NUMBER
  · rw [if_pos h1] at h
    cases ha : P.advance with
    | error e => rw [ha] at h; exact absurd h (by simp [bind, Except.bind])
    | ok Q2 =>
      rw [ha] at h
      by_cases hq : Q2.kind ∈ binary_operators
      · simp only [bind, Except.bind, if_pos hq] at h
        exact absurd h (by simp)
      · simp only [bind, Except.bind, if_neg hq, Except.ok.injEq, Prod.mk.injEq] at h
        obtain ⟨rfl, rfl⟩ := h
        exact ⟨Or.inl ⟨h1, rfl⟩, rfl, hq⟩
  rw [if_neg h1] at h
  by_cases h2 : P.kind = TOKEN_IDENTIFIER
  · rw [if_pos h2] at h
    cases ha : P.advance with
    | error e => rw [ha] at h; exact absurd h (by simp [bind, Except.bind])
    | ok Q2 =>
      rw [ha] at h
      by_cases hq : Q2.kind ∈ binary_operators
      · simp only [bind, Except.bind, if_pos hq] at h
        exact absurd h (by simp)
      · simp only [bind, Except.bind, if_neg hq, Except.ok.injEq, Prod.mk.injEq] at h
        obtain ⟨rfl, rfl⟩ := h
        exact ⟨Or.inr ⟨h2, rfl⟩, rfl, hq⟩
  rw [if_neg h2] at h
  by_cases h3 : P.kind = TOKEN_LPAREN
  · rw [if_pos h3] at h
    exact absurd h (by simp)
  · rw [if_neg h3] at h
    exact absurd h (by simp)

/-- No tree that `parse_expression` returns holds a binary operation. -/
theorem parse_expression_no_operation {n : Nat} {P Q : Parser} {e : ASTNode}
    (h : parse_expression n P = .ok (e, Q)) : e.bin_ops = 0 ∧ e.operators = [] := by
  rcases (parse_expression_returns h).1 with ⟨_, rfl⟩ | ⟨_, rfl⟩ <;> exact ⟨rfl, rfl⟩

/-! ## The statement parsers as the program runs them -/

/-- `parse_variable_declaration` as the program runs it: after `let` or `var`
and the identifier, the call of `advance_token` that consumes `=` releases the
`=` token and ends the run in `free`; `parse_expression` is not reached. -/
theorem parse_variable_declaration_eq (n : Nat) (P : Parser) :
    parse_variable_declaration n P =
      P.advance >>= fun P1 =>
      if P1.kind ≠ TOKEN_IDENTIFIER then .error .expected_identifier_after_let_or_var
      else
        P1.advance >>= fun P2 =>
        if P2.kind ≠ TOKEN_ASSIGN then .error .expected_assign_after_variable_name
        else .error .invalid_free := by
  unfold parse_variable_declaration
  cases P.advance with
  | error e => rfl
  | ok P1 =>
    show (if P1.kind ≠ TOKEN_IDENTIFIER then _ else _) = (if P1.kind ≠ TOKEN_IDENTIFIER then _ else _)
    by_cases h1 : P1.kind ≠ TOKEN_IDENTIFIER
    · rw [if_pos h1, if_pos h1]
    rw [if_neg h1, if_neg h1]
    cases P1.advance with
    | error e => rfl
    | ok P2 =>
      show (if P2.kind ≠ TOKEN_ASSIGN then _ else _) = (if P2.kind ≠ TOKEN_ASSIGN then _ else _)
      by_cases h2 : P2.kind ≠ TOKEN_ASSIGN
      · rw [if_pos h2, if_pos h2]
      rw [if_neg h2, if_neg h2, Parser.advance_at (not_not.mp h2) rfl]
      rfl

/-- `parse_assignment_or_function_call` as the program runs it: at `=` the run
ends in `free`. -/
theorem parse_assignment_or_function_call_eq (n : Nat) (P : Parser) :
    parse_assignment_or_function_call n P =
      P.advance >>= fun P1 =>
      if P1.kind = TOKEN_ASSIGN then .error .invalid_free
      else if P1.kind = TOKEN_LPAREN then .error .function_calls_not_implemented
      else .error .unexpected_token_after_identifier := by
  unfold parse_assignment_or_function_call
  cases P.advance with
  | error e => rfl
  | ok P1 =>
    show (if P1.kind = TOKEN_ASSIGN then _ else _) = (if P1.kind = TOKEN_ASSIGN then _ else _)
    by_cases h1 : P1.kind = TOKEN_ASSIGN
    · rw [if_pos h1, if_pos h1, Parser.advance_at h1 rfl]
      rfl
    · rw [if_neg h1, if_neg h1]

/-- `parse_block` as the program runs it: at INDENT the call of
`advance_token` releases the INDENT token and ends the run in `free`. -/
theorem parse_block_eq (n : Nat) (P : Parser) :
    parse_block (n + 1) P =
      if P.kind ≠ TOKEN_INDENT then .error .expected_indentation else .error .invalid_free := by
  rw [parse_block]
  by_cases h : P.kind ≠ TOKEN_INDENT
  · rw [if_pos h, if_pos h]
  · rw [if_neg h, if_neg h, Parser.advance_at (not_not.mp h) rfl]
    rfl

/-- `parse_function_declaration` as the program runs it: after `func` and the
name, the call of `advance_token` that consumes `:` releases the `:` token and
ends the run in `free`; `parse_block` is not reached. -/
theorem parse_function_declaration_eq (n : Nat) (P : Parser) :
    parse_function_declaration (n + 1) P =
      P.advance >>= fun P1 =>
      if P1.kind ≠ TOKEN_IDENTIFIER then .error .expected_function_name_after_func
      else
        P1.advance >>= fun P2 =>
        if P2.kind = TOKEN_LPAREN then .error .function_parameters_not_implemented
        else if P2.kind ≠ TOKEN_COLON then .error .expected_colon_after_function_name
        else .error .invalid_free := by
  rw [parse_function_declaration]
  cases P.advance with
  | error e => rfl
  | ok P1 =>
    show (if P1.kind ≠ TOKEN_IDENTIFIER then _ else _) = (if P1.kind ≠ TOKEN_IDENTIFIER then _ else _)
    by_cases h1 : P1.kind ≠ TOKEN_IDENTIFIER
    · rw [if_pos h1, if_pos h1]
    rw [if_neg h1, if_neg h1]
    cases P1.advance with
    | error e => rfl
    | ok P2 =>
      show (if P2.kind = TOKEN_LPAREN then _ else _) = (if P2.kind = TOKEN_LPAREN then _ else _)
      by_cases h2 : P2.kind = TOKEN_LPAREN
      · rw [if_pos h2, if_pos h2]
      rw [if_neg h2, if_neg h2]
      by_cases h3 : P2.kind ≠ TOKEN_COLON
      · rw [if_pos h3, if_pos h3]
      rw [if_neg h3, if_neg h3, Parser.advance_at (not_not.mp h3) rfl]
      rfl

/-- `parse_if_statement` as the program runs it: after `if` and the condition,
the call of `advance_token` that consumes `:` releases the `:` token and ends
the run in `free`; neither `parse_block` nor the test for `else` is
reached. -/
theorem parse_if_statement_eq (n : Nat) (P : Parser) :
    parse_if_statement (n + 1) P =
      P.advance >>= fun P1 =>
      parse_expression n P1 >>= fun c =>
      if c.2.kind ≠ TOKEN_COLON then .error .expected_colon_after_if_condition
      else .error .invalid_free := by
  rw [parse_if_statement]
  cases P.advance with
  | error e => rfl
  | ok P1 =>
    show (parse_expression n P1 >>= _) = (parse_expression n P1 >>= _)
    cases parse_expression n P1 with
    | error e => rfl
    | ok c =>
      show (if c.2.kind ≠ TOKEN_COLON then _ else _) = (if c.2.kind ≠ TOKEN_COLON then _ else _)
      by_cases h : c.2.kind ≠ TOKEN_COLON
      · rw [if_pos h, if_pos h]
      rw [if_neg h, if_neg h, Parser.advance_at (not_not.mp h) rfl]
      rfl

/-- `parse_while_statement` as the program runs it: after `while` and the
condition, the call of `advance_token` that consumes `:` releases the `:`
token and ends the run in `free`; `parse_block` is not reached. -/
theorem parse_while_statement_eq (n : Nat) (P : Parser) :
    parse_while_statement (n + 1) P =
      P.advance >>= fun P1 =>
      parse_expression n P1 >>= fun c =>
      if c.2.kind ≠ TOKEN_COLON then .error .expected_colon_after_while_condition
      else .error .invalid_free := by
  rw [parse_while_statement]
  cases P.advance with
  | error e => rfl
  | ok P1 =>
    show (parse_expression n P1 >>= _) = (parse_expression n P1 >>= _)
    cases parse_expression n P1 with
    | error e => rfl
    | ok c =>
      show (if c.2.kind ≠ TOKEN_COLON then _ else _) = (if c.2.kind ≠ TOKEN_COLON then _ else _)
      by_cases h : c.2.kind ≠ TOKEN_COLON
      · rw [if_pos h, if_pos h]
      rw [if_neg h, if_neg h, Parser.advance_at (not_not.mp h) rfl]
      rfl

/-- What fails ensures anything of its value. -/
theorem Ensures.of_fails {α : Type} {Q : α → Prop} {x : Except Error α}
    (h : ∀ a, x ≠ .ok a) : Ensures Q x :=
  fun a ha => absurd ha (h a)

/-- Sequencing never returns when each continuation never returns. -/
theorem never_returns_bind {α β : Type} (x : Except Error α) {f : α → Except Error β}
    (h : ∀ a b, f a ≠ .ok b) : ∀ b, (x >>= f) ≠ .ok b := by
  intro b
  cases x with
  | error e => exact fun hc => by simp [bind, Except.bind] at hc
  | ok a => exact h a b

/-- `parse_variable_declaration` never returns: no declaration node is ever
built. -/
theorem parse_variable_declaration_never_returns (n : Nat) (P : Parser) :
    ∀ r, parse_variable_declaration n P ≠ .ok r := by
  rw [parse_variable_declaration_eq]
  refine never_returns_bind _ (fun P1 r => ?_)
  split
  · simp
  · refine never_returns_bind _ (fun P2 r => ?_) r
    split <;> simp

/-- `parse_assignment_or_function_call` never returns: no assignment node is
ever built. -/
theorem parse_assignment_or_function_call_never_returns (n : Nat) (P : Parser) :
    ∀ r, parse_assignment_or_function_call n P ≠ .ok r := by
  rw [parse_assignment_or_function_call_eq]
  refine never_returns_bind _ (fun P1 r => ?_)
  split
  · simp
  · split <;> simp

/-- `parse_block` never returns: no block node is ever built. -/
theorem parse_block_never_returns (n : Nat) (P : Parser) : ∀ r, parse_block n P ≠ .ok r := by
  intro r
  cases n with
  | zero => simp [parse_block]
  | succ n =>
    rw [parse_block_eq]
    split <;> simp

/-- `parse_function_declaration` never returns: no function-declaration node is
ever built. -/
theorem parse_function_declaration_never_returns (n : Nat) (P : Parser) :
    ∀ r, parse_function_declaration n P ≠ .ok r := by
  cases n with
  | zero => intro r; simp [parse_function_declaration]
  | succ n =>
    rw [parse_function_declaration_eq]
    refine never_returns_bind _ (fun P1 r => ?_)
    split
    · simp
    · refine never_returns_bind _ (fun P2 r => ?_) r
      split
      · simp
      · split <;> simp

/-- `parse_if_statement` never returns: no if-statement node is ever built. -/
theorem parse_if_statement_never_returns (n : Nat) (P : Parser) :
    ∀ r, parse_if_statement n P ≠ .ok r := by
  cases n with
  | zero => intro r; simp [parse_if_statement]
  | succ n =>
    rw [parse_if_statement_eq]
    refine never_returns_bind _ (fun P1 => never_returns_bind _ (fun c r => ?_))
    split <;> simp

/-- `parse_while_statement` never returns: no while-statement node is ever
built. -/
theorem parse_while_statement_never_returns (n : Nat) (P : Parser) :
    ∀ r, parse_while_statement n P ≠ .ok r := by
  cases n with
  | zero => intro r; simp [parse_while_statement]
  | succ n =>
    rw [parse_while_statement_eq]
    refine never_returns_bind _ (fun P1 => never_returns_bind _ (fun c r => ?_))
    split <;> simp

/-- `as_statement` of what never returns never returns. -/
theorem as_statement_never_returns {x : Except Error (ASTNode × Parser)} (h : ∀ r, x ≠ .ok r) :
    ∀ r, as_statement x ≠ .ok r := by
  intro r
  unfold as_statement
  cases x with
  | error e => simp [bind, Except.bind]
  | ok a => exact absurd rfl (h a)

/-! ## What the parser returns -/

/-- `parse_statement` at NEWLINE ends the run in `free`: the NEWLINE token is
released by the call of `advance_token` that skips it. -/
theorem parse_statement_at_newline (n : Nat) {P : Parser} (hk : P.kind = TOKEN_NEWLINE) :
    parse_statement (n + 1) P = .error .invalid_free := by
  rw [parse_statement, if_neg (by simp [hk]), if_neg (by simp [hk]), if_neg (by simp [hk]),
    if_neg (by simp [hk]), if_neg (by simp [hk]), if_neg (by simp [hk]), if_neg (by simp [hk]),
    if_pos hk, Parser.advance_at hk rfl]
  rfl

/-- Every statement that `parse_statement` returns is a number, or the return
of a number or of an identifier. -/
theorem parse_statement_returns (n : Nat) (P : Parser) :
    Ensures (fun r => ∀ s, r.1 = some s → s.is_plain_statement = true) (parse_statement n P) := by
  cases n with
  | zero => exact Ensures.error _
  | succ n =>
    rw [parse_statement]
    refine Ensures.cond _ (fun _ => Ensures.of_fails
      (as_statement_never_returns (parse_variable_declaration_never_returns n P))) (fun _ => ?_)
    refine Ensures.cond _ (fun _ => Ensures.of_fails
      (as_statement_never_returns (parse_assignment_or_function_call_never_returns n P))) (fun hid => ?_)
    refine Ensures.cond _ (fun _ => Ensures.of_fails
      (as_statement_never_returns (parse_function_declaration_never_returns n P))) (fun _ => ?_)
    refine Ensures.cond _ (fun _ => Ensures.of_fails
      (as_statement_never_returns (parse_if_statement_never_returns n P))) (fun _ => ?_)
    refine Ensures.cond _ (fun _ => Ensures.of_fails
      (as_statement_never_returns (parse_while_statement_never_returns n P))) (fun _ => ?_)
    refine Ensures.cond _ (fun _ => Ensures.error _) (fun _ => ?_)
    refine Ensures.cond _ (fun _ => ?_) (fun _ => ?_)
    · refine Ensures.seq (R := fun _ => True) (fun _ _ => trivial) (fun P1 _ => ?_)
      refine Ensures.seq (R := fun r : ASTNode × Parser =>
        (∃ v, r.1 = .number v) ∨ (∃ v, r.1 = .identifier v)) ?_ (fun r hr => ?_)
      · intro r hr
        rcases (parse_expression_returns (P := P1) (Q := r.2) (e := r.1) hr).1 with h | h
        · exact Or.inl ⟨_, h.2⟩
        · exact Or.inr ⟨_, h.2⟩
      · refine Ensures.ok (fun s hs => ?_)
        simp only [Option.some.injEq] at hs
        subst hs
        rcases hr with ⟨v, hv⟩ | ⟨v, hv⟩ <;> rw [hv] <;> rfl
    refine Ensures.cond _ (fun hk => ?_) (fun _ => ?_)
    · rw [Parser.advance_at hk rfl]
      exact Ensures.error _
    refine Ensures.cond _ (fun _ => Ensures.ok (fun s hs => by simp at hs)) (fun _ => ?_)
    unfold as_statement
    refine Ensures.seq (R := fun r : ASTNode × Parser => ∃ v, r.1 = .number v) ?_ (fun r hr => ?_)
    · intro r hr
      rcases (parse_expression_returns (P := P) (Q := r.2) (e := r.1) hr).1 with h | h
      · exact ⟨_, h.2⟩
      · exact absurd h.1 hid
    · refine Ensures.ok (fun s hs => ?_)
      simp only [Option.some.injEq] at hs
      subst hs
      obtain ⟨v, hv⟩ := hr
      rw [hv]
      rfl

/-- The statement list of `parse_program` grows by statements that are numbers
or returns of a number or of an identifier. -/
theorem parse_program_loop_returns (n : Nat) : ∀ (stmts : List ASTNode) (P : Parser),
    (∀ s ∈ stmts, s.is_plain_statement = true) →
    Ensures (fun r => ∀ s ∈ r.1, s.is_plain_statement = true) (parse_program_loop n stmts P) := by
  induction n with
  | zero => intro stmts P _; exact Ensures.error _
  | succ n ih =>
    intro stmts P hs
    rw [parse_program_loop]
    refine Ensures.cond _ (fun _ => ?_) (fun _ => Ensures.ok hs)
    refine Ensures.seq (parse_statement_returns n P) (fun r hr => ih _ _ ?_)
    intro s hmem
    cases hst : r.1 with
    | none =>
      rw [hst] at hmem
      exact hs s hmem
    | some s2 =>
      rw [hst] at hmem
      simp only [append_statement, List.mem_append, List.mem_singleton] at hmem
      rcases hmem with h | h
      · exact hs s h
      · rw [h]
        exact hr s2 hst

/-- Every program that `parse_program` returns is a list of statements each of
which is a number, or the return of a number or of an identifier. -/
theorem parse_program_returns {n : Nat} {L : Lexer} {ast : ASTNode}
    (h : parse_program n L = .ok ast) :
    ∃ stmts, ast = .program stmts ∧ ∀ s ∈ stmts, s.is_plain_statement = true := by
  unfold parse_program at h
  cases ha : advance_token none L with
  | error e => rw [ha] at h; exact absurd h (by simp [bind, Except.bind])
  | ok P =>
    rw [ha] at h
    cases hl : parse_program_loop n [] P with
    | error e =>
      simp only [bind, Except.bind, hl] at h
      exact absurd h (by simp)
    | ok r =>
      simp only [bind, Except.bind, hl, Except.ok.injEq] at h
      exact ⟨r.1, h.symm, parse_program_loop_returns n [] P (fun s hs => by simp at hs) r hl⟩

/-- A statement that is a number, or the return of a number or of an
identifier, holds no function declaration, if-statement, while-statement or
block, and is no declaration, assignment or binary operation. -/
theorem plain_statement_shape {s : ASTNode} (h : s.is_plain_statement = true) :
    s.without_blocks = true ∧ (∀ name m e, s ≠ .var_decl name m e) ∧
      (∀ name e, s ≠ .assignment name e) ∧ (∀ op l r, s ≠ .bin_op op l r) ∧
      (∀ op l r, s ≠ .return_stmt (.bin_op op l r)) := by
  match s, h with
  | .number _, _ => exact ⟨rfl, by simp, by simp, by simp, by simp⟩
  | .return_stmt (.number _), _ => exact ⟨rfl, by simp, by simp, by simp, by simp⟩
  | .return_stmt (.identifier _), _ => exact ⟨rfl, by simp, by simp, by simp, by simp⟩

/-- A list of statements without blocks. -/
theorem all_without_blocks_of : ∀ (stmts : List ASTNode),
    (∀ s ∈ stmts, s.without_blocks = true) → ASTNode.all_without_blocks stmts = true
  | [], _ => rfl
  | s :: rest, h => by
    rw [ASTNode.all_without_blocks, h s (List.mem_cons_self _ _),
      all_without_blocks_of rest (fun x hx => h x (List.mem_cons_of_mem _ hx))]
    rfl

/-! ## What the lexer and the parser fail with -/

/-- A value fails with nothing. -/
theorem Fails.value {α : Type} {ok : Error → Prop} (a : α) : Fails ok (.ok a : Except Error α) :=
  fun e h => absurd h (by simp)

/-- A failure with an error of which `ok` holds. -/
theorem Fails.failure {α : Type} {ok : Error → Prop} {e : Error} (h : ok e) :
    Fails ok (.error e : Except Error α) := by
  intro e2 h2
  simp only [Except.error.injEq] at h2
  exact h2 ▸ h

/-- Sequencing keeps `Fails`. -/
theorem Fails.sequence {α β : Type} {ok : Error → Prop} {x : Except Error α}
    {f : α → Except Error β} (hx : Fails ok x) (hf : ∀ a, x = .ok a → Fails ok (f a)) :
    Fails ok (x >>= f) := by
  cases x with
  | error e =>
    intro e2 h2
    have h3 : (.error e : Except Error β) = .error e2 := h2
    rw [Except.error.injEq] at h3
    exact hx e2 (by rw [h3])
  | ok a => exact hf a rfl

/-- A conditional keeps `Fails`, each branch under its condition. -/
theorem Fails.branch {α : Type} {ok : Error → Prop} (c : Prop) [Decidable c]
    {a b : Except Error α} (ha : c → Fails ok a) (hb : ¬ c → Fails ok b) :
    Fails ok (if c then a else b) := by
  split
  · exact ha ‹_›
  · exact hb ‹_›

/-- `Fails` for a weaker condition. -/
theorem Fails.weaken {α : Type} {ok ok2 : Error → Prop} {x : Except Error α} (h : Fails ok x)
    (hi : ∀ e, ok e → ok2 e) : Fails ok2 x :=
  fun e he => hi e (h e he)

/-- `with_equals` fails only as its alternative does. -/
theorem with_equals_fails {ok : Error → Prop} (k : TokenType) (text : String)
    (alone : Lexer → LexResult) (L : Lexer) (ha : Fails ok (alone (advance L))) :
    Fails ok (with_equals k text alone L) := by
  unfold with_equals
  exact Fails.branch _ (fun _ => Fails.value _) (fun _ => ha)

/-- The operator `switch` fails only with the diagnostics of `!` alone and of
an unknown character. -/
theorem scan_operator_fails (L : Lexer) :
    Fails (fun e => e.is_lexical = true) (scan_operator L) := by
  unfold scan_operator
  refine Fails.branch _ (fun _ => Fails.value _) (fun _ => ?_)
  refine Fails.branch _ (fun _ => Fails.value _) (fun _ => ?_)
  refine Fails.branch _ (fun _ => Fails.value _) (fun _ => ?_)
  refine Fails.branch _ (fun _ => Fails.value _) (fun _ => ?_)
  refine Fails.branch _ (fun _ => Fails.value _) (fun _ => ?_)
  refine Fails.branch _ (fun _ => Fails.value _) (fun _ => ?_)
  refine Fails.branch _ (fun _ => Fails.value _) (fun _ => ?_)
  refine Fails.branch _ (fun _ => Fails.value _) (fun _ => ?_)
  refine Fails.branch _ (fun _ => with_equals_fails _ _ _ _ (Fails.value _)) (fun _ => ?_)
  refine Fails.branch _ (fun _ => with_equals_fails _ _ _ _ (Fails.failure rfl)) (fun _ => ?_)
  refine Fails.branch _ (fun _ => with_equals_fails _ _ _ _ (Fails.value _)) (fun _ => ?_)
  refine Fails.branch _ (fun _ => with_equals_fails _ _ _ _ (Fails.value _)) (fun _ => ?_)
  exact Fails.failure rfl

/-- The scanner fails only with a diagnostic of the lexer, or as the call made
after a comment does. -/
theorem scan_token_fails {ok : Error → Prop} (hok : ∀ e, e.is_lexical = true → ok e)
    (again : Lexer → LexResult) (L : Lexer) (hag : ∀ K, Fails ok (again K)) :
    Fails ok (scan_token again L) := by
  unfold scan_token scan_at
  refine Fails.branch _ (fun _ => Fails.value _) (fun _ => ?_)
  refine Fails.branch _ (fun _ => hag _) (fun _ => ?_)
  refine Fails.branch _ (fun _ => Fails.value _) (fun _ => ?_)
  refine Fails.branch _ (fun _ => Fails.value _) (fun _ => ?_)
  refine Fails.branch _ (fun _ => ?_) (fun _ => (scan_operator_fails _).weaken hok)
  unfold string_token
  exact Fails.branch _ (fun _ => Fails.failure (hok _ rfl)) (fun _ => Fails.value _)

/-- With any budget, `get_next_token` fails only with a diagnostic of the lexer
or by exhausting the budget. -/
theorem get_next_token_aux_fails (n : Nat) : ∀ L : Lexer,
    Fails (fun e => e.is_lexical = true ∨ e = .out_of_fuel) (get_next_token_aux n L) := by
  induction n with
  | zero => intro L; exact Fails.failure (Or.inr rfl)
  | succ n ih =>
    intro L
    rw [get_next_token_aux]
    refine Fails.branch _ (fun _ => ?_) (fun _ => ?_)
    · unfold end_of_input
      exact Fails.branch _ (fun _ => Fails.value _) (fun _ => Fails.value _)
    have hscan : ∀ K, Fails (fun e => e.is_lexical = true ∨ e = .out_of_fuel)
        (scan_token (get_next_token_aux n) K) :=
      fun K => scan_token_fails (fun e he => Or.inl he) _ K ih
    by_cases hs : L.at_line_start = true
    · simp only [hs, if_true]
      rw [line_start_eq]
      by_cases hb : peek L.past_spaces = '\n' ∨ peek L.past_spaces = NUL
      · rw [if_pos hb]
        exact ih _
      rw [if_neg hb]
      by_cases hgt : leading_spaces L.src > L.top_width
      · rw [if_pos hgt]
        by_cases hmax : L.indent_stack_top + 1 ≥ MAX_INDENT_LEVELS
        · rw [if_pos hmax]
          exact Fails.failure (Or.inl rfl)
        · rw [if_neg hmax]
          exact Fails.value _
      rw [if_neg hgt]
      by_cases hlt : leading_spaces L.src < L.top_width
      · rw [if_pos hlt]
        exact Fails.value _
      · rw [if_neg hlt]
        exact hscan _
    · have hs2 : L.at_line_start = false := by simpa using hs
      simp only [hs2, Bool.false_eq_true, if_false]
      exact hscan _

/-- The lexer fails only with its four diagnostics: too many indentation
levels, an unterminated string, `!` alone, an unknown character. -/
theorem get_next_token_fails (L : Lexer) :
    Fails (fun e => e.is_lexical = true) (get_next_token L) := by
  intro e he
  rcases get_next_token_aux_fails 2 L e he with h | h
  · exact h
  · rw [h] at he
    exact absurd he (get_next_token_settled L)

/-- `advance_token` fails only in `free` or with a diagnostic of the lexer. -/
theorem advance_token_fails (c : Option Token) (L : Lexer) :
    Fails (fun e => e = .invalid_free ∨ e.is_lexical = true) (advance_token c L) := by
  unfold advance_token
  refine Fails.sequence ?_ (fun _ _ => ?_)
  · cases c with
    | none => exact Fails.value _
    | some t =>
      show Fails _ (free_token t)
      unfold free_token
      exact Fails.branch _ (fun _ => Fails.value _) (fun _ => Fails.failure (Or.inl rfl))
  · intro e he
    cases hr : get_next_token L with
    | error e2 =>
      rw [hr] at he
      simp only [Except.error.injEq] at he
      exact Or.inr (he ▸ get_next_token_fails L e2 hr)
    | ok r => rw [hr] at he; exact absurd he (by simp)

/-- Neither `free` nor the lexer fails with one of the four guarded
diagnostics of the parser. -/
theorem not_guarded_of_advance {e : Error} (h : e = .invalid_free ∨ e.is_lexical = true) :
    e ∉ guarded_diagnostics := by
  intro hm
  simp only [guarded_diagnostics, List.mem_cons, List.mem_singleton, List.not_mem_nil,
    or_false] at hm
  rcases h with h | h
  · subst h
    rcases hm with h | h | h | h <;> exact absurd h (by decide)
  · rcases hm with rfl | rfl | rfl | rfl <;> exact absurd h (by decide)

/-- `advance_token` in a parser state fails with none of the guarded
diagnostics. -/
theorem Parser.advance_fails (P : Parser) : Fails (fun e => e ∉ guarded_diagnostics) P.advance :=
  (advance_token_fails _ _).weaken (fun _ h => not_guarded_of_advance h)

/-- `parse_expression` fails with none of the guarded diagnostics: the
expected-`)` check of `parse_factor` is not reached. -/
theorem parse_expression_fails (n : Nat) (P : Parser) :
    Fails (fun e => e ∉ guarded_diagnostics) (parse_expression n P) := by
  by_cases hn : n < 3
  · rw [parse_expression_short n hn]
    exact Fails.failure (by decide)
  obtain ⟨k, rfl⟩ : ∃ k, n = k + 3 := ⟨n - 3, by omega⟩
  rw [parse_expression_eq]
  refine Fails.branch _ (fun _ => ?_) (fun _ => ?_)
  · exact Fails.sequence P.advance_fails (fun Q _ =>
      Fails.branch _ (fun _ => Fails.failure (by decide)) (fun _ => Fails.value _))
  refine Fails.branch _ (fun _ => ?_) (fun _ => ?_)
  · exact Fails.sequence P.advance_fails (fun Q _ =>
      Fails.branch _ (fun _ => Fails.failure (by decide)) (fun _ => Fails.value _))
  exact Fails.branch _ (fun _ => Fails.failure (by decide)) (fun _ => Fails.failure (by decide))

/-- `as_statement` keeps `Fails`. -/
theorem Fails.wrapped {ok : Error → Prop} {x : Except Error (ASTNode × Parser)}
    (h : Fails ok x) : Fails ok (as_statement x) :=
  Fails.sequence h (fun _ _ => Fails.value _)

/-- `parse_variable_declaration` fails with none of the guarded
diagnostics. -/
theorem parse_variable_declaration_fails (n : Nat) (P : Parser) :
    Fails (fun e => e ∉ guarded_diagnostics) (parse_variable_declaration n P) := by
  rw [parse_variable_declaration_eq]
  refine Fails.sequence P.advance_fails (fun P1 _ => ?_)
  refine Fails.branch _ (fun _ => Fails.failure (by decide)) (fun _ => ?_)
  refine Fails.sequence P1.advance_fails (fun P2 _ => ?_)
  exact Fails.branch _ (fun _ => Fails.failure (by decide)) (fun _ => Fails.failure (by decide))

/-- `parse_assignment_or_function_call` fails with none of the guarded
diagnostics. -/
theorem parse_assignment_or_function_call_fails (n : Nat) (P : Parser) :
    Fails (fun e => e ∉ guarded_diagnostics) (parse_assignment_or_function_call n P) := by
  rw [parse_assignment_or_function_call_eq]
  refine Fails.sequence P.advance_fails (fun P1 _ => ?_)
  refine Fails.branch _ (fun _ => Fails.failure (by decide)) (fun _ => ?_)
  exact Fails.branch _ (fun _ => Fails.failure (by decide)) (fun _ => Fails.failure (by decide))

/-- `parse_function_declaration` fails with none of the guarded diagnostics:
the checks of `parse_block` are not reached. -/
theorem parse_function_declaration_fails (n : Nat) (P : Parser) :
    Fails (fun e => e ∉ guarded_diagnostics) (parse_function_declaration n P) := by
  cases n with
  | zero => exact Fails.failure (by decide)
  | succ n =>
    rw [parse_function_declaration_eq]
    refine Fails.sequence P.advance_fails (fun P1 _ => ?_)
    refine Fails.branch _ (fun _ => Fails.failure (by decide)) (fun _ => ?_)
    refine Fails.sequence P1.advance_fails (fun P2 _ => ?_)
    refine Fails.branch _ (fun _ => Fails.failure (by decide)) (fun _ => ?_)
    exact Fails.branch _ (fun _ => Fails.failure (by decide)) (fun _ => Fails.failure (by decide))

/-- `parse_if_statement` fails with none of the guarded diagnostics: neither
the checks of `parse_block` nor the expected-`:` check after `else` are
reached. -/
theorem parse_if_statement_fails (n : Nat) (P : Parser) :
    Fails (fun e => e ∉ guarded_diagnostics) (parse_if_statement n P) := by
  cases n with
  | zero => exact Fails.failure (by decide)
  | succ n =>
    rw [parse_if_statement_eq]
    refine Fails.sequence P.advance_fails (fun P1 _ => ?_)
    refine Fails.sequence (parse_expression_fails n P1) (fun c _ => ?_)
    exact Fails.branch _ (fun _ => Fails.failure (by decide)) (fun _ => Fails.failure (by decide))

/-- `parse_while_statement` fails with none of the guarded diagnostics: the
checks of `parse_block` are not reached. -/
theorem parse_while_statement_fails (n : Nat) (P : Parser) :
    Fails (fun e => e ∉ guarded_diagnostics) (parse_while_statement n P) := by
  cases n with
  | zero => exact Fails.failure (by decide)
  | succ n =>
    rw [parse_while_statement_eq]
    refine Fails.sequence P.advance_fails (fun P1 _ => ?_)
    refine Fails.sequence (parse_expression_fails n P1) (fun c _ => ?_)
    exact Fails.branch _ (fun _ => Fails.failure (by decide)) (fun _ => Fails.failure (by decide))

/-- `parse_statement` fails with none of the guarded diagnostics. -/
theorem parse_statement_fails (n : Nat) (P : Parser) :
    Fails (fun e => e ∉ guarded_diagnostics) (parse_statement n P) := by
  cases n with
  | zero => exact Fails.failure (by decide)
  | succ n =>
    rw [parse_statement]
    refine Fails.branch _ (fun _ => (parse_variable_declaration_fails n P).wrapped)
      (fun _ => ?_)
    refine Fails.branch _ (fun _ => (parse_assignment_or_function_call_fails n P).wrapped)
      (fun _ => ?_)
    refine Fails.branch _ (fun _ => (parse_function_declaration_fails n P).wrapped)
      (fun _ => ?_)
    refine Fails.branch _ (fun _ => (parse_if_statement_fails n P).wrapped) (fun _ => ?_)
    refine Fails.branch _ (fun _ => (parse_while_statement_fails n P).wrapped) (fun _ => ?_)
    refine Fails.branch _ (fun _ => Fails.wrapped (Fails.failure (by decide))) (fun _ => ?_)
    refine Fails.branch _ (fun _ => ?_) (fun _ => ?_)
    · refine Fails.sequence P.advance_fails (fun P1 _ => ?_)
      exact Fails.sequence (parse_expression_fails n P1) (fun r _ => Fails.value _)
    refine Fails.branch _ (fun hk => ?_) (fun _ => ?_)
    · rw [Parser.advance_at hk rfl]
      exact Fails.failure (by decide)
    exact Fails.branch _ (fun _ => Fails.value _) (fun _ => (parse_expression_fails n P).wrapped)

/-- The loop of `parse_program` fails with none of the guarded diagnostics. -/
theorem parse_program_loop_fails (n : Nat) : ∀ (stmts : List ASTNode) (P : Parser),
    Fails (fun e => e ∉ guarded_diagnostics) (parse_program_loop n stmts P) := by
  induction n with
  | zero => intro stmts P; exact Fails.failure (by decide)
  | succ n ih =>
    intro stmts P
    rw [parse_program_loop]
    refine Fails.branch _ (fun _ => ?_) (fun _ => Fails.value _)
    exact Fails.sequence (parse_statement_fails n P) (fun r _ => ih _ _)

/-- `parse_program` fails with none of the guarded diagnostics. -/
theorem parse_program_fails (n : Nat) (L : Lexer) :
    Fails (fun e => e ∉ guarded_diagnostics) (parse_program n L) := by
  unfold parse_program
  refine Fails.sequence ((advance_token_fails _ _).weaken (fun _ h => not_guarded_of_advance h))
    (fun P _ => ?_)
  exact Fails.sequence (parse_program_loop_fails n [] P) (fun r _ => Fails.value _)

/-- No run of `main` ends with one of the guarded diagnostics. -/
theorem main_fails (n : Nat) (source_code : String) (e : Error) (he : e ∈ guarded_diagnostics) :
    (main n source_code).failure ≠ some e := by
  unfold main
  cases hp : parse_program n (start source_code) with
  | error e2 =>
    show some e2 ≠ some e
    intro h
    simp only [Option.some.injEq] at h
    exact parse_program_fails n _ e2 hp (h ▸ he)
  | ok ast => exact fun h => by simp at h

/-! ## Runs that end in `free` -/

/-- A run whose parse fails with some budget fails in the same way with any
larger budget, and prints nothing. -/
theorem main_of_parse_error {k : Nat} {source_code : String} {e : Error}
    (h : parse_program k (start source_code) = .error e) (he : e ≠ .out_of_fuel) (fuel : Nat) :
    main (fuel + k) source_code = ⟨"", some e⟩ := by
  unfold main
  rw [parse_program_mono (Nat.le_add_left k fuel) h (by simpa using he)]

/-- A statement that fails makes `parse_program` and `main` fail when it is the
first statement of the source. -/
theorem main_of_first_statement {n : Nat} {source_code : String} {P : Parser} {e : Error}
    (hs : advance_token none (start source_code) = .ok P) (hk : P.kind ≠ TOKEN_EOF)
    (h : parse_statement n P = .error e) :
    parse_program (n + 1) (start source_code) = .error e ∧
      main (n + 1) source_code = ⟨"", some e⟩ := by
  have hp : parse_program (n + 1) (start source_code) = .error e := by
    unfold parse_program
    rw [hs]
    show (parse_program_loop (n + 1) [] P >>= _) = _
    rw [parse_program_loop, if_pos hk, h]
    rfl
  refine ⟨hp, ?_⟩
  unfold main
  rw [hp]

/-- After `func` and a name, at `:`, `parse_function_declaration` ends the run in
`free`. -/
theorem function_header_aborts {P Q R : Parser} (h1 : P.advance = .ok Q)
    (hid : Q.eats TOKEN_IDENTIFIER R) (hc : R.kind = TOKEN_COLON) (n : Nat) :
    parse_function_declaration (n + 1) P = .error .invalid_free := by
  rw [parse_function_declaration_eq, h1]
  show (if Q.kind ≠ TOKEN_IDENTIFIER then _ else _) = _
  rw [if_neg (by simp [hid.1]), hid.2]
  show (if R.kind = TOKEN_LPAREN then _ else _) = _
  rw [if_neg (by simp [hc]), if_neg (by simp [hc])]

/-- After `let` or `var` and a name, at `=`, `parse_variable_declaration` ends
the run in `free`. -/
theorem declaration_aborts {P Q R : Parser} (h1 : P.advance = .ok Q)
    (hid : Q.eats TOKEN_IDENTIFIER R) (hc : R.kind = TOKEN_ASSIGN) (n : Nat) :
    parse_variable_declaration n P = .error .invalid_free := by
  rw [parse_variable_declaration_eq, h1]
  show (if Q.kind ≠ TOKEN_IDENTIFIER then _ else _) = _
  rw [if_neg (by simp [hid.1]), hid.2]
  show (if R.kind ≠ TOKEN_ASSIGN then _ else _) = _
  rw [if_neg (by simp [hc])]

/-! ## C1 -/

/-- C1 (defect of the code): on the source `func main:\n    let x = 5\n    return x`
the pipeline does not succeed. `parse_function_declaration` consumes `func` and
the name and then calls `advance_token` with `:` current; the `:` token is the
address of a compound literal, `free_token` passes it to `free`, and the run
ends there, before `parse_block` is called and with nothing printed, whatever
the fuel (from 3 on). The token after `:` is NEWLINE, and INDENT comes only
after it. -/
theorem C1_function_source_aborts :
    (∀ fuel, main (fuel + 3) "func main:\n    let x = 5\n    return x"
      = ⟨"", some .invalid_free⟩) ∧
    (state_at "func main:\n    let x = 5\n    return x" 2).kind = TOKEN_COLON ∧
    (state_at "func main:\n    let x = 5\n    return x" 2).current_token.on_heap = false ∧
    (state_at "func main:\n    let x = 5\n    return x" 2).advance = .error .invalid_free ∧
    (∀ n, parse_function_declaration (n + 1)
      (state_at "func main:\n    let x = 5\n    return x" 0) = .error .invalid_free) ∧
    token_kinds 14 (start "func main:\n    let x = 5\n    return x")
      = [TOKEN_FUNC, TOKEN_IDENTIFIER, TOKEN_COLON, TOKEN_NEWLINE, TOKEN_INDENT, TOKEN_LET,
         TOKEN_IDENTIFIER, TOKEN_ASSIGN, TOKEN_NUMBER, TOKEN_NEWLINE, TOKEN_RETURN,
         TOKEN_IDENTIFIER, TOKEN_DEDENT, TOKEN_EOF] := by
  refine ⟨main_of_parse_error (k := 3) (by decide!) (by decide), by decide!, by decide!,
    by decide!, fun n => ?_, by decide!⟩
  exact function_header_aborts (Q := state_at "func main:\n    let x = 5\n    return x" 1)
    (R := state_at "func main:\n    let x = 5\n    return x" 2) (by decide!) (by decide!)
    (by decide!) n

/-- A number or an identifier that is followed by one of the four operators:
`parse_expression` ends the run in `free`. -/
theorem number_then_operator_aborts {P Q : Parser}
    (hk : P.kind = TOKEN_NUMBER ∨ P.kind = TOKEN_IDENTIFIER) (ha : P.advance = .ok Q)
    (hq : Q.kind ∈ binary_operators) (n : Nat) :
    parse_expression (n + 3) P = .error .invalid_free := by
  rw [parse_expression_eq]
  rcases hk with hk | hk
  · rw [if_pos hk, ha]
    show (if Q.kind ∈ binary_operators then _ else _) = _
    rw [if_pos hq]
  · rw [if_neg (by simp [hk]), if_pos hk, ha]
    show (if Q.kind ∈ binary_operators then _ else _) = _
    rw [if_pos hq]

/-- A number or an identifier that is followed by none of the four operators
is the whole expression. -/
theorem number_is_expression {P Q : Parser}
    (hk : P.kind = TOKEN_NUMBER ∨ P.kind = TOKEN_IDENTIFIER) (ha : P.advance = .ok Q)
    (hq : Q.kind ∉ binary_operators) (n : Nat) :
    parse_expression (n + 3) P
      = .ok (if P.kind = TOKEN_NUMBER then .number P.current_token.value
             else .identifier P.current_token.value, Q) := by
  rw [parse_expression_eq]
  rcases hk with hk | hk
  · rw [if_pos hk, ha, if_pos hk]
    show (if Q.kind ∈ binary_operators then _ else _) = _
    rw [if_neg hq]
  · rw [if_neg (by simp [hk]), if_pos hk, ha, if_neg (by simp [hk])]
    show (if Q.kind ∈ binary_operators then _ else _) = _
    rw [if_neg hq]

/-- `parse_expression` at `(` ends the run in `free`. -/
theorem parse_expression_at_lparen (n : Nat) {P : Parser} (hk : P.kind = TOKEN_LPAREN) :
    parse_expression (n + 3) P = .error .invalid_free := by
  rw [parse_expression_eq, if_neg (by simp [hk]), if_neg (by simp [hk]), if_pos hk]

/-! ## C2 -/

/-- C2 (defect of the code): no operator is ever parsed. On the source
`let x = 1 + 2 * 3` the run ends in `free` and prints nothing, whatever the
fuel: `parse_variable_declaration` calls `advance_token` with `=` current, and
the `=` token is the address of a compound literal. The expressions
`1 + 2 * 3` and `a * b + c` by themselves fare no better: after the first
factor the loop of `parse_expression` or of `parse_term` calls `advance_token`
with the operator current, and the run ends in `free`. So it is at every `*`,
`/`, `+` and `-`; `parse_variable_declaration` never returns; and no tree that
`parse_expression` returns holds a binary operation. -/
theorem C2_no_operator_is_parsed :
    (∀ fuel, main (fuel + 2) "let x = 1 + 2 * 3" = ⟨"", some .invalid_free⟩) ∧
    (∀ n, parse_variable_declaration n (state_at "let x = 1 + 2 * 3" 0)
      = .error .invalid_free) ∧
    (state_at "let x = 1 + 2 * 3" 2).kind = TOKEN_ASSIGN ∧
    (state_at "let x = 1 + 2 * 3" 2).advance = .error .invalid_free ∧
    (∀ n, parse_expression (n + 3) (state_at "1 + 2 * 3" 0) = .error .invalid_free) ∧
    (∀ n, parse_expression (n + 3) (state_at "a * b + c" 0) = .error .invalid_free) ∧
    (∀ (n : Nat) (node : ASTNode) (P : Parser), P.kind = TOKEN_ASTERISK ∨ P.kind = TOKEN_SLASH →
      parse_term_loop (n + 1) node P = .error .invalid_free) ∧
    (∀ (n : Nat) (node : ASTNode) (P : Parser), P.kind = TOKEN_PLUS ∨ P.kind = TOKEN_MINUS →
      parse_expression_loop (n + 1) node P = .error .invalid_free) ∧
    (∀ (n : Nat) (P : Parser) (r : ASTNode × Parser), parse_variable_declaration n P ≠ .ok r) ∧
    (∀ (n : Nat) (P Q : Parser) (e : ASTNode), parse_expression n P = .ok (e, Q) →
      e.bin_ops = 0) := by
  refine ⟨main_of_parse_error (k := 2) (by decide!) (by decide),
    declaration_aborts (Q := state_at "let x = 1 + 2 * 3" 1)
      (R := state_at "let x = 1 + 2 * 3" 2) (by decide!) (by decide!) (by decide!),
    by decide!, by decide!, fun n => ?_, fun n => ?_,
    fun n node P h => parse_term_loop_at_operator n node h,
    fun n node P h => parse_expression_loop_at_operator n node h,
    parse_variable_declaration_never_returns,
    fun n P Q e h => (parse_expression_no_operation h).1⟩
  · exact number_then_operator_aborts (Q := state_at "1 + 2 * 3" 1) (Or.inl (by decide!))
      (by decide!) (by decide!) n
  · exact number_then_operator_aborts (Q := state_at "a * b + c" 1) (Or.inr (by decide!))
      (by decide!) (by decide!) n

/-- Witness of C2: the states at `*` and at `+` of `1 * 2 + 3`, and the
expression `x`, whose tree is a leaf. -/
theorem C2_witness :
    (state_at "1 * 2 + 3" 1).kind = TOKEN_ASTERISK ∧
    parse_term_loop 1 (.number "1") (state_at "1 * 2 + 3" 1) = .error .invalid_free ∧
    (state_at "1 * 2 + 3" 3).kind = TOKEN_PLUS ∧
    parse_expression_loop 1 (.number "1") (state_at "1 * 2 + 3" 3) = .error .invalid_free ∧
    parse_expression 3 (state_at "x" 0) = .ok (.identifier "x", state_at "x" 1) ∧
    (ASTNode.identifier "x").bin_ops = 0 :=
  ⟨by decide!,
   C2_no_operator_is_parsed.2.2.2.2.2.2.1 0 (.number "1") (state_at "1 * 2 + 3" 1)
     (Or.inl (by decide!)),
   by decide!,
   C2_no_operator_is_parsed.2.2.2.2.2.2.2.1 0 (.number "1") (state_at "1 * 2 + 3" 3)
     (Or.inl (by decide!)),
   by decide!,
   C2_no_operator_is_parsed.2.2.2.2.2.2.2.2.2 3 (state_at "x" 0) (state_at "x" 1)
     (.identifier "x") (by decide!)⟩

/-! ## C3 -/

/-- C3 (defect of the code): no parenthesis is ever parsed. On the source
`var y = (1 + 2) * 3` the run ends in `free` and prints nothing, whatever the
fuel: the `=` token is released by `advance_token`. The expression
`(1 + 2) * 3` by itself, alone or after `return`, fares no better: at `(`
`parse_factor` calls `advance_token`, which releases the `(` token, the address
of a compound literal, and the run ends in `free`. So it is at every `(`, and
every factor that `parse_factor` returns is a number or an identifier. -/
theorem C3_no_parenthesis_is_parsed :
    (∀ fuel, main (fuel + 2) "var y = (1 + 2) * 3" = ⟨"", some .invalid_free⟩) ∧
    (∀ n, parse_variable_declaration n (state_at "var y = (1 + 2) * 3" 0)
      = .error .invalid_free) ∧
    (state_at "(1 + 2) * 3" 0).kind = TOKEN_LPAREN ∧
    (∀ n, parse_expression (n + 3) (state_at "(1 + 2) * 3" 0) = .error .invalid_free) ∧
    (∀ fuel, main (fuel + 5) "return (1 + 2) * 3" = ⟨"", some .invalid_free⟩) ∧
    (∀ (n : Nat) (P : Parser), P.kind = TOKEN_LPAREN →
      parse_factor (n + 1) P = .error .invalid_free) ∧
    (∀ (n : Nat) (P : Parser) (r : ASTNode × Parser), parse_factor n P = .ok r →
      (P.kind = TOKEN_NUMBER ∧ r.1 = .number P.current_token.value) ∨
      (P.kind = TOKEN_IDENTIFIER ∧ r.1 = .identifier P.current_token.value)) := by
  refine ⟨main_of_parse_error (k := 2) (by decide!) (by decide),
    declaration_aborts (Q := state_at "var y = (1 + 2) * 3" 1)
      (R := state_at "var y = (1 + 2) * 3" 2) (by decide!) (by decide!) (by decide!),
    by decide!, fun n => ?_, main_of_parse_error (k := 5) (by decide!) (by decide),
    fun n P h => parse_factor_at_lparen n h, fun n P r h => ?_⟩
  · exact parse_expression_at_lparen n (by decide!)
  · cases n with
    | zero => exact absurd h (by simp [parse_factor])
    | succ n =>
      rw [parse_factor] at h
      by_cases h1 : P.kind = TOKEN_NUMBER
      · rw [if_pos h1] at h
        cases ha : P.advance with
        | error e => rw [ha] at h; exact absurd h (by simp [bind, Except.bind])
        | ok Q =>
          rw [ha] at h
          simp only [bind, Except.bind, Except.ok.injEq] at h
          exact Or.inl ⟨h1, by rw [← h]⟩
      rw [if_neg h1] at h
      by_cases h2 : P.kind = TOKEN_IDENTIFIER
      · rw [if_pos h2] at h
        cases ha : P.advance with
        | error e => rw [ha] at h; exact absurd h (by simp [bind, Except.bind])
        | ok Q =>
          rw [ha] at h
          simp only [bind, Except.bind, Except.ok.injEq] at h
          exact Or.inr ⟨h2, by rw [← h]⟩
      rw [if_neg h2] at h
      by_cases h3 : P.kind = TOKEN_LPAREN
      · rw [if_pos h3, Parser.advance_at h3 rfl] at h
        exact absurd h (by simp [bind, Except.bind])
      · rw [if_neg h3] at h
        exact absurd h (by simp)

/-- Witness of C3: the state at `(` of `(1 + 2) * 3`, and the factor `7`. -/
theorem C3_witness :
    (state_at "(1 + 2) * 3" 0).kind = TOKEN_LPAREN ∧
    parse_factor 1 (state_at "(1 + 2) * 3" 0) = .error .invalid_free ∧
    parse_factor 1 (state_at "7" 0) = .ok (.number "7", state_at "7" 1) ∧
    ((state_at "7" 0).kind = TOKEN_NUMBER ∧
        ASTNode.number "7" = .number (state_at "7" 0).current_token.value ∨
      (state_at "7" 0).kind = TOKEN_IDENTIFIER ∧
        ASTNode.number "7" = .identifier (state_at "7" 0).current_token.value) :=
  ⟨by decide!,
   C3_no_parenthesis_is_parsed.2.2.2.2.2.1 0 (state_at "(1 + 2) * 3" 0) (by decide!),
   by decide!,
   C3_no_parenthesis_is_parsed.2.2.2.2.2.2 1 (state_at "7" 0) (.number "7", state_at "7" 1)
     (by decide!)⟩

/-! ## C16 -/

/-- C16 (defect of the code): no declaration is ever parsed. Wherever the
parser stands at `let` or `var`, the next token is an identifier and the token
after it is `=`: `parse_variable_declaration` calls `advance_token` with `=`
current, the `=` token is released, and the run ends in `free`, with any fuel;
so do `parse_statement` and the statement loops, and when this is the start of
the source, `main` ends in the same way and prints nothing. On `let n = 1` and
`var n = 1` it is so; `parse_variable_declaration` never returns, and no
program that `parse_program` returns holds a declaration. The generator, for
its part, prints a declaration node that is not mutable as
`    const int n = <e>;` and a mutable one as `    int n = <e>;`, `<e>` being
the text of `generate_expression`. -/
theorem C16_no_declaration_is_parsed :
    (∀ (P P1 P2 : Parser), P.kind = TOKEN_LET ∨ P.kind = TOKEN_VAR → P.advance = .ok P1 →
      P1.eats TOKEN_IDENTIFIER P2 → P2.kind = TOKEN_ASSIGN →
      (∀ n, parse_variable_declaration n P = .error .invalid_free) ∧
      (∀ n, parse_statement (n + 1) P = .error .invalid_free) ∧
      (∀ n stmts, parse_program_loop (n + 2) stmts P = .error .invalid_free) ∧
      (∀ n source_code, advance_token none (start source_code) = .ok P →
        parse_program (n + 2) (start source_code) = .error .invalid_free ∧
        main (n + 2) source_code = ⟨"", some .invalid_free⟩)) ∧
    (∀ fuel, main (fuel + 2) "let n = 1" = ⟨"", some .invalid_free⟩) ∧
    (∀ fuel, main (fuel + 2) "var n = 1" = ⟨"", some .invalid_free⟩) ∧
    (∀ (n : Nat) (P : Parser) (r : ASTNode × Parser), parse_variable_declaration n P ≠ .ok r) ∧
    (∀ (n : Nat) (L : Lexer) (stmts : List ASTNode), parse_program n L = .ok (.program stmts) →
      ∀ name m e, .var_decl name m e ∉ stmts) ∧
    (∀ (name : String) (e : ASTNode),
      generate_statement (.var_decl name false e)
        = "    const int " ++ name ++ " = " ++ generate_expression e ++ ";\n" ∧
      generate_statement (.var_decl name true e)
        = "    int " ++ name ++ " = " ++ generate_expression e ++ ";\n") := by
  refine ⟨fun P P1 P2 hk h1 hid hc => ?_, main_of_parse_error (k := 2) (by decide!) (by decide),
    main_of_parse_error (k := 2) (by decide!) (by decide), parse_variable_declaration_never_returns,
    fun n L stmts h name m e hmem => ?_, fun name e => ⟨?_, ?_⟩⟩
  · have hd := declaration_aborts h1 hid hc
    have hs : ∀ n, parse_statement (n + 1) P = .error .invalid_free := by
      intro n
      rw [parse_statement, if_pos hk, hd]
      rfl
    have hne : P.kind ≠ TOKEN_EOF := by rcases hk with h | h <;> rw [h] <;> decide
    refine ⟨hd, hs, fun n stmts => ?_, fun n source_code hstart =>
      main_of_first_statement hstart hne (hs n)⟩
    rw [parse_program_loop, if_pos hne, hs]
    rfl
  · obtain ⟨stmts2, h2, hall⟩ := parse_program_returns h
    simp only [ASTNode.program.injEq] at h2
    subst h2
    exact (plain_statement_shape (hall _ hmem)).2.1 name m e rfl
  · rw [generate_statement]
    simp only [Bool.false_eq_true, if_false, String.append_assoc]
  · rw [generate_statement]
    simp only [if_true, String.append_assoc]

/-- Witness of C16: on `var n = 1` the run ends in `free` and prints nothing,
and the program of `7 return x` holds no declaration. -/
theorem C16_witness :
    main 2 "var n = 1" = ⟨"", some .invalid_free⟩ ∧
    (state_at "var n = 1" 0).kind = TOKEN_VAR ∧
    (state_at "var n = 1" 1).kind = TOKEN_IDENTIFIER ∧
    (state_at "var n = 1" 2).kind = TOKEN_ASSIGN ∧
    parse_program 8 (start "7 return x")
      = .ok (.program [.number "7", .return_stmt (.identifier "x")]) ∧
    ∀ name m e, ASTNode.var_decl name m e ∉ [ASTNode.number "7", .return_stmt (.identifier "x")] :=
  ⟨((C16_no_declaration_is_parsed.1 (state_at "var n = 1" 0) (state_at "var n = 1" 1)
      (state_at "var n = 1" 2) (Or.inr (by decide!)) (by decide!) (by decide!)
      (by decide!)).2.2.2 0 "var n = 1" (by decide!)).2,
   by decide!, by decide!, by decide!, by decide!,
   C16_no_declaration_is_parsed.2.2.2.2.1 8 (start "7 return x") _ (by decide!)⟩

/-! ## C13: comparisons in conditions -/

/-- A comparison operator is none of the four operators of the expression
grammar, and it is not `:`. -/
theorem comparison_not_parsed {k : TokenType} (h : k ∈ comparison_operators) :
    k ∉ binary_operators ∧ k ≠ TOKEN_COLON := by
  simp only [comparison_operators, List.mem_cons, List.mem_singleton, List.not_mem_nil,
    or_false] at h
  rcases h with h | h | h | h | h | h <;> subst h <;> exact ⟨by decide, by decide⟩

/-- At `if`, with enough fuel, `parse_statement` is `parse_if_statement`. -/
theorem parse_statement_at_if (n : Nat) {P : Parser} (hk : P.kind = TOKEN_IF) :
    parse_statement (n + 1) P = as_statement (parse_if_statement n P) := by
  rw [parse_statement, if_neg (by simp [hk]), if_neg (by simp [hk]), if_neg (by simp [hk]),
    if_pos hk]

/-- At `while`, with enough fuel, `parse_statement` is `parse_while_statement`. -/
theorem parse_statement_at_while (n : Nat) {P : Parser} (hk : P.kind = TOKEN_WHILE) :
    parse_statement (n + 1) P = as_statement (parse_while_statement n P) := by
  rw [parse_statement, if_neg (by simp [hk]), if_neg (by simp [hk]), if_neg (by simp [hk]),
    if_neg (by simp [hk]), if_pos hk]

/-- At `func`, with enough fuel, `parse_statement` is
`parse_function_declaration`. -/
theorem parse_statement_at_func (n : Nat) {P : Parser} (hk : P.kind = TOKEN_FUNC) :
    parse_statement (n + 1) P = as_statement (parse_function_declaration n P) := by
  rw [parse_statement, if_neg (by simp [hk]), if_neg (by simp [hk]), if_pos hk]

/-- A statement that fails makes the loop of `parse_program` fail, and
`parse_program` and `main` when it is the first statement of the source. -/
theorem first_statement_fails {P : Parser} {e : Error} {k : Nat}
    (hs : ∀ n, parse_statement (n + k) P = .error e) (hk : P.kind ≠ TOKEN_EOF) :
    (∀ n stmts, parse_program_loop (n + k + 1) stmts P = .error e) ∧
    (∀ n source_code, advance_token none (start source_code) = .ok P →
      parse_program (n + k + 1) (start source_code) = .error e ∧
      main (n + k + 1) source_code = ⟨"", some e⟩) := by
  refine ⟨fun n stmts => ?_, fun n source_code hstart =>
    main_of_first_statement hstart hk (hs n)⟩
  rw [parse_program_loop, if_pos hk, hs]
  rfl

/-- C13 (defect of the code): a comparison in a condition is left unparsed
after a number or an identifier, and not reached after a parenthesis. For
every `if` statement whose condition starts with a number or an identifier
followed by one of `==`, `!=`, `<`, `>`, `<=`, `>=`: `parse_expression`
returns the leaf alone as the condition and leaves the comparison token
current; `parse_if_statement` then fails with the expected-`:` error of the if
condition, and so do `parse_statement`, the loop of `parse_program`,
`parse_program` and `main`, which prints nothing. The same holds of every
`while` statement, with the expected-`:` error of the while condition. But
when the condition starts with `(`, as in `while (a + 1) >= b:`, the run ends
in `free` at the `(` token and no expected-`:` error is raised. No call of
`parse_expression` builds a binary operation with a comparison operator. -/
theorem C13_comparison_is_not_parsed :
    (∀ (P P1 P2 : Parser), P.eats TOKEN_IF P1 →
      P1.kind = TOKEN_NUMBER ∨ P1.kind = TOKEN_IDENTIFIER → P1.advance = .ok P2 →
      P2.kind ∈ comparison_operators →
      (∀ n, parse_expression (n + 3) P1
        = .ok (if P1.kind = TOKEN_NUMBER then .number P1.current_token.value
               else .identifier P1.current_token.value, P2)) ∧
      (∀ n, parse_if_statement (n + 4) P = .error .expected_colon_after_if_condition) ∧
      (∀ n, parse_statement (n + 5) P = .error .expected_colon_after_if_condition) ∧
      (∀ n stmts, parse_program_loop (n + 5 + 1) stmts P
        = .error .expected_colon_after_if_condition) ∧
      (∀ n source_code, advance_token none (start source_code) = .ok P →
        parse_program (n + 5 + 1) (start source_code)
          = .error .expected_colon_after_if_condition ∧
        main (n + 5 + 1) source_code = ⟨"", some .expected_colon_after_if_condition⟩)) ∧
    (∀ (P P1 P2 : Parser), P.eats TOKEN_WHILE P1 →
      P1.kind = TOKEN_NUMBER ∨ P1.kind = TOKEN_IDENTIFIER → P1.advance = .ok P2 →
      P2.kind ∈ comparison_operators →
      (∀ n, parse_expression (n + 3) P1
        = .ok (if P1.kind = TOKEN_NUMBER then .number P1.current_token.value
               else .identifier P1.current_token.value, P2)) ∧
      (∀ n, parse_while_statement (n + 4) P = .error .expected_colon_after_while_condition) ∧
      (∀ n, parse_statement (n + 5) P = .error .expected_colon_after_while_condition) ∧
      (∀ n stmts, parse_program_loop (n + 5 + 1) stmts P
        = .error .expected_colon_after_while_condition) ∧
      (∀ n source_code, advance_token none (start source_code) = .ok P →
        parse_program (n + 5 + 1) (start source_code)
          = .error .expected_colon_after_while_condition ∧
        main (n + 5 + 1) source_code = ⟨"", some .expected_colon_after_while_condition⟩)) ∧
    (∀ (P P1 : Parser), P.eats TOKEN_IF P1 ∨ P.eats TOKEN_WHILE P1 → P1.kind = TOKEN_LPAREN →
      (∀ n, parse_statement (n + 5) P = .error .invalid_free) ∧
      (∀ n source_code, advance_token none (start source_code) = .ok P →
        parse_program (n + 5 + 1) (start source_code) = .error .invalid_free ∧
        main (n + 5 + 1) source_code = ⟨"", some .invalid_free⟩)) ∧
    (∀ fuel, main (fuel + 6) "while (a + 1) >= b:\n  x = 1" = ⟨"", some .invalid_free⟩) ∧
    (∀ fuel, main (fuel + 6) "if a < b:\n  x = 1"
      = ⟨"", some .expected_colon_after_if_condition⟩) ∧
    (∀ (n : Nat) (P Q : Parser) (e : ASTNode), parse_expression n P = .ok (e, Q) →
      e.is_expression = true ∧ ∀ op ∈ e.operators, op ∉ comparison_operators) := by
  refine ⟨fun P P1 P2 hP hk ha hc => ?_, fun P P1 P2 hP hk ha hc => ?_,
    fun P P1 hP hk => ?_, main_of_parse_error (k := 6) (by decide!) (by decide),
    main_of_parse_error (k := 6) (by decide!) (by decide), fun n P Q e h => ?_⟩
  · have hcmp := comparison_not_parsed hc
    have he := number_is_expression hk ha hcmp.1
    have hi : ∀ n, parse_if_statement (n + 4) P = .error .expected_colon_after_if_condition := by
      intro n
      rw [parse_if_statement_eq, hP.2]
      show (parse_expression (n + 3) P1 >>= _) = _
      rw [he]
      show (if P2.kind ≠ TOKEN_COLON then _ else _) = _
      rw [if_pos hcmp.2]
    have hs : ∀ n, parse_statement (n + 5) P = .error .expected_colon_after_if_condition := by
      intro n
      rw [parse_statement_at_if _ hP.1, hi]
      rfl
    have hl := first_statement_fails hs (by rw [hP.1]; decide)
    exact ⟨he, hi, hs, hl.1, hl.2⟩
  · have hcmp := comparison_not_parsed hc
    have he := number_is_expression hk ha hcmp.1
    have hi : ∀ n, parse_while_statement (n + 4) P
        = .error .expected_colon_after_while_condition := by
      intro n
      rw [parse_while_statement_eq, hP.2]
      show (parse_expression (n + 3) P1 >>= _) = _
      rw [he]
      show (if P2.kind ≠ TOKEN_COLON then _ else _) = _
      rw [if_pos hcmp.2]
    have hs : ∀ n, parse_statement (n + 5) P = .error .expected_colon_after_while_condition := by
      intro n
      rw [parse_statement_at_while _ hP.1, hi]
      rfl
    have hl := first_statement_fails hs (by rw [hP.1]; decide)
    exact ⟨he, hi, hs, hl.1, hl.2⟩
  · have hs : ∀ n, parse_statement (n + 5) P = .error .invalid_free := by
      intro n
      rcases hP with hP | hP
      · rw [parse_statement_at_if _ hP.1, parse_if_statement_eq, hP.2]
        show as_statement (parse_expression (n + 3) P1 >>= _) = _
        rw [parse_expression_at_lparen n hk]
        rfl
      · rw [parse_statement_at_while _ hP.1, parse_while_statement_eq, hP.2]
        show as_statement (parse_expression (n + 3) P1 >>= _) = _
        rw [parse_expression_at_lparen n hk]
        rfl
    have hne : P.kind ≠ TOKEN_EOF := by
      rcases hP with hP | hP <;> rw [hP.1] <;> decide
    exact ⟨hs, (first_statement_fails hs hne).2⟩
  · obtain ⟨_, h2⟩ := parse_expression_no_operation h
    rcases (parse_expression_returns h).1 with ⟨_, rfl⟩ | ⟨_, rfl⟩
    · exact ⟨rfl, fun op hop => by rw [h2] at hop; simp at hop⟩
    · exact ⟨rfl, fun op hop => by rw [h2] at hop; simp at hop⟩

/-- Witness of C13: `if a < b:` and `while 1 >= b:` at the start of a source,
and `while (a + 1) >= b:`. -/
theorem C13_witness :
    main 6 "if a < b:\n  x = 1" = ⟨"", some .expected_colon_after_if_condition⟩ ∧
    (state_at "if a < b:\n  x = 1" 2).kind = TOKEN_LESS ∧
    main 6 "while 1 >= b:\n  x = 1" = ⟨"", some .expected_colon_after_while_condition⟩ ∧
    (state_at "while 1 >= b:\n  x = 1" 2).kind = TOKEN_GREATER_EQUAL ∧
    main 6 "while (a + 1) >= b:\n  x = 1" = ⟨"", some .invalid_free⟩ ∧
    (state_at "while (a + 1) >= b:\n  x = 1" 1).kind = TOKEN_LPAREN :=
  ⟨((C13_comparison_is_not_parsed.1 (state_at "if a < b:\n  x = 1" 0)
      (state_at "if a < b:\n  x = 1" 1) (state_at "if a < b:\n  x = 1" 2)
      (by decide!) (by decide!) (by decide!) (by decide!)).2.2.2.2
      0 "if a < b:\n  x = 1" (by decide!)).2,
   by decide!,
   ((C13_comparison_is_not_parsed.2.1 (state_at "while 1 >= b:\n  x = 1" 0)
      (state_at "while 1 >= b:\n  x = 1" 1) (state_at "while 1 >= b:\n  x = 1" 2)
      (by decide!) (by decide!) (by decide!) (by decide!)).2.2.2.2
      0 "while 1 >= b:\n  x = 1" (by decide!)).2,
   by decide!,
   ((C13_comparison_is_not_parsed.2.2.1 (state_at "while (a + 1) >= b:\n  x = 1" 0)
      (state_at "while (a + 1) >= b:\n  x = 1" 1) (Or.inr (by decide!)) (by decide!)).2
      0 "while (a + 1) >= b:\n  x = 1" (by decide!)).2,
   by decide!⟩

/-! ## C14: `elif` after a then-block -/

/-- C14 (defect of the code): the check for `:` after `else` is not reached,
with `elif` or without. In `if a:\n  b\nelif c:\n  d` the `elif` token stands
right after the DEDENT that closes the then-block, and the run does not fail
with the expected-`:`-after-`else` error: it ends in `free` when
`parse_if_statement` calls `advance_token` with the `:` of the `if` line
current, before the then-block is parsed, and prints nothing. For every parser
state, `parse_if_statement` is the condition followed by the expected-`:`
check of the condition and the end of the run in `free`; it never returns, and
neither it nor any run of `main` fails with the expected-`:`-after-`else`
error. -/
theorem C14_else_check_is_not_reached :
    token_kinds 16 (start "if a:\n  b\nelif c:\n  d")
      = [TOKEN_IF, TOKEN_IDENTIFIER, TOKEN_COLON, TOKEN_NEWLINE, TOKEN_INDENT, TOKEN_IDENTIFIER,
         TOKEN_NEWLINE, TOKEN_DEDENT, TOKEN_ELIF, TOKEN_IDENTIFIER, TOKEN_COLON, TOKEN_NEWLINE,
         TOKEN_INDENT, TOKEN_IDENTIFIER, TOKEN_DEDENT, TOKEN_EOF] ∧
    (∀ fuel, main (fuel + 6) "if a:\n  b\nelif c:\n  d" = ⟨"", some .invalid_free⟩) ∧
    (state_at "if a:\n  b\nelif c:\n  d" 2).kind = TOKEN_COLON ∧
    (state_at "if a:\n  b\nelif c:\n  d" 2).advance = .error .invalid_free ∧
    (∀ fuel, main (fuel + 6) "if a:\n  b\nelse:\n  d" = ⟨"", some .invalid_free⟩) ∧
    (∀ (n : Nat) (P : Parser), parse_if_statement (n + 1) P =
      P.advance >>= fun P1 =>
      parse_expression n P1 >>= fun c =>
      if c.2.kind ≠ TOKEN_COLON then .error .expected_colon_after_if_condition
      else .error .invalid_free) ∧
    (∀ (n : Nat) (P : Parser) (r : ASTNode × Parser), parse_if_statement n P ≠ .ok r) ∧
    (∀ (n : Nat) (P : Parser), parse_if_statement n P ≠ .error .expected_colon_after_else) ∧
    (∀ (n : Nat) (source_code : String),
      (main n source_code).failure ≠ some .expected_colon_after_else) := by
  refine ⟨by decide!, main_of_parse_error (k := 6) (by decide!) (by decide), by decide!,
    by decide!, main_of_parse_error (k := 6) (by decide!) (by decide), parse_if_statement_eq,
    parse_if_statement_never_returns, fun n P h => ?_,
    fun n source_code => main_fails n source_code _ (by decide)⟩
  exact parse_if_statement_fails n P _ h (by decide)

/-! ## C22: no block is ever parsed -/

/-- C22 (defect of the code): no block is ever parsed, and `parse_block` is
not reached. For every source, a program that `parse_program` returns holds no
function declaration, if-statement, while-statement or block. In the kinds of
the tokens of any number of calls of `get_next_token`, from any lexer state, an
INDENT that is not the first token comes right after a NEWLINE, so never right
after `:`. At `func`, `if` or `while` `parse_statement` never returns. But it
is not `parse_block` that ends these runs: `parse_function_declaration`,
`parse_if_statement` and `parse_while_statement` call `advance_token` with `:`
current, the `:` token is released, and the run ends in `free` before
`parse_block` is called, as on `if x:\n    y`, `while x:\n    y` and
`func f:\n    y`; no run of `main` fails with the expected-indentation or the
expected-dedentation error. -/
theorem C22_no_block_is_parsed :
    (∀ (n : Nat) (source_code : String) (ast : ASTNode),
      parse_program n (start source_code) = .ok ast → ast.without_blocks = true) ∧
    (∀ (n : Nat) (L : Lexer) (i : Nat), (call_kinds n L)[i + 1]? = some TOKEN_INDENT →
      (call_kinds n L)[i]? = some TOKEN_NEWLINE) ∧
    (∀ (n : Nat) (P : Parser) (r : Option ASTNode × Parser),
      P.kind = TOKEN_FUNC ∨ P.kind = TOKEN_IF ∨ P.kind = TOKEN_WHILE →
      parse_statement n P ≠ .ok r) ∧
    (∀ fuel, main (fuel + 6) "if x:\n    y" = ⟨"", some .invalid_free⟩) ∧
    (∀ fuel, main (fuel + 6) "while x:\n    y" = ⟨"", some .invalid_free⟩) ∧
    (∀ fuel, main (fuel + 3) "func f:\n    y" = ⟨"", some .invalid_free⟩) ∧
    (∀ (n : Nat) (P : Parser), parse_function_declaration (n + 1) P =
      P.advance >>= fun P1 =>
      if P1.kind ≠ TOKEN_IDENTIFIER then .error .expected_function_name_after_func
      else
        P1.advance >>= fun P2 =>
        if P2.kind = TOKEN_LPAREN then .error .function_parameters_not_implemented
        else if P2.kind ≠ TOKEN_COLON then .error .expected_colon_after_function_name
        else .error .invalid_free) ∧
    (∀ (n : Nat) (P : Parser), parse_while_statement (n + 1) P =
      P.advance >>= fun P1 =>
      parse_expression n P1 >>= fun c =>
      if c.2.kind ≠ TOKEN_COLON then .error .expected_colon_after_while_condition
      else .error .invalid_free) ∧
    (∀ (n : Nat) (source_code : String),
      (main n source_code).failure ≠ some .expected_indentation ∧
      (main n source_code).failure ≠ some .expected_dedentation) := by
  refine ⟨fun n source_code ast h => ?_, call_kinds_indent, fun n P r hk => ?_,
    main_of_parse_error (k := 6) (by decide!) (by decide),
    main_of_parse_error (k := 6) (by decide!) (by decide),
    main_of_parse_error (k := 3) (by decide!) (by decide),
    parse_function_declaration_eq, parse_while_statement_eq,
    fun n source_code => ⟨main_fails n source_code _ (by decide),
      main_fails n source_code _ (by decide)⟩⟩
  · obtain ⟨stmts, rfl, hall⟩ := parse_program_returns h
    exact all_without_blocks_of stmts (fun s hs => (plain_statement_shape (hall s hs)).1)
  · cases n with
    | zero => simp [parse_statement]
    | succ n =>
      rcases hk with hk | hk | hk
      · rw [parse_statement_at_func n hk]
        exact as_statement_never_returns (parse_function_declaration_never_returns n P) r
      · rw [parse_statement_at_if n hk]
        exact as_statement_never_returns (parse_if_statement_never_returns n P) r
      · rw [parse_statement_at_while n hk]
        exact as_statement_never_returns (parse_while_statement_never_returns n P) r

/-- Witness of C22: the empty program and a program of two statements hold no
block, and the state at `if` of `if x:\n    y` returns no statement. -/
theorem C22_witness :
    parse_program 6 (start "") = .ok (.program []) ∧
    parse_program 8 (start "7 return x") = .ok (.program [.number "7",
      .return_stmt (.identifier "x")]) ∧
    (ASTNode.program [.number "7", .return_stmt (.identifier "x")]).without_blocks = true ∧
    (state_at "if x:\n    y" 0).kind = TOKEN_IF ∧
    ∀ r, parse_statement 6 (state_at "if x:\n    y" 0) ≠ .ok r :=
  ⟨by decide!, by decide!,
   C22_no_block_is_parsed.1 8 "7 return x" _
     (show parse_program 8 (start "7 return x") = .ok (.program [.number "7",
       .return_stmt (.identifier "x")]) by decide!),
   by decide!,
   fun r => C22_no_block_is_parsed.2.2.1 6 (state_at "if x:\n    y" 0) r
     (Or.inr (Or.inl (by decide!)))⟩

/-! ## C25: chains of operators of one precedence -/

/-- After a number or an identifier, at `*` or `/`, `parse_term` ends the run
in `free`. -/
theorem term_then_operator_aborts {P Q : Parser}
    (hk : P.kind = TOKEN_NUMBER ∨ P.kind = TOKEN_IDENTIFIER) (ha : P.advance = .ok Q)
    (hq : Q.kind = TOKEN_ASTERISK ∨ Q.kind = TOKEN_SLASH) (n : Nat) :
    parse_term (n + 2) P = .error .invalid_free := by
  rw [parse_term, parse_factor]
  rcases hk with hk | hk
  · rw [if_pos hk, ha]
    exact parse_term_loop_at_operator n _ hq
  · rw [if_neg (by simp [hk]), if_pos hk, ha]
    exact parse_term_loop_at_operator n _ hq

/-- C25 (defect of the code): no chain of operators is ever parsed. On
`a - b - c` `parse_expression` makes the leaf of `a`, and the loop of
`parse_expression` calls `advance_token` with the first `-` current; the `-`
token is the address of a compound literal, it is released, and the run ends
in `free` with no tree returned. So it is on `a * b / c` in `parse_term`, on
the source `return a - b - c`, and wherever a number or an identifier is
followed by `+`, `-`, `*` or `/`; no tree that `parse_expression` returns holds
an operator. The generator, for its part, prints the left-nested tree of
`a - b - c` as `((a - b) - c)`. -/
theorem C25_no_chain_is_parsed :
    (∀ n, parse_expression (n + 3) (state_at "a - b - c" 0) = .error .invalid_free) ∧
    (state_at "a - b - c" 1).kind = TOKEN_MINUS ∧
    (state_at "a - b - c" 1).advance = .error .invalid_free ∧
    (∀ n, parse_term (n + 2) (state_at "a * b / c" 0) = .error .invalid_free) ∧
    (∀ fuel, main (fuel + 5) "return a - b - c" = ⟨"", some .invalid_free⟩) ∧
    (∀ (P Q : Parser), P.kind = TOKEN_NUMBER ∨ P.kind = TOKEN_IDENTIFIER → P.advance = .ok Q →
      Q.kind ∈ binary_operators → ∀ n, parse_expression (n + 3) P = .error .invalid_free) ∧
    (∀ (n : Nat) (P Q : Parser) (e : ASTNode), parse_expression n P = .ok (e, Q) →
      e.operators = []) ∧
    generate_expression (.bin_op TOKEN_MINUS
      (.bin_op TOKEN_MINUS (.identifier "a") (.identifier "b")) (.identifier "c"))
      = "((a - b) - c)" := by
  refine ⟨number_then_operator_aborts (Q := state_at "a - b - c" 1) (Or.inr (by decide!))
      (by decide!) (by decide!), by decide!, by decide!,
    term_then_operator_aborts (Q := state_at "a * b / c" 1) (Or.inr (by decide!))
      (by decide!) (Or.inl (by decide!)),
    main_of_parse_error (k := 5) (by decide!) (by decide),
    fun P Q hk ha hq => number_then_operator_aborts hk ha hq,
    fun n P Q e h => (parse_expression_no_operation h).2, by decide!⟩

/-- Witness of C25: `1 + 2` in `parse_expression`. -/
theorem C25_witness :
    (state_at "1 + 2" 0).kind = TOKEN_NUMBER ∧ (state_at "1 + 2" 1).kind = TOKEN_PLUS ∧
    parse_expression 3 (state_at "1 + 2" 0) = .error .invalid_free :=
  ⟨by decide!, by decide!,
   C25_no_chain_is_parsed.2.2.2.2.2.1 (state_at "1 + 2" 0) (state_at "1 + 2" 1)
     (Or.inl (by decide!)) (by decide!) (by decide!) 0⟩

/-! ## C23: the text of an expression after `let v = ` -/

/-- At the start of a first line that begins with a token, `get_next_token` is
the call past the line-start block: no space is counted and the stack is
`[0]`. -/
theorem get_next_token_first_line (L : Lexer) (hs : L.at_line_start = true) (c : Char)
    (cs : List Char) (hsrc : L.src = c :: cs) (h1 : c ≠ ' ') (h2 : c ≠ '\n') (h3 : c ≠ NUL)
    (htop : L.top_width = 0) :
    advance_token none L = advance_token none L.past_spaces ∧ L.past_spaces.src = c :: cs ∧
      L.past_spaces.at_line_start = false ∧
      L.past_spaces.indent_stack_top = L.indent_stack_top := by
  have hlead : leading_spaces L.src = 0 := by
    simp [leading_spaces, hsrc, List.takeWhile_cons, h1]
  have hafter : after_spaces L.src = c :: cs := by
    simp [after_spaces, hsrc, List.dropWhile_cons, h1]
  have h0 : peek L ≠ NUL := by simpa [peek, hsrc] using h3
  have hp : peek L.past_spaces = c := by
    show (after_spaces L.src).headD NUL = c
    rw [hafter]
    rfl
  have hg : get_next_token L = get_next_token L.past_spaces := by
    rw [get_next_token_line_start L h0 hs, line_start_eq,
      if_neg (by rw [hp]; exact fun h => h.elim h2 h3), if_neg (by rw [hlead, htop]; decide),
      if_neg (by rw [hlead, htop]; decide)]
    exact (get_next_token_scans L.past_spaces (by rw [hp]; exact h3) rfl).symm
  refine ⟨?_, hafter, rfl, rfl⟩
  unfold advance_token
  rw [hg]

/-- The tokens of `let v = ` at the start of a source, whatever follows: `let`,
the identifier `v`, and `=`. -/
theorem tokens_of_let_v (text : String) :
    ∃ P P1 P2, advance_token none (start ("let v = " ++ text)) = .ok P ∧
      P.kind = TOKEN_LET ∧ P.advance = .ok P1 ∧ P1.eats TOKEN_IDENTIFIER P2 ∧
      P1.current_token.value = "v" ∧ P2.kind = TOKEN_ASSIGN := by
  have hsrc : (start ("let v = " ++ text)).src
      = 'l' :: ("et".data ++ (' ' :: 'v' :: ' ' :: '=' :: ' ' :: text.data)) := by
    show ("let v = " ++ text).data = _
    rw [String.data_append]
    rfl
  obtain ⟨hadv, hs0, hf0, _⟩ := get_next_token_first_line
    (start ("let v = " ++ text)) rfl 'l' _ hsrc (by decide) (by decide) (by decide) rfl
  obtain ⟨P0, hP0, hk0, _, ha0⟩ := advance_token_word
    (start ("let v = " ++ text)).past_spaces hf0 []
    (' ' :: 'v' :: ' ' :: '=' :: ' ' :: text.data) "let"
    (fun _ hx => absurd hx (List.not_mem_nil _)) (by decide) (by decide)
    (Or.inr (Or.inl rfl)) (by rw [hs0]; rfl)
  obtain ⟨P1, hP1, hk1, hv1, ha1⟩ := advance_token_word P0.lexer ha0.2.1 [' ']
    (' ' :: '=' :: ' ' :: text.data) "v"
    (fun x hx => List.mem_singleton.mp hx) (by decide) (by decide)
    (Or.inr (Or.inl rfl)) (by rw [ha0.1]; rfl)
  obtain ⟨P2, hP2, hk2, _⟩ := advance_token_assign P1.lexer ha1.2.1 [' ']
    (' ' :: text.data) (fun x hx => List.mem_singleton.mp hx)
    (by rw [ha1.1]; rfl) (by simp)
  have hk0let : P0.kind = TOKEN_LET := hk0
  have hk1id : P1.kind = TOKEN_IDENTIFIER := hk1
  refine ⟨P0, P1, P2, hadv.trans hP0, hk0let, ?_, ⟨hk1id, ?_⟩, hv1, hk2⟩
  · rw [Parser.advance_over hk0let rfl]
    exact hP1
  · rw [Parser.advance_over hk1id rfl]
    exact hP2

/-- C23 (defect of the code): nothing parses after `let v = `. For every text,
so for the text that `generate_expression` prints for any tree, the source
`let v = ` followed by the text is not parsed: the lexer returns `let`, the
identifier `v` and `=`, `parse_variable_declaration` calls `advance_token` with
`=` current, the `=` token is released, and the run ends in `free` before one
character of the text is read, with any fuel; no declaration is returned and
nothing is printed. On `let v = 1`, the text of the number `1`, it is so. -/
theorem C23_nothing_reparses :
    (∀ (text : String) (fuel : Nat),
      parse_program (fuel + 2) (start ("let v = " ++ text)) = .error .invalid_free ∧
      main (fuel + 2) ("let v = " ++ text) = ⟨"", some .invalid_free⟩) ∧
    (∀ (e : ASTNode) (fuel : Nat),
      parse_program (fuel + 2) (start ("let v = " ++ generate_expression e))
        = .error .invalid_free) ∧
    generate_expression (.number "1") = "1" ∧
    main 2 "let v = 1" = ⟨"", some .invalid_free⟩ ∧
    (∀ (n : Nat) (L : Lexer) (stmts : List ASTNode), parse_program n L = .ok (.program stmts) →
      ∀ e, .var_decl "v" false e ∉ stmts) := by
  have hgen : ∀ (text : String) (fuel : Nat),
      parse_program (fuel + 2) (start ("let v = " ++ text)) = .error .invalid_free ∧
      main (fuel + 2) ("let v = " ++ text) = ⟨"", some .invalid_free⟩ := by
    intro text fuel
    obtain ⟨P, P1, P2, hP, hk, h1, hid, _, hc⟩ := tokens_of_let_v text
    have hs : parse_statement (fuel + 1) P = .error .invalid_free := by
      rw [parse_statement, if_pos (Or.inl hk), declaration_aborts h1 hid hc]
      rfl
    exact main_of_first_statement hP (by rw [hk]; decide) hs
  refine ⟨hgen, fun e fuel => (hgen _ fuel).1, rfl, by decide!, fun n L stmts h e hmem => ?_⟩
  obtain ⟨stmts2, h2, hall⟩ := parse_program_returns h
  simp only [ASTNode.program.injEq] at h2
  subst h2
  exact (plain_statement_shape (hall _ hmem)).2.1 "v" false e rfl

/-- Witness of C23: the text of `(1.5 * x)`, and a program that is returned. -/
theorem C23_witness :
    generate_expression (.bin_op TOKEN_ASTERISK (.number "1.5") (.identifier "x"))
      = "(1.5 * x)" ∧
    main 2 ("let v = " ++ generate_expression
      (.bin_op TOKEN_ASTERISK (.number "1.5") (.identifier "x"))) = ⟨"", some .invalid_free⟩ ∧
    parse_program 5 (start "return v") = .ok (.program [.return_stmt (.identifier "v")]) ∧
    ∀ e, ASTNode.var_decl "v" false e ∉ [ASTNode.return_stmt (.identifier "v")] :=
  ⟨by decide!, (C23_nothing_reparses.1 _ 0).2, by decide!,
   C23_nothing_reparses.2.2.2.2 5 (start "return v") _ (by decide!)⟩

/-! ## C5: the token after an INDENT -/

/-- The kind that the keyword lookup gives a word is none of INDENT, DEDENT,
NEWLINE, EOF. -/
theorem keyword_type_real (text : String) :
    keyword_type text ≠ TOKEN_INDENT ∧ keyword_type text ≠ TOKEN_DEDENT ∧
      keyword_type text ≠ TOKEN_NEWLINE ∧ keyword_type text ≠ TOKEN_EOF := by
  unfold keyword_type
  split_ifs <;> exact ⟨by decide, by decide, by decide, by decide⟩

/-- The operator `switch` returns none of INDENT, DEDENT, NEWLINE, EOF. -/
theorem scan_operator_real (L : Lexer) :
    holds (fun t _ => t.type ≠ TOKEN_INDENT ∧ t.type ≠ TOKEN_DEDENT ∧ t.type ≠ TOKEN_NEWLINE ∧
      t.type ≠ TOKEN_EOF) (scan_operator L) := by
  have hok : ∀ (k : TokenType) (text : String) (l c : Nat) (M : Lexer),
      (k ≠ TOKEN_INDENT ∧ k ≠ TOKEN_DEDENT ∧ k ≠ TOKEN_NEWLINE ∧ k ≠ TOKEN_EOF) →
      holds (fun t _ => t.type ≠ TOKEN_INDENT ∧ t.type ≠ TOKEN_DEDENT ∧
        t.type ≠ TOKEN_NEWLINE ∧ t.type ≠ TOKEN_EOF) (.ok (⟨k, text, l, c⟩, M)) :=
    fun k text l c M h => holds_ok h
  unfold scan_operator
  refine holds_ite _ (hok _ _ _ _ _ (by decide)) ?_
  refine holds_ite _ (hok _ _ _ _ _ (by decide)) ?_
  refine holds_ite _ (hok _ _ _ _ _ (by decide)) ?_
  refine holds_ite _ (hok _ _ _ _ _ (by decide)) ?_
  refine holds_ite _ (hok _ _ _ _ _ (by decide)) ?_
  refine holds_ite _ (hok _ _ _ _ _ (by decide)) ?_
  refine holds_ite _ (hok _ _ _ _ _ (by decide)) ?_
  refine holds_ite _ (hok _ _ _ _ _ (by decide)) ?_
  refine holds_ite _ (holds_ite _ (hok _ _ _ _ _ (by decide)) (hok _ _ _ _ _ (by decide))) ?_
  refine holds_ite _ (holds_ite _ (hok _ _ _ _ _ (by decide)) (holds_error _)) ?_
  refine holds_ite _ (holds_ite _ (hok _ _ _ _ _ (by decide)) (hok _ _ _ _ _ (by decide))) ?_
  exact holds_ite _ (holds_ite _ (hok _ _ _ _ _ (by decide)) (hok _ _ _ _ _ (by decide)))
    (holds_error _)

/-- The scanner at a character that starts neither a line end nor a comment
returns a token that is none of INDENT, DEDENT, NEWLINE, EOF and that starts at
that character. -/
theorem scan_at_real (again : Lexer → LexResult) (K : Lexer) (h1 : peek K ≠ '\n')
    (h2 : peek K ≠ '#') :
    holds (fun t M => (t.type ≠ TOKEN_INDENT ∧ t.type ≠ TOKEN_DEDENT ∧ t.type ≠ TOKEN_NEWLINE ∧
      t.type ≠ TOKEN_EOF) ∧ M.src.length < K.src.length) (scan_at again K) := by
  unfold scan_at
  rw [if_neg h1, if_neg h2]
  refine holds_ite_of _ (fun h => ?_) (fun _ => ?_)
  · refine holds_and (holds_ok (keyword_type_real _)) ?_
    exact holds_imp (identifier_token_consumed K (by simpa using h)) (fun _ _ h => h.2)
  refine holds_ite_of _ (fun h => ?_) (fun _ => ?_)
  · refine holds_and (holds_ok ⟨by simp, by simp, by simp, by simp⟩) ?_
    exact holds_imp (number_token_consumed K h) (fun _ _ h => h.2)
  refine holds_ite_of _ (fun h => ?_) (fun _ => ?_)
  · have h0 : peek K ≠ NUL := by
      rcases h with h | h <;> rw [h] <;> decide
    refine holds_and ?_ (holds_imp (string_token_consumed K _ h0) (fun _ _ h => h.2))
    unfold string_token
    exact holds_ite _ (holds_error _) (holds_ok ⟨by simp, by simp, by simp, by simp⟩)
  · exact holds_and (scan_operator_real K)
      (holds_imp (scan_operator_consumed K) (fun _ _ h => h.2))

/-- Away from a comment the scanner does not use the call made after a
comment. -/
theorem scan_at_congr (a b : Lexer → LexResult) (K : Lexer) (h : peek K ≠ '#') :
    scan_at a K = scan_at b K := by
  unfold scan_at
  rw [if_neg h, if_neg h]

/-- C5 as amended: a deeper line pushes its leading-space count and gives
exactly one INDENT, while there is room in `indent_levels`, and the next call
scans at the first character after the white space of the line. At a line
start, on a line that is not blank and whose leading-space count is greater
than the top of the indentation stack, with `indent_stack_top + 1 <
MAX_INDENT_LEVELS`, `get_next_token` returns INDENT and leaves the count
pushed on the stack and the cursor on the first character after the leading
spaces. The next call does no indentation processing: it is the scanner at the
first character after the spaces and tabs of the line, where
`skip_whitespace` leaves the cursor. When that character
starts neither a comment nor the end of the line, the call is the scan of the
token that starts there: it returns that token, which is none of INDENT,
DEDENT, NEWLINE, EOF, or fails with a diagnostic of the lexer; it returns
when the character is a letter, an underscore or a digit. When a comment
starts there, the call returns NEWLINE when a newline ends the comment, and
the DEDENT of the end-of-input flush, which pops the level just pushed, when
the comment runs to the end of the input. When the end of the line is there,
the call returns NEWLINE. A token other than that DEDENT leaves the stack as
it is. -/
theorem C5_indent_is_pushed_once (L : Lexer)
    (hstart : L.at_line_start = true) (hnb : starts_nonblank L.src)
    (hgt : leading_spaces L.src > L.top_width)
    (hroom : L.indent_stack_top + 1 < MAX_INDENT_LEVELS)
    (hsize : L.indent_levels.length = MAX_INDENT_LEVELS) :
    ∃ L1, get_next_token L
        = .ok (⟨TOKEN_INDENT, "<INDENT>", L.line, L.column + leading_spaces L.src⟩, L1) ∧
      L1.stack = L.stack ++ [leading_spaces L.src] ∧
      L1.top_width = leading_spaces L.src ∧
      L1.src = after_spaces L.src ∧
      get_next_token L1 = scan_token get_next_token L1 ∧
      (∀ e, get_next_token L1 = .error e → e.is_lexical = true) ∧
      (∀ t2 L2, get_next_token L1 = .ok (t2, L2) →
        t2.type ≠ TOKEN_INDENT ∧ t2.type ≠ TOKEN_EOF ∧
        (t2.type = TOKEN_DEDENT → peek (skip_whitespace L1) = '#' ∧ peek L2 = NUL) ∧
        (t2.type = TOKEN_NEWLINE →
          peek (skip_whitespace L1) = '#' ∨ peek (skip_whitespace L1) = '\n') ∧
        (t2.type ≠ TOKEN_DEDENT → L2.stack = L1.stack)) ∧
      (peek (skip_whitespace L1) ≠ '#' → peek (skip_whitespace L1) ≠ '\n' →
        (∀ again, get_next_token L1 = scan_at again (skip_whitespace L1)) ∧
        ∀ t2 L2, get_next_token L1 = .ok (t2, L2) →
          (t2.type ≠ TOKEN_INDENT ∧ t2.type ≠ TOKEN_DEDENT ∧ t2.type ≠ TOKEN_NEWLINE ∧
            t2.type ≠ TOKEN_EOF) ∧
          L2.src.length < (skip_whitespace L1).src.length) ∧
      (peek (skip_whitespace L1) = '\n' →
        ∃ t2 L2, get_next_token L1 = .ok (t2, L2) ∧ t2.type = TOKEN_NEWLINE) ∧
      (peek (skip_whitespace L1) = '#' →
        ∃ t2 L2, get_next_token L1 = .ok (t2, L2) ∧
          ((peek (skip_comment (advance (skip_whitespace L1))) = '\n' ∧
              t2.type = TOKEN_NEWLINE) ∨
           (peek (skip_comment (advance (skip_whitespace L1))) = NUL ∧
              t2.type = TOKEN_DEDENT ∧ peek L2 = NUL ∧ L2.stack = L.stack))) ∧
      (skip_whitespace L1).src
        = (after_spaces L.src).dropWhile (fun c => c = ' ' || c = '\t') ∧
      ((peek (skip_whitespace L1)).isAlpha = true ∨ peek (skip_whitespace L1) = '_' ∨
          (peek (skip_whitespace L1)).isDigit = true →
        ∃ t2 L2, get_next_token L1 = .ok (t2, L2)) := by
  have h0 : peek L ≠ NUL := peek_ne_NUL_of_nonblank hnb
  have hb := peek_past_spaces_of_nonblank hnb
  have hlt : L.indent_stack_top + 1 < L.indent_levels.length := by rw [hsize]; exact hroom
  have hpush := stack_push L.indent_levels L.indent_stack_top (leading_spaces L.src) hlt
  generalize hL1 : ({ L.past_spaces with
      indent_stack_top := L.indent_stack_top + 1,
      indent_levels := L.indent_levels.set (L.indent_stack_top + 1) (leading_spaces L.src) }
      : Lexer) = L1
  have hflag : L1.at_line_start = false := by rw [← hL1]; rfl
  have htop : L1.indent_stack_top = L.indent_stack_top + 1 := by rw [← hL1]
  have hlev : L1.indent_levels
      = L.indent_levels.set (L.indent_stack_top + 1) (leading_spaces L.src) := by rw [← hL1]
  have hp1 : peek L1 ≠ NUL := by
    rw [← hL1]
    exact fun h => hb (Or.inr h)
  have hg : get_next_token L1 = scan_at (get_next_token_aux 1) (skip_whitespace L1) := by
    rw [get_next_token_scans L1 hp1 hflag]
    rfl
  have hreal : peek (skip_whitespace L1) ≠ '#' → peek (skip_whitespace L1) ≠ '\n' →
      ∀ t2 L2, get_next_token L1 = .ok (t2, L2) →
        (t2.type ≠ TOKEN_INDENT ∧ t2.type ≠ TOKEN_DEDENT ∧ t2.type ≠ TOKEN_NEWLINE ∧
          t2.type ≠ TOKEN_EOF) ∧
        L2.src.length < (skip_whitespace L1).src.length := by
    intro hc hn t2 L2 h2
    rw [hg] at h2
    exact scan_at_real _ _ hn hc t2 L2 h2
  refine ⟨L1, ?_, ?_, ?_, by rw [← hL1]; rfl, ?_, get_next_token_fails L1, ?_, ?_, ?_, ?_, ?_,
    ?_⟩
  · rw [get_next_token_line_start L h0 hstart, line_start_eq, if_neg hb, if_pos hgt,
      if_neg (by simpa using hroom), hL1]
  · unfold Lexer.stack
    rw [htop, hlev]
    exact hpush
  · unfold Lexer.top_width
    rw [htop, hlev]
    simp [List.getD_eq_getElem?_getD, List.getElem?_set, hlt]
  · rw [get_next_token_scans _ hp1 hflag]
    exact (scan_token_budget 1 _ hflag).symm
  · intro t2 L2 h2
    have hin := get_next_token_inner _ hflag t2 L2 h2
    have hsc := get_next_token_scanned _ hflag t2 L2 h2
    refine ⟨?_, ?_, fun hd => ⟨?_, ?_⟩, fun hnl => ?_, fun hd => ?_⟩
    · rcases hin.2.2 with h | h
      · rw [h.1]; decide
      · exact h.1
    · intro he
      rcases hin.2.2 with h | h
      · rw [h.1] at he; exact absurd he (by decide)
      · have := (hsc.1 he).1
        rw [h.2.2.2, htop] at this
        exact absurd this (by omega)
    · by_contra hc
      rw [hg] at h2
      exact (scan_at_quiet _ _ hc t2 L2 h2).2.1 hd
    · rcases hin.2.2 with h | h
      · exact h.2.2.2.2
      · exact absurd hd h.2.1
    · by_contra hc
      simp only [not_or] at hc
      exact (hreal hc.1 hc.2 t2 L2 h2).1.2.2.1 hnl
    · rcases hin.2.2 with h | h
      · exact absurd h.1 hd
      · unfold Lexer.stack
        rw [h.2.2.1, h.2.2.2]
  · intro hc hn
    refine ⟨fun again => ?_, hreal hc hn⟩
    rw [hg]
    exact scan_at_congr _ _ _ hc
  · intro hn
    rw [hg]
    unfold scan_at
    rw [if_pos hn]
    exact ⟨_, _, rfl, rfl⟩
  · intro hc
    have hne : peek (skip_whitespace L1) ≠ '\n' := by rw [hc]; decide
    have hg2 : get_next_token L1
        = get_next_token_aux 1 (skip_comment (advance (skip_whitespace L1))) := by
      rw [hg]
      unfold scan_at
      rw [if_neg hne, if_pos hc]
    have hCflag : (skip_comment (advance (skip_whitespace L1))).at_line_start = false := by
      unfold skip_comment skip_whitespace
      rw [advance_while_at_line_start, advance_at_line_start, advance_while_at_line_start]
      exact hflag
    have hCtop : (skip_comment (advance (skip_whitespace L1))).indent_stack_top
        = L.indent_stack_top + 1 := by
      unfold skip_comment skip_whitespace
      rw [advance_while_indent_stack_top, advance_indent_stack_top,
        advance_while_indent_stack_top]
      exact htop
    have hClev : (skip_comment (advance (skip_whitespace L1))).indent_levels
        = L.indent_levels.set (L.indent_stack_top + 1) (leading_spaces L.src) := by
      unfold skip_comment skip_whitespace
      rw [advance_while_indent_levels, advance_indent_levels, advance_while_indent_levels]
      exact hlev
    rw [hg2, get_next_token_aux]
    rcases peek_skip_comment (advance (skip_whitespace L1)) with hC | hC
    · have hC0 : peek (skip_comment (advance (skip_whitespace L1))) ≠ NUL := by
        rw [hC]; decide
      rw [if_neg hC0]
      simp only [hCflag, Bool.false_eq_true, if_false]
      rw [scan_token_at_newline _ _ hC]
      exact ⟨_, _, rfl, Or.inl ⟨hC, rfl⟩⟩
    · rw [if_pos hC]
      unfold end_of_input
      rw [if_pos (by rw [hCtop]; omega)]
      refine ⟨_, _, rfl, Or.inr ⟨hC, rfl, hC, ?_⟩⟩
      show List.take _ _ = List.take _ _
      simp only [hCtop, hClev, Nat.add_sub_cancel]
      apply List.ext_getElem?
      intro i
      rw [List.getElem?_take, List.getElem?_take]
      split
      · rw [List.getElem?_set_ne (by omega)]
      · rfl
  · unfold skip_whitespace
    rw [advance_while_src, ← hL1]
    rfl
  · intro h
    have hn : peek (skip_whitespace L1) ≠ '\n' := by
      intro hc
      rw [hc] at h
      revert h
      decide
    have hc : peek (skip_whitespace L1) ≠ '#' := by
      intro hc
      rw [hc] at h
      revert h
      decide
    rw [hg]
    unfold scan_at
    rw [if_neg hn, if_neg hc]
    by_cases ha : ((peek (skip_whitespace L1)).isAlpha
        || decide (peek (skip_whitespace L1) = '_')) = true
    · rw [if_pos ha]
      exact ⟨_, _, rfl⟩
    · rw [if_neg ha]
      have hd : (peek (skip_whitespace L1)).isDigit = true := by
        rcases h with h | h | h
        · exact absurd (by simp [h]) ha
        · exact absurd (by simp [h]) ha
        · exact h
      rw [if_pos hd]
      exact ⟨_, _, rfl⟩

/-- Witness of C5 as amended: the line `  b` after `a\n`. -/
theorem C5_witness :
    (lexer_after "a\n  b" 2).at_line_start = true ∧
    (lexer_after "a\n  b" 2).src = [' ', ' ', 'b'] ∧
    (lexer_after "a\n  b" 2).stack = [0] ∧
    call_kinds 3 (lexer_after "a\n  b" 2) = [TOKEN_INDENT, TOKEN_IDENTIFIER, TOKEN_DEDENT] ∧
    call_kinds 3 (lexer_after "a\n  # c\nb" 2) = [TOKEN_INDENT, TOKEN_NEWLINE, TOKEN_DEDENT] ∧
    call_kinds 3 (lexer_after "a\n  # c" 2) = [TOKEN_INDENT, TOKEN_DEDENT, TOKEN_EOF] ∧
    ∃ L1, get_next_token (lexer_after "a\n  b" 2)
        = .ok (⟨TOKEN_INDENT, "<INDENT>", (lexer_after "a\n  b" 2).line,
            (lexer_after "a\n  b" 2).column
              + leading_spaces (lexer_after "a\n  b" 2).src⟩, L1) ∧
      L1.stack = (lexer_after "a\n  b" 2).stack
        ++ [leading_spaces (lexer_after "a\n  b" 2).src] ∧
      L1.top_width = leading_spaces (lexer_after "a\n  b" 2).src ∧
      L1.src = after_spaces (lexer_after "a\n  b" 2).src ∧
      get_next_token L1 = scan_token get_next_token L1 :=
  ⟨by decide!, by decide!, by decide!, by decide!, by decide!, by decide!,
   (fun h => Exists.elim h (fun L1 h1 => ⟨L1, h1.1, h1.2.1, h1.2.2.1, h1.2.2.2.1, h1.2.2.2.2.1⟩))
     (C5_indent_is_pushed_once (lexer_after "a\n  b" 2) (by decide!) (by decide!) (by decide!)
       (by decide!) (by decide!))⟩

end Fluent
